import Mathlib

/-!
# Orchestra API: the capacity-bounded registration engine

A shallow embedding of the registration ledger
(`internal/infra/storage/postgres/postgres.go`) and of the registration
facade (`internal/service/registrations/registrations.go`).

Tables are lists of rows, a SQL statement is a function on those lists, and
every Go method is a function from the database state to the new state and
the returned `(string, error)` pair, rendered as `Except`.
-/

namespace Orchestra

/-! ## Data model -/

/-- A row of `club_members`: the columns read and written by the storage layer. -/
structure MemberRow where
  id : Nat
  fullName : String
  email : String
  phone : String
  status : String
deriving DecidableEq, Repr

/-- A row of `events`: the columns of `UpdateEvent`, the id first. -/
structure EventRow where
  id : Int
  title : String
  description : String
  eventType : Int
  eventDate : Int
  location : Int
  capacity : Int
deriving DecidableEq, Repr

/-- A row of `registrations`: `user_id`, `event_id`, `registration_status`. -/
structure RegistrationRow where
  userId : Nat
  eventId : Int
  status : String
deriving DecidableEq, Repr

/-- The database state: the three tables the registration engine touches. -/
structure Db where
  members : List MemberRow
  events : List EventRow
  registrations : List RegistrationRow
deriving DecidableEq, Repr

/-- Sentinel errors of `internal/infra/storage/storage.go` that the registration
paths return, and `wrapped` for a driver error passed on with `%w`. -/
inductive StorageErr where
  | ErrMemberNotFound
  | ErrEventNotFound
  | ErrRegNotFound
  | ErrRegAlreadyExists
  | ErrEventFull
  | wrapped (code : String)
deriving DecidableEq, Repr

/-- Sentinel errors of package `service`, under the names the registration facade
and the handlers use for them. -/
inductive ServiceErr where
  | ErrMemberNotFound
  | ErrMemberNotApproved
  | ErrEventFull
  | ErrEventNotFound
  | ErrRegAlreadyExists
  | ErrRegistrationFailed
  | ErrRegNotFound
  | ErrCancellationFailed
  | ErrStatusCheckFailed
deriving DecidableEq, Repr

/-- What `QueryRowContext(...).Scan` can fail with: `sql.ErrNoRows`, or a
`*pq.Error` carrying an SQLSTATE code. -/
inductive ScanErr where
  | noRows
  | pq (code : String)
deriving DecidableEq, Repr

deriving instance DecidableEq for Except

/-! ## SQL building blocks -/

/-- The predicate `r.event_id = e AND r.registration_status = 'registered'`. -/
def isRegisteredFor (e : Int) (r : RegistrationRow) : Bool :=
  decide (r.eventId = e) && decide (r.status = "registered")

/-- The subquery `SELECT COUNT(*) FROM registrations r WHERE r.event_id = e.id
AND r.registration_status = 'registered'`. -/
def registeredCount (regs : List RegistrationRow) (e : Int) : Nat :=
  regs.countP (isRegisteredFor e)

/-- The predicate `user_id = m AND event_id = e`. -/
def isPair (m : Nat) (e : Int) (r : RegistrationRow) : Bool :=
  decide (r.userId = m) && decide (r.eventId = e)

/-- The subquery `EXISTS (SELECT 1 FROM registrations WHERE user_id = m AND event_id = e)`. -/
def pairExists (regs : List RegistrationRow) (m : Nat) (e : Int) : Bool :=
  regs.any (isPair m e)

/-- The CTE `event_data`: one `(capacity, current_count)` row for each row of
`events` with `id = eventID`. -/
def eventData (db : Db) (eventID : Int) : List (Int × Nat) :=
  (db.events.filter (fun e => decide (e.id = eventID))).map
    (fun e => (e.capacity, registeredCount db.registrations e.id))

/-- The condition `event_data.current_count < event_data.capacity` on one row. -/
def hasRoom (d : Int × Nat) : Bool :=
  decide ((d.2 : Int) < d.1)

/-- The WHERE clause of the CTE `upd` for one row of `registrations`: the row is
of the pair, is cancelled, and joins with a row of `event_data` that has room. -/
def updMatches (db : Db) (memberID : Nat) (eventID : Int) (r : RegistrationRow) : Bool :=
  isPair memberID eventID r && decide (r.status = "cancelled") &&
    (eventData db eventID).any hasRoom

/-- The table after the CTE `upd`: every matching row gets status `registered`. -/
def updTable (db : Db) (memberID : Nat) (eventID : Int) : List RegistrationRow :=
  db.registrations.map
    (fun r => if updMatches db memberID eventID r then { r with status := "registered" } else r)

/-- The rows `upd` returns: the new status of every updated row. -/
def updReturning (db : Db) (memberID : Nat) (eventID : Int) : List String :=
  ((db.registrations.filter (updMatches db memberID eventID)).map
    (fun r => ({ r with status := "registered" } : RegistrationRow).status))

/-- The rows the CTE `ins` selects for insertion: one per row of `event_data`
that has room, provided no row of the pair exists in the snapshot. -/
def insSelected (db : Db) (memberID : Nat) (eventID : Int) : List RegistrationRow :=
  ((eventData db eventID).filter
    (fun d => hasRoom d && !pairExists db.registrations memberID eventID)).map
    (fun _ => { userId := memberID, eventId := eventID, status := "registered" })

/-- Modelled from the spec: the uniqueness constraint on `(user_id, event_id)` of
the `registrations` relation, whose schema is not in the sources. Rows are
inserted one at a time; a row whose pair is already present aborts the
statement with SQLSTATE 23505. -/
def insertUnique (table : List RegistrationRow) :
    List RegistrationRow → Except ScanErr (List RegistrationRow)
  | [] => .ok table
  | r :: rest =>
    if pairExists table r.userId r.eventId then .error (.pq "23505")
    else insertUnique (table ++ [r]) rest

/-- The row a first registration inserts. -/
def newRow (m : Nat) (e : Int) : RegistrationRow :=
  { userId := m, eventId := e, status := "registered" }

/-- The lookup `SELECT EXISTS(SELECT 1 FROM events WHERE id = $1)`. -/
def eventExists (db : Db) (eventID : Int) : Bool :=
  db.events.any (fun e => decide (e.id = eventID))

/-- The lookup `SELECT EXISTS(SELECT 1 FROM club_members WHERE id = $1)`. -/
def memberExists (db : Db) (memberID : Nat) : Bool :=
  db.members.any (fun m => decide (m.id = memberID))

/-- The registration statement of `RegisterForEvent`, run as one atomic unit on
the snapshot `db`. The result is the new `registrations` table and the rows of
`SELECT .. FROM upd UNION ALL SELECT .. FROM ins`, or the error that aborted the
statement (the table is then the snapshot).

`fkMember` says whether the schema (not in the sources) declares
`registrations.user_id` a foreign key into `club_members`; when it does, an
insert for an unknown member aborts with SQLSTATE 23503. -/
def registerStmt (fkMember : Bool) (db : Db) (memberID : Nat) (eventID : Int) :
    Except ScanErr (List RegistrationRow × List String) :=
  let selected := insSelected db memberID eventID
  match insertUnique (updTable db memberID eventID) selected with
  | .error e => .error e
  | .ok table =>
    if fkMember && !selected.isEmpty && !memberExists db memberID then .error (.pq "23503")
    else .ok (table, updReturning db memberID eventID ++ selected.map (fun r => r.status))

/-- The method `Scan(&status)` of a `*sql.Row`: the first row, or `sql.ErrNoRows`. -/
def scanFirst : List String → Except ScanErr String
  | [] => .error .noRows
  | s :: _ => .ok s

/-! ## The storage methods -/

/-- The error branch of `PostgresStorage.RegisterForEvent`: the code 23505 first,
then the two existence lookups, then `sql.ErrNoRows`, then the error itself. -/
def registerError (db : Db) (memberID : Nat) (eventID : Int) (err : ScanErr) : StorageErr :=
  if err = .pq "23505" then .ErrRegAlreadyExists
  else if !eventExists db eventID then .ErrEventNotFound
  else if !memberExists db memberID then .ErrMemberNotFound
  else match err with
    | .noRows => .ErrEventFull
    | .pq code => .wrapped code

/-- The method `PostgresStorage.RegisterForEvent`. -/
def PostgresStorage.RegisterForEvent (fkMember : Bool) (db : Db) (memberID : Nat) (eventID : Int) :
    Db × Except StorageErr String :=
  match registerStmt fkMember db memberID eventID with
  | .error e => (db, .error (registerError db memberID eventID e))
  | .ok (table, rows) =>
    let db1 : Db := { db with registrations := table }
    match scanFirst rows with
    | .error e => (db1, .error (registerError db1 memberID eventID e))
    | .ok status => (db1, .ok status)

/-- The method `PostgresStorage.CancelRegistration`: `UPDATE registrations SET
registration_status = 'cancelled' WHERE user_id = $1 AND event_id = $2
RETURNING registration_status`. -/
def PostgresStorage.CancelRegistration (db : Db) (memberID : Nat) (eventID : Int) :
    Db × Except StorageErr String :=
  let table := db.registrations.map
    (fun r => if isPair memberID eventID r then { r with status := "cancelled" } else r)
  let rows := (db.registrations.filter (isPair memberID eventID)).map
    (fun r => ({ r with status := "cancelled" } : RegistrationRow).status)
  match scanFirst rows with
  | .error .noRows => ({ db with registrations := table }, .error .ErrRegNotFound)
  | .error (.pq code) => ({ db with registrations := table }, .error (.wrapped code))
  | .ok status => ({ db with registrations := table }, .ok status)

/-- The method `PostgresStorage.GetRegistrationStatus`: `SELECT registration_status
FROM registrations WHERE user_id = $1 AND event_id = $2`. -/
def PostgresStorage.GetRegistrationStatus (db : Db) (memberID : Nat) (eventID : Int) :
    Except StorageErr String :=
  match scanFirst ((db.registrations.filter (isPair memberID eventID)).map (fun r => r.status)) with
  | .error .noRows => .error .ErrRegNotFound
  | .error (.pq code) => .error (.wrapped code)
  | .ok status => .ok status

/-- The method `PostgresStorage.CheckIsApproved`: `SELECT status FROM club_members
WHERE id = $1`, compared with `model.StatusApproved`. -/
def PostgresStorage.CheckIsApproved (db : Db) (id : Nat) : Except StorageErr Bool :=
  match scanFirst ((db.members.filter (fun m => decide (m.id = id))).map (fun m => m.status)) with
  | .error .noRows => .error .ErrMemberNotFound
  | .error (.pq code) => .error (.wrapped code)
  | .ok status => .ok (decide (status = "approved"))

/-! ## The facade (`registrations.Service`) -/

/-- The method `Service.RegisterForEvent`. -/
def Service.RegisterForEvent (fkMember : Bool) (db : Db) (memberID : Nat) (eventID : Int) :
    Db × Except ServiceErr String :=
  match PostgresStorage.CheckIsApproved db memberID with
  | .error err =>
    if err = .ErrMemberNotFound then (db, .error .ErrMemberNotFound)
    else (db, .error .ErrRegistrationFailed)
  | .ok approved =>
    if !approved then (db, .error .ErrMemberNotApproved)
    else
      match PostgresStorage.RegisterForEvent fkMember db memberID eventID with
      | (db1, .error err) =>
        if err = .ErrEventFull then (db1, .error .ErrEventFull)
        else if err = .ErrEventNotFound then (db1, .error .ErrEventNotFound)
        else if err = .ErrRegAlreadyExists then (db1, .error .ErrRegAlreadyExists)
        else (db1, .error .ErrRegistrationFailed)
      | (db1, .ok status) => (db1, .ok status)

/-- The method `Service.CancelRegistration`. -/
def Service.CancelRegistration (db : Db) (memberID : Nat) (eventID : Int) :
    Db × Except ServiceErr String :=
  match PostgresStorage.CancelRegistration db memberID eventID with
  | (db1, .error err) =>
    if err = .ErrRegNotFound then (db1, .error .ErrRegNotFound)
    else (db1, .error .ErrCancellationFailed)
  | (db1, .ok status) => (db1, .ok status)

/-- The method `Service.GetRegistrationStatus`. -/
def Service.GetRegistrationStatus (db : Db) (memberID : Nat) (eventID : Int) :
    Except ServiceErr String :=
  match PostgresStorage.GetRegistrationStatus db memberID eventID with
  | .error err =>
    if err = .ErrRegNotFound then .error .ErrRegNotFound
    else .error .ErrStatusCheckFailed
  | .ok status => .ok status

/-! ## Call sequences and the ledger predicates -/

/-- One call of the ledger interface `RegStorage`. -/
inductive Call where
  | register (memberID : Nat) (eventID : Int)
  | cancel (memberID : Nat) (eventID : Int)
  | status (memberID : Nat) (eventID : Int)
deriving DecidableEq, Repr

/-- The state after one ledger call; `GetRegistrationStatus` only reads. -/
def step (fkMember : Bool) (db : Db) : Call → Db
  | .register m e => (PostgresStorage.RegisterForEvent fkMember db m e).1
  | .cancel m e => (PostgresStorage.CancelRegistration db m e).1
  | .status _ _ => db

/-- The state after a sequence of ledger calls, run one after the other. -/
def run (fkMember : Bool) (db : Db) (calls : List Call) : Db :=
  calls.foldl (step fkMember) db

/-- The key `(user_id, event_id)` of a registration row. -/
def pairOf (r : RegistrationRow) : Nat × Int := (r.userId, r.eventId)

/-- At most one registration row per `(user_id, event_id)` pair. -/
def UniquePairs (regs : List RegistrationRow) : Prop :=
  (regs.map pairOf).Nodup

/-- The column `events.id` identifies an event: no two rows share an id. -/
def UniqueEventIds (events : List EventRow) : Prop :=
  (events.map (fun e => e.id)).Nodup

/-- The capacity invariant: every event holds at most `capacity` registered rows. -/
def CapacityInv (db : Db) : Prop :=
  ∀ e ∈ db.events, (registeredCount db.registrations e.id : Int) ≤ e.capacity

instance (regs : List RegistrationRow) : Decidable (UniquePairs regs) := by
  unfold UniquePairs; infer_instance

instance (events : List EventRow) : Decidable (UniqueEventIds events) := by
  unfold UniqueEventIds; infer_instance

instance (db : Db) : Decidable (CapacityInv db) := by
  unfold CapacityInv; infer_instance

/-! ## Sample states -/

/-- An approved member with the given id. -/
def sampleMember (id : Nat) : MemberRow :=
  { id := id, fullName := "", email := "", phone := "", status := "approved" }

/-- An event with the given id and capacity. -/
def sampleEvent (id capacity : Int) : EventRow :=
  { id := id, title := "", description := "", eventType := 0, eventDate := 0,
    location := 0, capacity := capacity }

/-- Members 1, 2, 3 approved; event 10 of capacity 2; member 1 registered, member 2
cancelled. -/
def sampleDb : Db :=
  { members := [sampleMember 1, sampleMember 2, sampleMember 3],
    events := [sampleEvent 10 2],
    registrations := [⟨1, 10, "registered"⟩, ⟨2, 10, "cancelled"⟩] }

/-- Members 1, 2, 3 approved; event 10 of capacity 1, full: member 1 registered,
member 2 cancelled. -/
def sampleFullDb : Db :=
  { members := [sampleMember 1, sampleMember 2, sampleMember 3],
    events := [sampleEvent 10 1],
    registrations := [⟨1, 10, "registered"⟩, ⟨2, 10, "cancelled"⟩] }

/-- A short run on `sampleDb`: member 3 takes the last seat, member 2 finds the
event full, member 1 cancels, member 2 takes the freed seat. -/
def sampleCalls : List Call :=
  [.register 3 10, .register 2 10, .cancel 1 10, .status 1 10, .register 2 10]

/-! ## The facade over its interfaces

`registrations.Service` holds its ledger and its member directory as the
interfaces `RegStorage` and `MemberStorage`; the methods below are the facade
for any implementation of the two. -/

/-- The interface `RegStorage` of package `registrations`. -/
structure RegStorage where
  RegisterForEvent : Db → Nat → Int → Db × Except StorageErr String
  CancelRegistration : Db → Nat → Int → Db × Except StorageErr String
  GetRegistrationStatus : Db → Nat → Int → Except StorageErr String

/-- The interface `MemberStorage` of package `registrations`. -/
structure MemberStorage where
  CheckIsApproved : Db → Nat → Except StorageErr Bool

/-- The ledger that `PostgresStorage` implements. -/
def postgresRegStorage (fkMember : Bool) : RegStorage :=
  { RegisterForEvent := PostgresStorage.RegisterForEvent fkMember,
    CancelRegistration := PostgresStorage.CancelRegistration,
    GetRegistrationStatus := PostgresStorage.GetRegistrationStatus }

/-- The member directory that `PostgresStorage` implements. -/
def postgresMemberStorage : MemberStorage :=
  { CheckIsApproved := PostgresStorage.CheckIsApproved }

/-- The method `Service.RegisterForEvent` over the two interfaces. -/
def Service.RegisterForEventOver (regStorage : RegStorage) (memberStorage : MemberStorage)
    (db : Db) (memberID : Nat) (eventID : Int) : Db × Except ServiceErr String :=
  match memberStorage.CheckIsApproved db memberID with
  | .error err =>
    if err = .ErrMemberNotFound then (db, .error .ErrMemberNotFound)
    else (db, .error .ErrRegistrationFailed)
  | .ok approved =>
    if !approved then (db, .error .ErrMemberNotApproved)
    else
      match regStorage.RegisterForEvent db memberID eventID with
      | (db1, .error err) =>
        if err = .ErrEventFull then (db1, .error .ErrEventFull)
        else if err = .ErrEventNotFound then (db1, .error .ErrEventNotFound)
        else if err = .ErrRegAlreadyExists then (db1, .error .ErrRegAlreadyExists)
        else (db1, .error .ErrRegistrationFailed)
      | (db1, .ok status) => (db1, .ok status)

/-- The method `Service.CancelRegistration` over the ledger interface. -/
def Service.CancelRegistrationOver (regStorage : RegStorage)
    (db : Db) (memberID : Nat) (eventID : Int) : Db × Except ServiceErr String :=
  match regStorage.CancelRegistration db memberID eventID with
  | (db1, .error err) =>
    if err = .ErrRegNotFound then (db1, .error .ErrRegNotFound)
    else (db1, .error .ErrCancellationFailed)
  | (db1, .ok status) => (db1, .ok status)

/-- The method `Service.GetRegistrationStatus` over the ledger interface. -/
def Service.GetRegistrationStatusOver (regStorage : RegStorage)
    (db : Db) (memberID : Nat) (eventID : Int) : Except ServiceErr String :=
  match regStorage.GetRegistrationStatus db memberID eventID with
  | .error err =>
    if err = .ErrRegNotFound then .error .ErrRegNotFound
    else .error .ErrStatusCheckFailed
  | .ok status => .ok status

/-- The body of `PostgresStorage.RegisterForEvent` from the point where the
statement has run: `stmt` is what the statement did, the rows it returned and
the table it left, or the error that aborted it. -/
def PostgresStorage.registerOutcome (db : Db) (memberID : Nat) (eventID : Int)
    (stmt : Except ScanErr (List RegistrationRow × List String)) :
    Db × Except StorageErr String :=
  match stmt with
  | .error e => (db, .error (registerError db memberID eventID e))
  | .ok (table, rows) =>
    let db1 : Db := { db with registrations := table }
    match scanFirst rows with
    | .error e => (db1, .error (registerError db1 memberID eventID e))
    | .ok status => (db1, .ok status)

/-! ## More predicates and sample states -/

/-- The column `club_members.id` identifies a member: no two rows share an id. -/
def UniqueMemberIds (members : List MemberRow) : Prop :=
  (members.map (fun m => m.id)).Nodup

instance (members : List MemberRow) : Decidable (UniqueMemberIds members) := by
  unfold UniqueMemberIds; infer_instance

/-- Every stored registration status is `registered` or `cancelled`. -/
def KnownStatuses (regs : List RegistrationRow) : Prop :=
  ∀ r ∈ regs, r.status = "registered" ∨ r.status = "cancelled"

instance (regs : List RegistrationRow) : Decidable (KnownStatuses regs) := by
  unfold KnownStatuses; infer_instance

/-- The rows of the pair that hold a seat: status `registered`. -/
def isSeat (m : Nat) (e : Int) (r : RegistrationRow) : Bool :=
  isPair m e r && decide (r.status = "registered")

/-- A member with the given id and status. -/
def sampleMemberWith (id : Nat) (status : String) : MemberRow :=
  { id := id, fullName := "", email := "", phone := "", status := status }

/-- Members 1, 2, 3 approved; event 10 of capacity 2; no registrations. -/
def sampleEmptyDb : Db :=
  { members := [sampleMember 1, sampleMember 2, sampleMember 3],
    events := [sampleEvent 10 2],
    registrations := [] }

/-- Member 1 approved, member 4 pending, member 5 declined; event 10 of capacity 2;
member 4 holds a cancelled row. -/
def sampleGateDb : Db :=
  { members := [sampleMember 1, sampleMemberWith 4 "pending", sampleMemberWith 5 "declined"],
    events := [sampleEvent 10 2],
    registrations := [⟨4, 10, "cancelled"⟩] }

/-- A ledger whose registration statement always meets a unique violation. -/
def sampleClashStorage : RegStorage :=
  { RegisterForEvent := fun db m e =>
      PostgresStorage.registerOutcome db m e (.error (.pq "23505")),
    CancelRegistration := PostgresStorage.CancelRegistration,
    GetRegistrationStatus := PostgresStorage.GetRegistrationStatus }

/-- Two event rows share the id 10, which the key of `events` rules out; on this
state the statement selects two rows of one pair and the second insert meets the
unique violation. -/
def sampleTwinDb : Db :=
  { members := [sampleMember 1],
    events := [sampleEvent 10 2, sampleEvent 10 2],
    registrations := [] }

/-- Member 1 approved; event 10 of capacity 2; member 1 holds a cancelled row for
event 11, which is not in the catalog. -/
def sampleOrphanDb : Db :=
  { members := [sampleMember 1],
    events := [sampleEvent 10 2],
    registrations := [⟨1, 11, "cancelled"⟩] }

/-- A member directory that reports every id as approved: the answer a member got
before the row was removed. -/
def sampleStaleDirectory : MemberStorage :=
  { CheckIsApproved := fun _ _ => .ok true }

/-- A member directory whose lookup fails with a driver error. -/
def sampleBrokenDirectory : MemberStorage :=
  { CheckIsApproved := fun _ _ => .error (.wrapped "08006") }

/-! ## The event catalog (`events` paths of `PostgresStorage`, package `events`) -/

/-- Sentinel errors of package `service` named by `events.Service.UpdateEvent`. -/
inductive EventServiceErr where
  | ErrEventNotFound
  | ErrFailedToUpdate
deriving DecidableEq, Repr

/-- The method `PostgresStorage.UpdateEvent`: `UPDATE events SET title = $1,
description = $2, event_type = $3, event_date = $4, location = $5, capacity = $6
WHERE id = $7`; no affected row is `ErrEventNotFound`. The Go `error` result is
an `Option`, `none` for `nil`. -/
def PostgresStorage.UpdateEvent (db : Db) (id : Int) (title description : String)
    (evType evDate location capacity : Int) : Db × Option StorageErr :=
  let events := db.events.map (fun ev =>
    if ev.id = id then
      { ev with title := title, description := description, eventType := evType,
                eventDate := evDate, location := location, capacity := capacity }
    else ev)
  let rows := (db.events.filter (fun ev => decide (ev.id = id))).length
  if rows = 0 then ({ db with events := events }, some .ErrEventNotFound)
  else ({ db with events := events }, none)

/-- The method `Service.UpdateEvent` of package `events`. -/
def Events.Service.UpdateEvent (db : Db) (id : Int) (title description : String)
    (evType evDate location capacity : Int) : Db × Option EventServiceErr :=
  match PostgresStorage.UpdateEvent db id title description evType evDate location capacity with
  | (db1, some err) =>
    if err = .ErrEventNotFound then (db1, some .ErrEventNotFound)
    else (db1, some .ErrFailedToUpdate)
  | (db1, none) => (db1, none)

/-- A row of `event_types`: the columns the event lists select. -/
structure EventTypeRow where
  id : Int
  name : String
  description : String
deriving DecidableEq, Repr

/-- A row of `locations`: the columns the event lists select. -/
structure LocationRow where
  id : Int
  name : String
  route : String
  features : String
deriving DecidableEq, Repr

/-- The two tables the event lists join with `events`. -/
structure Catalog where
  eventTypes : List EventTypeRow
  locations : List LocationRow
deriving DecidableEq, Repr

/-- The struct `model.Event` as the event lists scan it (timestamps left out). -/
structure Event where
  id : Int
  title : String
  description : String
  eventType : EventTypeRow
  eventDate : Int
  location : LocationRow
  capacity : Int
deriving DecidableEq, Repr

/-- The clause `FROM events e JOIN event_types et ON e.event_type = et.id JOIN
locations l ON e.location = l.id`. -/
def eventJoin (cat : Catalog) (db : Db) : List (EventRow × EventTypeRow × LocationRow) :=
  db.events.flatMap (fun e =>
    (cat.eventTypes.filter (fun et => decide (e.eventType = et.id))).flatMap (fun et =>
      (cat.locations.filter (fun l => decide (e.location = l.id))).map (fun l => (e, et, l))))

/-- The `rows.Scan` of the event lists into a `model.Event`. -/
def scanEvent (t : EventRow × EventTypeRow × LocationRow) : Event :=
  { id := t.1.id, title := t.1.title, description := t.1.description, eventType := t.2.1,
    eventDate := t.1.eventDate, location := t.2.2, capacity := t.1.capacity }

/-- The clause `ORDER BY e.event_date ASC`, as a stable sort. -/
def orderByEventDate (rows : List (EventRow × EventTypeRow × LocationRow)) :
    List (EventRow × EventTypeRow × LocationRow) :=
  rows.mergeSort (fun a b => decide (a.1.eventDate ≤ b.1.eventDate))

/-- The subquery `SELECT reg.event_id FROM registrations reg WHERE reg.user_id = $1
AND reg.registration_status = 'registered'`. -/
def registeredEventIds (db : Db) (memberID : Nat) : List Int :=
  (db.registrations.filter
    (fun r => decide (r.userId = memberID) && decide (r.status = "registered"))).map
    (fun r => r.eventId)

/-- The subquery `SELECT reg.event_id FROM registrations reg WHERE reg.user_id = $1`. -/
def anyStatusEventIds (db : Db) (memberID : Nat) : List Int :=
  (db.registrations.filter (fun r => decide (r.userId = memberID))).map (fun r => r.eventId)

/-- The method `PostgresStorage.GetAvailableEvents`; `now` is `CURRENT_TIMESTAMP`. -/
def PostgresStorage.GetAvailableEvents (cat : Catalog) (db : Db) (now : Int) (memberID : Nat) :
    List Event :=
  (orderByEventDate ((eventJoin cat db).filter (fun t =>
    decide (now ≤ t.1.eventDate) &&
      !(registeredEventIds db memberID).any (fun x => decide (t.1.id = x))))).map scanEvent

/-- The method `PostgresStorage.GetRegisteredEvents`; `now` is `CURRENT_TIMESTAMP`. -/
def PostgresStorage.GetRegisteredEvents (cat : Catalog) (db : Db) (now : Int) (memberID : Nat) :
    List Event :=
  (orderByEventDate ((eventJoin cat db).filter (fun t =>
    decide (now ≤ t.1.eventDate) &&
      (anyStatusEventIds db memberID).any (fun x => decide (t.1.id = x))))).map scanEvent

/-- Members 1, 2 approved; event 10 of capacity 2 holds two registered rows. -/
def sampleSoldOutDb : Db :=
  { members := [sampleMember 1, sampleMember 2, sampleMember 3],
    events := [sampleEvent 10 2],
    registrations := [⟨1, 10, "registered"⟩, ⟨2, 10, "registered"⟩] }

/-- The event type 0 and the location 0 that the sample events refer to. -/
def sampleCatalog : Catalog :=
  { eventTypes := [⟨0, "concert", ""⟩], locations := [⟨0, "hall", "", ""⟩] }

/-! ## Member validation (`internal/model/member.go`)

The two validators are `regexp.MustCompile(..).MatchString`. A pattern is a term
of `Regex`, matched by derivatives; both patterns begin with `^` and end with
`$`, which in Go (no `m` flag) are the start and the end of the text, so
`MatchString` holds when the whole string matches the pattern between them. -/

/-- The regular expressions the two patterns need: a character class is a
predicate on characters. -/
inductive Regex where
  | none
  | eps
  | cls (p : Char → Bool)
  | seq (a b : Regex)
  | alt (a b : Regex)
  | star (a : Regex)

/-- Whether the expression matches the empty string. -/
def Regex.nullable : Regex → Bool
  | .none => false
  | .eps => true
  | .cls _ => false
  | .seq a b => a.nullable && b.nullable
  | .alt a b => a.nullable || b.nullable
  | .star _ => true

/-- The derivative: what is left to match after the character `c`. -/
def Regex.deriv : Regex → Char → Regex
  | .none, _ => .none
  | .eps, _ => .none
  | .cls p, c => if p c then .eps else .none
  | .seq a b, c =>
    if a.nullable then .alt (.seq (a.deriv c) b) (b.deriv c) else .seq (a.deriv c) b
  | .alt a b, c => .alt (a.deriv c) (b.deriv c)
  | .star a, c => .seq (a.deriv c) (.star a)

/-- Whether the whole list of characters matches the expression. -/
def Regex.matchAll : Regex → List Char → Bool
  | r, [] => r.nullable
  | r, c :: cs => (r.deriv c).matchAll cs

/-- The repetition `r{n}`. -/
def Regex.rep (r : Regex) : Nat → Regex
  | 0 => .eps
  | n + 1 => .seq r (rep r n)

/-- The repetition `r+`. -/
def Regex.plus (r : Regex) : Regex := .seq r (.star r)

/-- The class `\d`: in Go the ASCII digits `0` to `9`. -/
def isAsciiDigit (c : Char) : Bool := decide ('0' ≤ c) && decide (c ≤ '9')

/-- The class `[^@]`: every character but `@`, the newline included. -/
def isNotAt (c : Char) : Bool := !decide (c = '@')

/-- The pattern `^7\d{10}$` between its anchors. -/
def phonePattern : Regex :=
  .seq (.cls (fun c => decide (c = '7'))) (Regex.rep (.cls isAsciiDigit) 10)

/-- The pattern `^[^@]+@[^@]+\.[^@]+$` between its anchors. -/
def emailPattern : Regex :=
  .seq (Regex.plus (.cls isNotAt))
    (.seq (.cls (fun c => decide (c = '@')))
      (.seq (Regex.plus (.cls isNotAt))
        (.seq (.cls (fun c => decide (c = '.'))) (Regex.plus (.cls isNotAt)))))

/-- The function `model.IsValidEmail`. -/
def IsValidEmail (email : String) : Bool := emailPattern.matchAll email.toList

/-- The function `model.IsValidPhone`. -/
def IsValidPhone (phone : String) : Bool := phonePattern.matchAll phone.toList

/-! ## The member paths (`PostgresStorage`, package `members`) -/

/-- Sentinel errors of `internal/infra/storage/storage.go` that the member paths
return, and `wrapped` for a driver error passed on with `%w`. -/
inductive MemberErr where
  | ErrMemberNotFound
  | ErrInvalidEmail
  | ErrInvalidPhone
  | ErrEmailDuplicate
  | ErrPhoneDuplicate
  | wrapped (code : String)
deriving DecidableEq, Repr

/-- Sentinel errors of package `service` named by `members.Service`. -/
inductive MemberServiceErr where
  | ErrEmailDuplicate
  | ErrPhoneDuplicate
  | ErrInvalidEmail
  | ErrInvalidPhone
  | ErrFailedToAddMember
  | ErrMemberNotFound
  | ErrUnknownStatus
  | ErrFailedToUpdateMemStatus
  | ErrFailedToGetMembers
deriving DecidableEq, Repr

/-- The helper `isEmailDuplicate`: `SELECT COUNT(*) FROM club_members WHERE email = $1`
is positive. -/
def isEmailDuplicate (db : Db) (email : String) : Bool :=
  decide (0 < db.members.countP (fun m => decide (m.email = email)))

/-- The helper `isPhoneDuplicate`: `SELECT COUNT(*) FROM club_members WHERE phone = $1`
is positive. -/
def isPhoneDuplicate (db : Db) (phone : String) : Bool :=
  decide (0 < db.members.countP (fun m => decide (m.phone = phone)))

/-- The method `PostgresStorage.AddMember`. The statement `INSERT INTO club_members
(full_name, email, phone) VALUES ($1, $2, $3) RETURNING id` with its `Scan` is the
parameter `insert`: the defaults and the constraints of the table are not in the
sources. -/
def PostgresStorage.AddMember
    (insert : Db → String → String → String → Db × Except ScanErr Nat)
    (db : Db) (fullName email phone : String) : Db × Except MemberErr Nat :=
  if !IsValidEmail email then (db, .error .ErrInvalidEmail)
  else if !IsValidPhone phone then (db, .error .ErrInvalidPhone)
  else
    match insert db fullName email phone with
    | (db1, .ok id) => (db1, .ok id)
    | (db1, .error .noRows) => (db1, .error (.wrapped "sql: no rows in result set"))
    | (db1, .error (.pq code)) =>
      if code = "23505" ∧ isEmailDuplicate db1 email = true then (db1, .error .ErrEmailDuplicate)
      else if isPhoneDuplicate db1 phone then (db1, .error .ErrPhoneDuplicate)
      else (db1, .error (.wrapped code))

/-- The interface `MemberStorage` of package `members`: the methods the claims
reach. -/
structure Members.MemberStorage where
  AddMember : Db → String → String → String → Db × Except MemberErr Nat
  GetMembers : Db → Except MemberErr (List MemberRow)
  GetMembersWithStatus : Db → String → Except MemberErr (List MemberRow)
  UpdateMemberStatus : Db → Nat → String → Db × Option MemberErr

/-- The method `Service.AddMember` of package `members`. -/
def Members.Service.AddMember (memberStorage : Members.MemberStorage)
    (db : Db) (fullName email phone : String) : Db × Except MemberServiceErr Nat :=
  match memberStorage.AddMember db fullName email phone with
  | (db1, .error err) =>
    if err = .ErrEmailDuplicate then (db1, .error .ErrEmailDuplicate)
    else if err = .ErrPhoneDuplicate then (db1, .error .ErrPhoneDuplicate)
    else if err = .ErrInvalidEmail then (db1, .error .ErrInvalidEmail)
    else if err = .ErrInvalidPhone then (db1, .error .ErrInvalidPhone)
    else (db1, .error .ErrFailedToAddMember)
  | (db1, .ok id) => (db1, .ok id)

/-- The clause `ORDER BY created_at DESC`, as a stable sort; the column
`created_at`, which `MemberRow` does not hold, is the parameter `createdAt`. -/
def orderByCreatedDesc (createdAt : MemberRow → Int) (rows : List MemberRow) : List MemberRow :=
  rows.mergeSort (fun a b => decide (createdAt b ≤ createdAt a))

/-- The method `PostgresStorage.GetMembers`: `SELECT .. FROM club_members ORDER BY
created_at DESC`. -/
def PostgresStorage.GetMembers (createdAt : MemberRow → Int) (db : Db) :
    Except MemberErr (List MemberRow) :=
  .ok (orderByCreatedDesc createdAt db.members)

/-- The method `PostgresStorage.GetMembersWithStatus`: `SELECT .. FROM club_members
WHERE status = $1 ORDER BY created_at DESC`. -/
def PostgresStorage.GetMembersWithStatus (createdAt : MemberRow → Int) (db : Db)
    (status : String) : Except MemberErr (List MemberRow) :=
  .ok (orderByCreatedDesc createdAt (db.members.filter (fun m => decide (m.status = status))))

/-- The method `PostgresStorage.UpdateMemberStatus`: `UPDATE club_members SET
status=$1 WHERE id=$2`; no affected row is `ErrMemberNotFound`. -/
def PostgresStorage.UpdateMemberStatus (db : Db) (id : Nat) (status : String) :
    Db × Option MemberErr :=
  let members := db.members.map (fun m => if m.id = id then { m with status := status } else m)
  let rowsAffected := (db.members.filter (fun m => decide (m.id = id))).length
  if rowsAffected = 0 then ({ db with members := members }, some .ErrMemberNotFound)
  else ({ db with members := members }, none)

/-- The member storage that `PostgresStorage` implements. -/
def postgresMembers (createdAt : MemberRow → Int)
    (insert : Db → String → String → String → Db × Except ScanErr Nat) :
    Members.MemberStorage :=
  { AddMember := PostgresStorage.AddMember insert,
    GetMembers := PostgresStorage.GetMembers createdAt,
    GetMembersWithStatus := PostgresStorage.GetMembersWithStatus createdAt,
    UpdateMemberStatus := PostgresStorage.UpdateMemberStatus }

/-- The test `status != StatusDeclined && status != StatusApproved && status !=
StatusPending` of package `members`. -/
def unknownStatus (status : String) : Bool :=
  decide (status ≠ "declined") && decide (status ≠ "approved") && decide (status ≠ "pending")

/-- The method `Service.UpdateMemberStatus` of package `members`. -/
def Members.Service.UpdateMemberStatus (memberStorage : Members.MemberStorage)
    (db : Db) (id : Nat) (status : String) : Db × Option MemberServiceErr :=
  if unknownStatus status then (db, some .ErrUnknownStatus)
  else
    match memberStorage.UpdateMemberStatus db id status with
    | (db1, some err) =>
      if err = .ErrMemberNotFound then (db1, some .ErrMemberNotFound)
      else (db1, some .ErrFailedToUpdateMemStatus)
    | (db1, none) => (db1, none)

/-- The method `Service.GetMembers` of package `members`; `len(status) == 0` is the
empty string. -/
def Members.Service.GetMembers (memberStorage : Members.MemberStorage)
    (db : Db) (status : String) : Except MemberServiceErr (List MemberRow) :=
  if status = "" then
    match memberStorage.GetMembers db with
    | .error _ => .error .ErrFailedToGetMembers
    | .ok members => .ok members
  else if unknownStatus status then .error .ErrUnknownStatus
  else
    match memberStorage.GetMembersWithStatus db status with
    | .error _ => .error .ErrFailedToGetMembers
    | .ok members => .ok members

/-- An insert statement that appends the row with id 100 and status `pending`. -/
def sampleInsert (db : Db) (fullName email phone : String) : Db × Except ScanErr Nat :=
  ({ db with members := db.members ++
      [{ id := 100, fullName := fullName, email := email, phone := phone,
         status := "pending" }] }, .ok 100)

/-- A member storage whose every method fails with a driver error and changes
the state: what a call of the storage would look like. -/
def sampleLoudStorage : Members.MemberStorage :=
  { AddMember := fun db _ _ _ => ({ db with members := [] }, .error (.wrapped "08006")),
    GetMembers := fun _ => .error (.wrapped "08006"),
    GetMembersWithStatus := fun _ _ => .error (.wrapped "08006"),
    UpdateMemberStatus := fun db _ _ => ({ db with members := [] }, some (.wrapped "08006")) }

/-! ## The query of `PostgresStorage.GetEvents` -/

/-- An element of the argument list `args []interface{}` of `GetEvents`: the
dereferenced `*int` or `*time.Time`. -/
inductive SqlArg where
  | int (v : Int)
  | time (t : Int)
deriving DecidableEq, Repr

/-- The text the variable `query` of `GetEvents` starts with. -/
def getEventsSelect : String :=
  "\n" ++
    "\t\tSELECT \n" ++
    "\t\t\te.id, e.title, e.description, e.event_date, e.capacity, e.created_at, e.updated_at,\n" ++
    "\t\t\tet.id, et.name, et.description,\n" ++
    "\t\t\tl.id, l.name, l.route, l.features\n" ++
    "\t\tFROM events e\n" ++
    "\t\tJOIN event_types et ON e.event_type = et.id\n" ++
    "\t\tJOIN locations l ON e.location = l.id\n" ++
    "\t"

/-- The variables `conds`, `args` and `argNum` of `GetEvents`. -/
structure GetEventsVars where
  conds : List String
  args : List SqlArg
  argNum : Nat
deriving DecidableEq, Repr

/-- The three `if .. != nil` blocks of `GetEvents`, in their order: each appends
its condition, formatted with the current `argNum`, and its value, and
increments `argNum`. -/
def getEventsFilters (eventType begin end_ : Option Int) : GetEventsVars :=
  let v0 : GetEventsVars := { conds := [], args := [], argNum := 1 }
  let v1 : GetEventsVars :=
    match eventType with
    | some t =>
      { conds := v0.conds ++ ["e.event_type = $" ++ toString v0.argNum],
        args := v0.args ++ [.int t], argNum := v0.argNum + 1 }
    | none => v0
  let v2 : GetEventsVars :=
    match begin with
    | some b =>
      { conds := v1.conds ++ ["e.event_date >= $" ++ toString v1.argNum],
        args := v1.args ++ [.time b], argNum := v1.argNum + 1 }
    | none => v1
  match end_ with
  | some e =>
    { conds := v2.conds ++ ["e.event_date <= $" ++ toString v2.argNum],
      args := v2.args ++ [.time e], argNum := v2.argNum + 1 }
  | none => v2

/-- The query text and the argument list `GetEvents` passes to `PrepareContext`
and `QueryContext`. -/
def PostgresStorage.getEventsQuery (eventType begin end_ : Option Int) :
    String × List SqlArg :=
  let v := getEventsFilters eventType begin end_
  let query :=
    if v.conds.length > 0 then getEventsSelect ++ " WHERE " ++ " AND ".intercalate v.conds
    else getEventsSelect
  (query ++ " ORDER BY e.event_date ASC", v.args)

/-- How many of the three optional filters are present. -/
def presentFilters (eventType begin end_ : Option Int) : Nat :=
  (if eventType.isSome then 1 else 0) + (if begin.isSome then 1 else 0) +
    (if end_.isSome then 1 else 0)

/-! ## Lemmas on the SQL building blocks -/

theorem isPair_iff (m : Nat) (e : Int) (r : RegistrationRow) :
    isPair m e r = true ↔ r.userId = m ∧ r.eventId = e := by
  simp [isPair]

theorem isPair_eq_pairOf (m : Nat) (e : Int) (r : RegistrationRow) :
    isPair m e r = true ↔ pairOf r = (m, e) := by
  simp [isPair, pairOf, Prod.ext_iff]

theorem pairExists_iff (regs : List RegistrationRow) (m : Nat) (e : Int) :
    pairExists regs m e = true ↔ (m, e) ∈ regs.map pairOf := by
  simp only [pairExists, List.any_eq_true, List.mem_map]
  constructor
  · rintro ⟨r, hr, hp⟩
    exact ⟨r, hr, (isPair_eq_pairOf m e r).1 hp⟩
  · rintro ⟨r, hr, hp⟩
    exact ⟨r, hr, (isPair_eq_pairOf m e r).2 hp⟩

theorem pairExists_false_iff (regs : List RegistrationRow) (m : Nat) (e : Int) :
    pairExists regs m e = false ↔ ∀ r ∈ regs, isPair m e r = false := by
  simp [pairExists]

/-- A table without a row of the pair is left alone by any update of the pair. -/
theorem map_pair_eq_self (regs : List RegistrationRow) (m : Nat) (e : Int)
    (c : RegistrationRow → Bool) (f : RegistrationRow → RegistrationRow)
    (h : pairExists regs m e = false) :
    regs.map (fun r => if (isPair m e r && c r) = true then f r else r) = regs := by
  rw [pairExists_false_iff] at h
  conv_rhs => rw [← List.map_id regs]
  apply List.map_congr_left
  intro r hr
  simp [h r hr]

theorem filter_pair_eq_nil (regs : List RegistrationRow) (m : Nat) (e : Int)
    (c : RegistrationRow → Bool) (h : pairExists regs m e = false) :
    regs.filter (fun r => isPair m e r && c r) = [] := by
  rw [pairExists_false_iff] at h
  rw [List.filter_eq_nil_iff]
  intro r hr
  simp [h r hr]

/-- Under the key constraint of `events`, the rows with the id of a stored event
are that single event. -/
theorem filter_id_eq_singleton (events : List EventRow) (ev : EventRow)
    (hu : UniqueEventIds events) (hmem : ev ∈ events) :
    events.filter (fun x => decide (x.id = ev.id)) = [ev] := by
  induction events with
  | nil => cases hmem
  | cons x xs ih =>
    unfold UniqueEventIds at hu ih
    rw [List.map_cons, List.nodup_cons] at hu
    rcases List.mem_cons.1 hmem with h | h
    · subst h
      have hnil : xs.filter (fun x => decide (x.id = ev.id)) = [] := by
        rw [List.filter_eq_nil_iff]
        intro y hy hy2
        apply hu.1
        rw [List.mem_map]
        exact ⟨y, hy, by simpa using hy2⟩
      simp [List.filter_cons, hnil]
    · have hne : x.id ≠ ev.id := by
        intro heq
        apply hu.1
        rw [List.mem_map]
        exact ⟨ev, h, heq.symm⟩
      simp [List.filter_cons, hne, ih hu.2 h]

theorem eventData_of_mem (db : Db) (ev : EventRow)
    (hu : UniqueEventIds db.events) (hmem : ev ∈ db.events) :
    eventData db ev.id = [(ev.capacity, registeredCount db.registrations ev.id)] := by
  simp [eventData, filter_id_eq_singleton db.events ev hu hmem]

theorem eventData_of_not_exists (db : Db) (e : Int) (h : eventExists db e = false) :
    eventData db e = [] := by
  simp only [eventExists, List.any_eq_false] at h
  simp only [eventData, List.map_eq_nil_iff, List.filter_eq_nil_iff]
  intro x hx
  exact h x hx

theorem eventExists_of_mem (db : Db) (ev : EventRow) (hmem : ev ∈ db.events) :
    eventExists db ev.id = true := by
  simp only [eventExists, List.any_eq_true]
  exact ⟨ev, hmem, by simp⟩

/-! ## Lemmas on the registration statement -/

theorem updMatches_pair (db : Db) (m : Nat) (e : Int) (r : RegistrationRow)
    (h : updMatches db m e r = true) :
    isPair m e r = true ∧ r.status = "cancelled" ∧ (eventData db e).any hasRoom = true := by
  simpa [updMatches, and_assoc] using h

theorem updTable_eq_self (db : Db) (m : Nat) (e : Int)
    (h : ∀ r ∈ db.registrations, updMatches db m e r = false) :
    updTable db m e = db.registrations := by
  unfold updTable
  conv_rhs => rw [← List.map_id db.registrations]
  apply List.map_congr_left
  intro r hr
  simp [h r hr]

theorem updReturning_eq_nil (db : Db) (m : Nat) (e : Int)
    (h : ∀ r ∈ db.registrations, updMatches db m e r = false) :
    updReturning db m e = [] := by
  unfold updReturning
  rw [List.map_eq_nil_iff, List.filter_eq_nil_iff]
  intro r hr
  simp [h r hr]

theorem updMatches_false_of_no_pair (db : Db) (m : Nat) (e : Int)
    (h : pairExists db.registrations m e = false) :
    ∀ r ∈ db.registrations, updMatches db m e r = false := by
  intro r hr
  rw [pairExists_false_iff] at h
  simp [updMatches, h r hr]

theorem updMatches_false_of_no_room (db : Db) (m : Nat) (e : Int)
    (h : (eventData db e).any hasRoom = false) :
    ∀ r ∈ db.registrations, updMatches db m e r = false := by
  intro r _
  simp only [updMatches, h, Bool.and_false]

theorem updTable_pairs (db : Db) (m : Nat) (e : Int) :
    (updTable db m e).map pairOf = db.registrations.map pairOf := by
  unfold updTable
  rw [List.map_map]
  apply List.map_congr_left
  intro r _
  by_cases h : updMatches db m e r = true <;> simp [h, pairOf]

theorem updTable_length (db : Db) (m : Nat) (e : Int) :
    (updTable db m e).length = db.registrations.length := by
  simp [updTable]

theorem insSelected_eq_replicate (db : Db) (m : Nat) (e : Int) :
    insSelected db m e =
      List.replicate
        ((eventData db e).filter
          (fun d => hasRoom d && !pairExists db.registrations m e)).length
        { userId := m, eventId := e, status := "registered" } := by
  unfold insSelected
  exact List.map_const' _ _

theorem insSelected_of_pair (db : Db) (m : Nat) (e : Int)
    (h : pairExists db.registrations m e = true) : insSelected db m e = [] := by
  simp [insSelected, h]

theorem insSelected_of_no_room (db : Db) (m : Nat) (e : Int)
    (h : (eventData db e).any hasRoom = false) : insSelected db m e = [] := by
  simp only [List.any_eq_false] at h
  simp only [insSelected, List.map_eq_nil_iff, List.filter_eq_nil_iff]
  intro d hd
  simp [h d hd]

theorem pairExists_append_self (t : List RegistrationRow) (r : RegistrationRow) :
    pairExists (t ++ [r]) r.userId r.eventId = true := by
  simp [pairExists, isPair]

/-- Inserting `k` copies of one row: nothing for `k = 0`, the row for `k = 1` when
its pair is new, and a unique violation otherwise. -/
theorem insertUnique_replicate (t : List RegistrationRow) (r : RegistrationRow) (k : Nat) :
    insertUnique t (List.replicate k r) =
      if k = 0 then .ok t
      else if k = 1 ∧ pairExists t r.userId r.eventId = false then .ok (t ++ [r])
      else .error (.pq "23505") := by
  cases k with
  | zero => simp [insertUnique]
  | succ k =>
    cases k with
    | zero =>
      cases h : pairExists t r.userId r.eventId <;> simp [List.replicate, insertUnique, h]
    | succ k =>
      cases h : pairExists t r.userId r.eventId <;>
        simp [List.replicate, insertUnique, h, pairExists_append_self]

/-- A successful insert appends the rows and keeps the pairs unique. -/
theorem insertUnique_ok (rows t t1 : List RegistrationRow)
    (h : insertUnique t rows = .ok t1) :
    t1 = t ++ rows ∧ (UniquePairs t → UniquePairs t1) := by
  induction rows generalizing t with
  | nil =>
    simp only [insertUnique, Except.ok.injEq] at h
    subst h
    simp
  | cons r rest ih =>
    cases hp : pairExists t r.userId r.eventId with
    | true => simp [insertUnique, hp] at h
    | false =>
      simp only [insertUnique, hp, Bool.false_eq_true, if_false] at h
      obtain ⟨h1, h2⟩ := ih (t ++ [r]) h
      refine ⟨by simpa using h1, fun hu => h2 ?_⟩
      unfold UniquePairs at hu ⊢
      rw [List.map_append, List.nodup_append]
      refine ⟨hu, by simp, ?_⟩
      intro a ha hb
      simp only [List.map_cons, List.map_nil, List.mem_singleton] at hb
      subst hb
      have : pairExists t r.userId r.eventId = true := (pairExists_iff t _ _).2 ha
      rw [hp] at this
      cases this

/-- The three outcomes of `PostgresStorage.RegisterForEvent`: an error with the
state as it was, a flip of the cancelled rows of the pair, or one appended row. -/
theorem RegisterForEvent_cases (fk : Bool) (db : Db) (m : Nat) (e : Int) :
    ((PostgresStorage.RegisterForEvent fk db m e).1 = db ∧
        ∃ err, (PostgresStorage.RegisterForEvent fk db m e).2 = .error err) ∨
    ((eventData db e).any hasRoom = true ∧
        (∃ r ∈ db.registrations, updMatches db m e r = true) ∧
        PostgresStorage.RegisterForEvent fk db m e =
          ({ db with registrations := updTable db m e }, .ok "registered")) ∨
    ((eventData db e).any hasRoom = true ∧ pairExists db.registrations m e = false ∧
        PostgresStorage.RegisterForEvent fk db m e =
          ({ db with registrations := db.registrations ++ [newRow m e] }, .ok "registered")) := by
  cases hpe : pairExists db.registrations m e with
  | true =>
    have hsel := insSelected_of_pair db m e hpe
    by_cases hm : ∃ r ∈ db.registrations, updMatches db m e r = true
    · right; left
      obtain ⟨r, hr, hrm⟩ := hm
      refine ⟨(updMatches_pair db m e r hrm).2.2, ⟨r, hr, hrm⟩, ?_⟩
      have hret : ∃ tl, updReturning db m e = "registered" :: tl := by
        unfold updReturning
        have hmem : r ∈ db.registrations.filter (updMatches db m e) :=
          List.mem_filter.2 ⟨hr, hrm⟩
        cases hf : db.registrations.filter (updMatches db m e) with
        | nil => rw [hf] at hmem; cases hmem
        | cons a as => exact ⟨_, rfl⟩
      obtain ⟨tl, htl⟩ := hret
      simp [PostgresStorage.RegisterForEvent, registerStmt, hsel, insertUnique, htl, scanFirst]
    · left
      have hnone : ∀ r ∈ db.registrations, updMatches db m e r = false := by
        intro r hr
        cases h : updMatches db m e r with
        | false => rfl
        | true => exact absurd ⟨r, hr, h⟩ hm
      simp [PostgresStorage.RegisterForEvent, registerStmt, hsel, insertUnique,
        updTable_eq_self db m e hnone, updReturning_eq_nil db m e hnone, scanFirst]
  | false =>
    have hnone := updMatches_false_of_no_pair db m e hpe
    have htab := updTable_eq_self db m e hnone
    have hret := updReturning_eq_nil db m e hnone
    cases hroom : (eventData db e).any hasRoom with
    | false =>
      left
      have hsel := insSelected_of_no_room db m e hroom
      simp [PostgresStorage.RegisterForEvent, registerStmt, hsel, insertUnique, htab, hret,
        scanFirst]
    | true =>
      have hsel := insSelected_eq_replicate db m e
      generalize hk : ((eventData db e).filter
          (fun d => hasRoom d && !pairExists db.registrations m e)).length = k at hsel
      have hins := insertUnique_replicate db.registrations
        { userId := m, eventId := e, status := "registered" } k
      simp only [hpe] at hins
      by_cases hk1 : k = 1
      · subst hk1
        cases hfk : (fk && !memberExists db m) with
        | true =>
          left
          simp only [Bool.and_eq_true, Bool.not_eq_true', Bool.not_eq_eq_eq_not,
            Bool.not_true] at hfk
          simp only [PostgresStorage.RegisterForEvent, registerStmt, hsel, htab, hret, hins]
          simp [hfk.1, hfk.2]
        | false =>
          right; right
          refine ⟨rfl, rfl, ?_⟩
          have hfk2 : (fk && !(List.replicate 1 (newRow m e)).isEmpty && !memberExists db m)
              = false := by
            simpa using hfk
          simp only [PostgresStorage.RegisterForEvent, registerStmt, hsel, htab, hret, hins]
          simp only [newRow] at hfk2
          simp only [hfk2]
          simp [scanFirst, newRow]
      · left
        by_cases hk0 : k = 0
        · subst hk0
          simp only [PostgresStorage.RegisterForEvent, registerStmt, hsel, htab, hret, hins]
          simp [scanFirst]
        · simp only [PostgresStorage.RegisterForEvent, registerStmt, hsel, htab, hret, hins]
          simp [hk0, hk1]

/-- With no row updated and no row selected for insertion, the statement returns
no row and the method takes its error branch on the unchanged state. -/
theorem RegisterForEvent_noRows (fk : Bool) (db : Db) (m : Nat) (e : Int)
    (hupd : ∀ r ∈ db.registrations, updMatches db m e r = false)
    (hins : insSelected db m e = []) :
    PostgresStorage.RegisterForEvent fk db m e = (db, .error (registerError db m e .noRows)) := by
  simp [PostgresStorage.RegisterForEvent, registerStmt, hins, insertUnique,
    updTable_eq_self db m e hupd, updReturning_eq_nil db m e hupd, scanFirst]

/-! ## Counting registered rows -/

/-- Flipping rows of the pair `(m, e)` to `registered` leaves the count of every
other event alone. -/
theorem count_flip_other (l : List RegistrationRow) (m : Nat) (e e1 : Int)
    (c : RegistrationRow → Bool) (hc : ∀ r, c r = true → isPair m e r = true) (hne : e1 ≠ e) :
    registeredCount
      (l.map (fun r => if c r = true then { r with status := "registered" } else r)) e1 =
    registeredCount l e1 := by
  unfold registeredCount
  rw [List.countP_map]
  apply List.countP_congr
  intro r _
  by_cases h : c r = true
  · have hp := (isPair_iff m e r).1 (hc r h)
    have : r.eventId ≠ e1 := by rw [hp.2]; exact fun h2 => hne h2.symm
    simp [h, isRegisteredFor, this]
  · simp [h]

/-- Under the uniqueness of pairs, flipping rows of one pair to `registered`
adds at most one registered row. -/
theorem count_flip_le (l : List RegistrationRow) (m : Nat) (e e1 : Int)
    (c : RegistrationRow → Bool) (hc : ∀ r, c r = true → isPair m e r = true)
    (hu : UniquePairs l) :
    registeredCount
      (l.map (fun r => if c r = true then { r with status := "registered" } else r)) e1 ≤
    registeredCount l e1 + 1 := by
  induction l with
  | nil => simp [registeredCount]
  | cons r rest ih =>
    unfold UniquePairs at hu ih
    rw [List.map_cons, List.nodup_cons] at hu
    by_cases h : c r = true
    · have hp := (isPair_eq_pairOf m e r).1 (hc r h)
      have hrest : ∀ x ∈ rest, c x = false := by
        intro x hx
        cases hcx : c x with
        | false => rfl
        | true =>
          exfalso
          apply hu.1
          rw [hp, List.mem_map]
          exact ⟨x, hx, (isPair_eq_pairOf m e x).1 (hc x hcx)⟩
      have hmap : rest.map (fun r => if c r = true then { r with status := "registered" } else r)
          = rest := by
        conv_rhs => rw [← List.map_id rest]
        apply List.map_congr_left
        intro x hx
        simp [hrest x hx]
      rw [List.map_cons, hmap]
      unfold registeredCount
      rw [List.countP_cons, List.countP_cons]
      simp only [h, if_true]
      split <;> split <;> omega
    · have := ih hu.2
      unfold registeredCount at this ⊢
      rw [List.map_cons, List.countP_cons, List.countP_cons]
      simp only [h]
      simp only [Bool.false_eq_true, if_false]
      omega

/-- Setting rows to `cancelled` never adds a registered row. -/
theorem count_cancel_le (l : List RegistrationRow) (c : RegistrationRow → Bool) (e1 : Int) :
    registeredCount
      (l.map (fun r => if c r = true then { r with status := "cancelled" } else r)) e1 ≤
    registeredCount l e1 := by
  unfold registeredCount
  rw [List.countP_map]
  apply List.countP_mono_left
  intro r _
  by_cases h : c r = true
  · simp [h, isRegisteredFor]
  · simp [h]

theorem count_append_newRow (l : List RegistrationRow) (m : Nat) (e e1 : Int) :
    registeredCount (l ++ [newRow m e]) e1 =
      registeredCount l e1 + (if e = e1 then 1 else 0) := by
  unfold registeredCount
  rw [List.countP_append, List.countP_singleton]
  simp [isRegisteredFor, newRow]

/-- When `event_data` has room for a stored event, its count is below its capacity. -/
theorem room_of_mem (db : Db) (ev : EventRow)
    (hu : UniqueEventIds db.events) (hmem : ev ∈ db.events)
    (hroom : (eventData db ev.id).any hasRoom = true) :
    (registeredCount db.registrations ev.id : Int) < ev.capacity := by
  rw [eventData_of_mem db ev hu hmem] at hroom
  simpa [hasRoom] using hroom

/-! ## One ledger call -/

theorem cancel_fst (db : Db) (m : Nat) (e : Int) :
    (PostgresStorage.CancelRegistration db m e).1 =
      { db with registrations := (db.registrations.map
          (fun r => if isPair m e r = true then { r with status := "cancelled" } else r)) } := by
  unfold PostgresStorage.CancelRegistration
  simp only []
  split <;> rfl

theorem cancel_pairs (l : List RegistrationRow) (m : Nat) (e : Int) :
    (l.map (fun r => if isPair m e r = true then { r with status := "cancelled" } else r)).map
      pairOf = l.map pairOf := by
  rw [List.map_map]
  apply List.map_congr_left
  intro r _
  by_cases h : isPair m e r = true <;> simp [h, pairOf]

theorem step_events (fk : Bool) (db : Db) (c : Call) : (step fk db c).events = db.events := by
  cases c with
  | register m e =>
    rcases RegisterForEvent_cases fk db m e with h | h | h
    · simp [step, h.1]
    · simp [step, h.2.2]
    · simp [step, h.2.2]
  | cancel m e => simp [step, cancel_fst]
  | status m e => rfl

theorem step_members (fk : Bool) (db : Db) (c : Call) :
    (step fk db c).members = db.members := by
  cases c with
  | register m e =>
    rcases RegisterForEvent_cases fk db m e with h | h | h
    · simp [step, h.1]
    · simp [step, h.2.2]
    · simp [step, h.2.2]
  | cancel m e => simp [step, cancel_fst]
  | status m e => rfl

/-- One call keeps every pair it found, in place, and appends at most new pairs. -/
theorem step_pairs (fk : Bool) (db : Db) (c : Call) :
    db.registrations.map pairOf <+: (step fk db c).registrations.map pairOf := by
  cases c with
  | register m e =>
    rcases RegisterForEvent_cases fk db m e with h | h | h
    · simp [step, h.1]
    · simp [step, h.2.2, updTable_pairs]
    · simp [step, h.2.2]
  | cancel m e =>
    simp only [step, cancel_fst]
    rw [cancel_pairs]
  | status m e => simp [step]

theorem step_unique (fk : Bool) (db : Db) (c : Call) (hu : UniquePairs db.registrations) :
    UniquePairs (step fk db c).registrations := by
  cases c with
  | register m e =>
    rcases RegisterForEvent_cases fk db m e with h | h | h
    · simpa [step, h.1] using hu
    · unfold UniquePairs at hu ⊢
      simpa [step, h.2.2, updTable_pairs] using hu
    · unfold UniquePairs at hu ⊢
      simp only [step, h.2.2, List.map_append, List.map_cons, List.map_nil]
      rw [List.nodup_append]
      refine ⟨hu, by simp, ?_⟩
      intro a ha hb
      simp only [List.mem_singleton] at hb
      subst hb
      have hex : pairExists db.registrations m e = true :=
        (pairExists_iff db.registrations m e).2 (by simpa [pairOf, newRow] using ha)
      rw [h.2.1] at hex
      cases hex
  | cancel m e =>
    unfold UniquePairs at hu ⊢
    simp only [step, cancel_fst]
    rw [cancel_pairs]
    exact hu
  | status m e => simpa [step] using hu

theorem step_capacity (fk : Bool) (db : Db) (c : Call)
    (hE : UniqueEventIds db.events) (hU : UniquePairs db.registrations)
    (hC : CapacityInv db) : CapacityInv (step fk db c) := by
  cases c with
  | register m e =>
    rcases RegisterForEvent_cases fk db m e with h | h | h
    · simpa [step, h.1] using hC
    · intro ev hev
      simp only [step, h.2.2] at hev ⊢
      have hbase := hC ev hev
      by_cases hid : ev.id = e
      · have hroom := room_of_mem db ev hE hev (by rw [hid]; exact h.1)
        have hle := count_flip_le db.registrations m e ev.id (updMatches db m e)
          (fun r hr => (updMatches_pair db m e r hr).1) hU
        unfold updTable
        omega
      · have heq := count_flip_other db.registrations m e ev.id (updMatches db m e)
          (fun r hr => (updMatches_pair db m e r hr).1) hid
        unfold updTable
        omega
    · intro ev hev
      simp only [step, h.2.2] at hev ⊢
      have hbase := hC ev hev
      rw [count_append_newRow]
      by_cases hid : e = ev.id
      · have hroom := room_of_mem db ev hE hev (by rw [← hid]; exact h.1)
        simp only [hid, if_true]
        omega
      · simp only [hid, if_false]
        omega
  | cancel m e =>
    intro ev hev
    simp only [step, cancel_fst] at hev ⊢
    have hbase := hC ev hev
    have hle := count_cancel_le db.registrations (isPair m e) ev.id
    omega
  | status m e => simpa [step] using hC

theorem run_events (fk : Bool) (calls : List Call) (db : Db) :
    (run fk db calls).events = db.events := by
  induction calls generalizing db with
  | nil => rfl
  | cons c cs ih =>
    simp only [run, List.foldl_cons] at ih ⊢
    rw [ih, step_events]

theorem run_unique (fk : Bool) (calls : List Call) (db : Db)
    (hu : UniquePairs db.registrations) : UniquePairs (run fk db calls).registrations := by
  induction calls generalizing db with
  | nil => exact hu
  | cons c cs ih =>
    simp only [run, List.foldl_cons] at ih ⊢
    exact ih _ (step_unique fk db c hu)

theorem run_capacity (fk : Bool) (calls : List Call) (db : Db)
    (hE : UniqueEventIds db.events) (hU : UniquePairs db.registrations)
    (hC : CapacityInv db) : CapacityInv (run fk db calls) := by
  induction calls generalizing db with
  | nil => exact hC
  | cons c cs ih =>
    simp only [run, List.foldl_cons] at ih ⊢
    exact ih _ (by rw [step_events]; exact hE) (step_unique fk db c hU)
      (step_capacity fk db c hE hU hC)

theorem run_pairs (fk : Bool) (calls : List Call) (db : Db) :
    db.registrations.map pairOf <+: (run fk db calls).registrations.map pairOf := by
  induction calls generalizing db with
  | nil => simp [run]
  | cons c cs ih =>
    simp only [run, List.foldl_cons] at ih ⊢
    exact List.IsPrefix.trans (step_pairs fk db c) (ih _)

/-! ## Cancellation and lookup -/

theorem filter_pair_ne_nil (l : List RegistrationRow) (m : Nat) (e : Int)
    (h : pairExists l m e = true) : ∃ r0 rest, l.filter (isPair m e) = r0 :: rest := by
  simp only [pairExists, List.any_eq_true] at h
  obtain ⟨r, hr, hp⟩ := h
  have hmem : r ∈ l.filter (isPair m e) := List.mem_filter.2 ⟨hr, hp⟩
  cases hf : l.filter (isPair m e) with
  | nil => rw [hf] at hmem; cases hmem
  | cons a as => exact ⟨a, as, rfl⟩

theorem cancel_of_pair (db : Db) (m : Nat) (e : Int)
    (h : pairExists db.registrations m e = true) :
    PostgresStorage.CancelRegistration db m e =
      ({ db with registrations := (db.registrations.map
          (fun r => if isPair m e r = true then { r with status := "cancelled" } else r)) },
        .ok "cancelled") := by
  obtain ⟨r0, rest, hf⟩ := filter_pair_ne_nil db.registrations m e h
  simp [PostgresStorage.CancelRegistration, hf, scanFirst]

theorem cancel_of_no_pair (db : Db) (m : Nat) (e : Int)
    (h : pairExists db.registrations m e = false) :
    PostgresStorage.CancelRegistration db m e = (db, .error .ErrRegNotFound) := by
  have hf : db.registrations.filter (isPair m e) = [] := by
    rw [pairExists_false_iff] at h
    rw [List.filter_eq_nil_iff]
    intro r hr
    simp [h r hr]
  have hmap : db.registrations.map
      (fun r => if isPair m e r = true then { r with status := "cancelled" } else r)
        = db.registrations := by
    rw [pairExists_false_iff] at h
    conv_rhs => rw [← List.map_id db.registrations]
    apply List.map_congr_left
    intro r hr
    simp [h r hr]
  simp [PostgresStorage.CancelRegistration, hf, hmap, scanFirst]

theorem pairExists_of_pairs_eq (l1 l2 : List RegistrationRow) (m : Nat) (e : Int)
    (h : l1.map pairOf = l2.map pairOf) : pairExists l1 m e = pairExists l2 m e := by
  rw [Bool.eq_iff_iff, pairExists_iff, pairExists_iff, h]

/-- Two rows of a table with unique pairs that share their pair are one row. -/
theorem row_eq_of_unique (l : List RegistrationRow) (hu : UniquePairs l)
    (a b : RegistrationRow) (ha : a ∈ l) (hb : b ∈ l) (hab : pairOf a = pairOf b) : a = b :=
  List.inj_on_of_nodup_map hu ha hb hab

theorem get_of_unique (db : Db) (m : Nat) (e : Int) (hu : UniquePairs db.registrations)
    (r0 : RegistrationRow) (hr : r0 ∈ db.registrations) (hp : isPair m e r0 = true) :
    PostgresStorage.GetRegistrationStatus db m e = .ok r0.status := by
  have hex : pairExists db.registrations m e = true := by
    simp only [pairExists, List.any_eq_true]
    exact ⟨r0, hr, hp⟩
  obtain ⟨a, rest, hf⟩ := filter_pair_ne_nil db.registrations m e hex
  have ha : a ∈ db.registrations.filter (isPair m e) := by rw [hf]; simp
  rw [List.mem_filter] at ha
  have hEq : a = r0 := row_eq_of_unique db.registrations hu a r0 ha.1 hr
    (by rw [(isPair_eq_pairOf m e a).1 ha.2, (isPair_eq_pairOf m e r0).1 hp])
  subst hEq
  simp [PostgresStorage.GetRegistrationStatus, hf, scanFirst]

theorem get_of_no_pair (db : Db) (m : Nat) (e : Int)
    (h : pairExists db.registrations m e = false) :
    PostgresStorage.GetRegistrationStatus db m e = .error .ErrRegNotFound := by
  have hf : db.registrations.filter (isPair m e) = [] := by
    rw [pairExists_false_iff] at h
    rw [List.filter_eq_nil_iff]
    intro r hr
    simp [h r hr]
  simp [PostgresStorage.GetRegistrationStatus, hf, scanFirst]

theorem get_of_pair_ok (db : Db) (m : Nat) (e : Int)
    (h : pairExists db.registrations m e = true) :
    ∃ s, PostgresStorage.GetRegistrationStatus db m e = .ok s := by
  obtain ⟨a, rest, hf⟩ := filter_pair_ne_nil db.registrations m e h
  exact ⟨a.status, by simp [PostgresStorage.GetRegistrationStatus, hf, scanFirst]⟩

/-! ## Registration: the three decisive situations -/

theorem registerError_noRows (db : Db) (m : Nat) (e : Int) :
    registerError db m e .noRows =
      if eventExists db e = false then .ErrEventNotFound
      else if memberExists db m = false then .ErrMemberNotFound
      else .ErrEventFull := by
  cases h1 : eventExists db e <;> cases h2 : memberExists db m <;>
    simp [registerError, h1, h2]

theorem memberExists_of_approved (db : Db) (m : Nat) (b : Bool)
    (h : PostgresStorage.CheckIsApproved db m = .ok b) : memberExists db m = true := by
  unfold PostgresStorage.CheckIsApproved at h
  cases hf : db.members.filter (fun x => decide (x.id = m)) with
  | nil => simp [hf, scanFirst] at h
  | cons a rest =>
    have ha : a ∈ db.members.filter (fun x => decide (x.id = m)) := by rw [hf]; simp
    rw [List.mem_filter] at ha
    simp only [memberExists, List.any_eq_true]
    exact ⟨a, ha.1, ha.2⟩

/-- A first registration with room: the statement inserts the one row. -/
theorem register_insert (fk : Bool) (db : Db) (m : Nat) (ev : EventRow)
    (hE : UniqueEventIds db.events) (hev : ev ∈ db.events)
    (hme : memberExists db m = true)
    (hno : pairExists db.registrations m ev.id = false)
    (hroom : (registeredCount db.registrations ev.id : Int) < ev.capacity) :
    PostgresStorage.RegisterForEvent fk db m ev.id =
      ({ db with registrations := db.registrations ++ [newRow m ev.id] }, .ok "registered") := by
  have hnone := updMatches_false_of_no_pair db m ev.id hno
  have htab := updTable_eq_self db m ev.id hnone
  have hret := updReturning_eq_nil db m ev.id hnone
  have hsel : insSelected db m ev.id = [newRow m ev.id] := by
    simp [insSelected, eventData_of_mem db ev hE hev, hasRoom, hroom, hno, newRow]
  have hins : insertUnique db.registrations [newRow m ev.id] =
      .ok (db.registrations ++ [newRow m ev.id]) := by
    simp [insertUnique, newRow, hno]
  simp only [PostgresStorage.RegisterForEvent, registerStmt, hsel, htab, hret, hins]
  simp [hme, scanFirst, newRow]

/-- A cancelled row of the pair and room: the statement flips the row. -/
theorem register_flip (fk : Bool) (db : Db) (m : Nat) (e : Int)
    (r0 : RegistrationRow) (hr : r0 ∈ db.registrations) (hm : updMatches db m e r0 = true) :
    PostgresStorage.RegisterForEvent fk db m e =
      ({ db with registrations := updTable db m e }, .ok "registered") := by
  have hpe : pairExists db.registrations m e = true := by
    simp only [pairExists, List.any_eq_true]
    exact ⟨r0, hr, (updMatches_pair db m e r0 hm).1⟩
  have hsel := insSelected_of_pair db m e hpe
  have hret : ∃ tl, updReturning db m e = "registered" :: tl := by
    unfold updReturning
    have hmem : r0 ∈ db.registrations.filter (updMatches db m e) :=
      List.mem_filter.2 ⟨hr, hm⟩
    cases hf : db.registrations.filter (updMatches db m e) with
    | nil => rw [hf] at hmem; cases hmem
    | cons a as => exact ⟨_, rfl⟩
  obtain ⟨tl, htl⟩ := hret
  simp [PostgresStorage.RegisterForEvent, registerStmt, hsel, insertUnique, htl, scanFirst]

/-- No room: the statement touches nothing and returns no row. -/
theorem register_no_room (fk : Bool) (db : Db) (m : Nat) (e : Int)
    (h : (eventData db e).any hasRoom = false) :
    PostgresStorage.RegisterForEvent fk db m e = (db, .error (registerError db m e .noRows)) :=
  RegisterForEvent_noRows fk db m e (updMatches_false_of_no_room db m e h)
    (insSelected_of_no_room db m e h)

/-- The row of the pair is already registered: the statement touches nothing and
returns no row, whatever the count. -/
theorem register_when_registered (fk : Bool) (db : Db) (m : Nat) (e : Int)
    (hu : UniquePairs db.registrations) (r0 : RegistrationRow) (hr : r0 ∈ db.registrations)
    (hp : isPair m e r0 = true) (hs : r0.status = "registered") :
    PostgresStorage.RegisterForEvent fk db m e = (db, .error (registerError db m e .noRows)) := by
  have hpe : pairExists db.registrations m e = true := by
    simp only [pairExists, List.any_eq_true]
    exact ⟨r0, hr, hp⟩
  apply RegisterForEvent_noRows fk db m e _ (insSelected_of_pair db m e hpe)
  intro r hrm
  cases hmr : updMatches db m e r with
  | false => rfl
  | true =>
    exfalso
    have h3 := updMatches_pair db m e r hmr
    have hEq : r = r0 := row_eq_of_unique db.registrations hu r r0 hrm hr
      (by rw [(isPair_eq_pairOf m e r).1 h3.1, (isPair_eq_pairOf m e r0).1 hp])
    rw [hEq, hs] at h3
    exact absurd h3.2.1 (by decide)

/-- Under unique pairs and room, the update of `upd` is the flip of the one row. -/
theorem updTable_of_unique (db : Db) (m : Nat) (e : Int)
    (hu : UniquePairs db.registrations) (r0 : RegistrationRow) (hr : r0 ∈ db.registrations)
    (hm : updMatches db m e r0 = true) :
    updTable db m e =
      db.registrations.map (fun r => if r = r0 then { r0 with status := "registered" } else r) := by
  unfold updTable
  apply List.map_congr_left
  intro r hrm
  have h0 := updMatches_pair db m e r0 hm
  by_cases hEq : r = r0
  · subst hEq
    simp [hm]
  · have hf : updMatches db m e r = false := by
      cases hmr : updMatches db m e r with
      | false => rfl
      | true =>
        exfalso
        have h3 := updMatches_pair db m e r hmr
        exact hEq (row_eq_of_unique db.registrations hu r r0 hrm hr
          (by rw [(isPair_eq_pairOf m e r).1 h3.1, (isPair_eq_pairOf m e r0).1 h0.1]))
    simp [hf, hEq]

theorem countP_pair_of_unique (l : List RegistrationRow) (m : Nat) (e : Int)
    (hu : UniquePairs l) (h : pairExists l m e = true) : l.countP (isPair m e) = 1 := by
  induction l with
  | nil => simp [pairExists] at h
  | cons r rest ih =>
    unfold UniquePairs at hu ih
    rw [List.map_cons, List.nodup_cons] at hu
    by_cases hp : isPair m e r = true
    · have hrest : rest.countP (isPair m e) = 0 := by
        rw [List.countP_eq_zero]
        intro x hx hxp
        apply hu.1
        rw [(isPair_eq_pairOf m e r).1 hp, List.mem_map]
        exact ⟨x, hx, (isPair_eq_pairOf m e x).1 hxp⟩
      rw [List.countP_cons_of_pos _ _ hp, hrest]
    · have hex : pairExists rest m e = true := by
        simp only [pairExists, List.any_cons, Bool.or_eq_true] at h
        rcases h with h | h
        · exact absurd h hp
        · exact h
      rw [List.countP_cons_of_neg _ _ hp]
      exact ih hu.2 hex

/-- A pair that has a row keeps exactly one row through any sequence of calls. -/
theorem run_pair_count (fk : Bool) (calls : List Call) (db : Db) (m : Nat) (e : Int)
    (hU : UniquePairs db.registrations) (h : pairExists db.registrations m e = true) :
    (run fk db calls).registrations.countP (isPair m e) = 1 := by
  apply countP_pair_of_unique _ m e (run_unique fk calls db hU)
  rw [pairExists_iff] at h ⊢
  exact (run_pairs fk calls db).subset h

/-! ## The claims -/

/-- C1: sequential capacity invariant. Take a ledger state that satisfies the key
constraints of its tables (one row per event id, one registration row per
member and event) and in which every event holds at most `capacity` registered
rows. After every call of every finite sequence of `RegisterForEvent`,
`CancelRegistration` and `GetRegistrationStatus` calls, for any members and any
events, the events and their capacities are as they were and every event still
holds at most `capacity` registered rows. -/
theorem capacity_invariant_sequential (fk : Bool) (db : Db) (calls : List Call)
    (hE : UniqueEventIds db.events) (hU : UniquePairs db.registrations)
    (hC : CapacityInv db) :
    ∀ n, (run fk db (calls.take n)).events = db.events ∧
      CapacityInv (run fk db (calls.take n)) :=
  fun n => ⟨run_events fk (calls.take n) db, run_capacity fk (calls.take n) db hE hU hC⟩

theorem capacity_invariant_sequential_witness :
    UniqueEventIds sampleDb.events ∧ UniquePairs sampleDb.registrations ∧
      CapacityInv sampleDb ∧
      ∀ n, (run true sampleDb (sampleCalls.take n)).events = sampleDb.events ∧
        CapacityInv (run true sampleDb (sampleCalls.take n)) :=
  ⟨by decide, by decide, by decide,
    capacity_invariant_sequential true sampleDb sampleCalls (by decide) (by decide) (by decide)⟩

/-- C2: first registration. For a stored event `ev` (event ids unique), a member
that `CheckIsApproved` reports as approved, no registration row for the pair and
a registered count strictly below the capacity, `RegisterForEvent` returns
`registered` at the storage and at the service level, the new table is the old
one followed by the single row `(member, event, registered)`, and the registered
count of the event is one higher than before. -/
theorem register_first_time_succeeds (fk : Bool) (db : Db) (m : Nat) (ev : EventRow)
    (hE : UniqueEventIds db.events) (hev : ev ∈ db.events)
    (happ : PostgresStorage.CheckIsApproved db m = .ok true)
    (hno : pairExists db.registrations m ev.id = false)
    (hroom : (registeredCount db.registrations ev.id : Int) < ev.capacity) :
    PostgresStorage.RegisterForEvent fk db m ev.id =
        ({ db with registrations := db.registrations ++ [newRow m ev.id] }, .ok "registered") ∧
      Service.RegisterForEvent fk db m ev.id =
        ({ db with registrations := db.registrations ++ [newRow m ev.id] }, .ok "registered") ∧
      registeredCount (db.registrations ++ [newRow m ev.id]) ev.id =
        registeredCount db.registrations ev.id + 1 := by
  have hst := register_insert fk db m ev hE hev (memberExists_of_approved db m true happ) hno hroom
  refine ⟨hst, ?_, ?_⟩
  · simp [Service.RegisterForEvent, happ, hst]
  · rw [count_append_newRow]
    simp

theorem register_first_time_succeeds_witness :
    PostgresStorage.RegisterForEvent true sampleDb 3 (sampleEvent 10 2).id =
        ({ sampleDb with registrations :=
            sampleDb.registrations ++ [newRow 3 (sampleEvent 10 2).id] }, .ok "registered") ∧
      Service.RegisterForEvent true sampleDb 3 (sampleEvent 10 2).id =
        ({ sampleDb with registrations :=
            sampleDb.registrations ++ [newRow 3 (sampleEvent 10 2).id] }, .ok "registered") ∧
      registeredCount (sampleDb.registrations ++ [newRow 3 (sampleEvent 10 2).id])
          (sampleEvent 10 2).id =
        registeredCount sampleDb.registrations (sampleEvent 10 2).id + 1 :=
  register_first_time_succeeds true sampleDb 3 (sampleEvent 10 2) (by decide) (by decide)
    (by decide) (by decide) (by decide)

/-- C3: full event. For a stored event `ev` (event ids unique) whose registered
count is at least its capacity and a member that `CheckIsApproved` reports as
approved, `RegisterForEvent` fails with `ErrEventFull` at the storage and at the
service level and the state is exactly what it was: no row is inserted and a
cancelled row stays cancelled. This holds whatever row the pair has, so also
when it has none or a cancelled one. -/
theorem register_full_event_fails (fk : Bool) (db : Db) (m : Nat) (ev : EventRow)
    (hE : UniqueEventIds db.events) (hev : ev ∈ db.events)
    (happ : PostgresStorage.CheckIsApproved db m = .ok true)
    (hfull : ev.capacity ≤ (registeredCount db.registrations ev.id : Int)) :
    PostgresStorage.RegisterForEvent fk db m ev.id = (db, .error .ErrEventFull) ∧
      Service.RegisterForEvent fk db m ev.id = (db, .error .ErrEventFull) := by
  have hroom : (eventData db ev.id).any hasRoom = false := by
    rw [eventData_of_mem db ev hE hev]
    simp [hasRoom, hfull]
  have hst : PostgresStorage.RegisterForEvent fk db m ev.id = (db, .error .ErrEventFull) := by
    rw [register_no_room fk db m ev.id hroom, registerError_noRows]
    simp [eventExists_of_mem db ev hev, memberExists_of_approved db m true happ]
  exact ⟨hst, by simp [Service.RegisterForEvent, happ, hst]⟩

theorem register_full_event_fails_witness :
    PostgresStorage.RegisterForEvent true sampleFullDb 2 (sampleEvent 10 1).id =
        (sampleFullDb, .error .ErrEventFull) ∧
      Service.RegisterForEvent true sampleFullDb 2 (sampleEvent 10 1).id =
        (sampleFullDb, .error .ErrEventFull) :=
  register_full_event_fails true sampleFullDb 2 (sampleEvent 10 1) (by decide) (by decide)
    (by decide) (by decide)

/-- C4: re-registration reuses the row. For a stored event `ev` (event ids unique)
with a registered count below its capacity, a table with one row per pair, a
member that `CheckIsApproved` reports as approved, and a row `r0` of the pair
with status `cancelled`: `RegisterForEvent` returns `registered` at the storage
and at the service level, the new table is the old one with the status of `r0`
set to `registered` and every other row as it was, the table has as many rows as
before, exactly one of them is of the pair, and the stored status of the pair is
now `registered`. Whatever calls follow, cancel and register again included, the
pair keeps exactly one row. -/
theorem reregistration_reuses_row (fk : Bool) (db : Db) (m : Nat) (ev : EventRow)
    (r0 : RegistrationRow)
    (hE : UniqueEventIds db.events) (hev : ev ∈ db.events)
    (hU : UniquePairs db.registrations)
    (happ : PostgresStorage.CheckIsApproved db m = .ok true)
    (hr : r0 ∈ db.registrations) (hp : isPair m ev.id r0 = true)
    (hs : r0.status = "cancelled")
    (hroom : (registeredCount db.registrations ev.id : Int) < ev.capacity) :
    PostgresStorage.RegisterForEvent fk db m ev.id =
        ({ db with registrations := (db.registrations.map
            (fun r => if r = r0 then { r0 with status := "registered" } else r)) },
          .ok "registered") ∧
      Service.RegisterForEvent fk db m ev.id =
        ({ db with registrations := (db.registrations.map
            (fun r => if r = r0 then { r0 with status := "registered" } else r)) },
          .ok "registered") ∧
      (PostgresStorage.RegisterForEvent fk db m ev.id).1.registrations.length =
        db.registrations.length ∧
      (PostgresStorage.RegisterForEvent fk db m ev.id).1.registrations.countP
        (isPair m ev.id) = 1 ∧
      PostgresStorage.GetRegistrationStatus (PostgresStorage.RegisterForEvent fk db m ev.id).1
        m ev.id = .ok "registered" ∧
      ∀ calls : List Call,
        (run fk db (.register m ev.id :: calls)).registrations.countP (isPair m ev.id) = 1 := by
  have hmatch : updMatches db m ev.id r0 = true := by
    simp [updMatches, hp, hs, eventData_of_mem db ev hE hev, hasRoom, hroom]
  have hst := register_flip fk db m ev.id r0 hr hmatch
  have hpe : pairExists db.registrations m ev.id = true := by
    simp only [pairExists, List.any_eq_true]
    exact ⟨r0, hr, hp⟩
  have hpairs := updTable_pairs db m ev.id
  have hU1 : UniquePairs (updTable db m ev.id) := by
    unfold UniquePairs at hU ⊢
    rw [hpairs]
    exact hU
  have hpe1 : pairExists (updTable db m ev.id) m ev.id = true := by
    rw [pairExists_of_pairs_eq _ _ m ev.id hpairs]
    exact hpe
  have hmem1 : ({ r0 with status := "registered" } : RegistrationRow) ∈ updTable db m ev.id := by
    unfold updTable
    rw [List.mem_map]
    exact ⟨r0, hr, by simp [hmatch]⟩
  have hget := get_of_unique { db with registrations := updTable db m ev.id } m ev.id hU1
    { r0 with status := "registered" } hmem1 (by simpa [isPair] using hp)
  have htab := updTable_of_unique db m ev.id hU r0 hr hmatch
  refine ⟨?_, ?_, ?_, ?_, ?_, ?_⟩
  · rw [hst, htab]
  · simp [Service.RegisterForEvent, happ, hst, htab]
  · rw [hst]
    exact updTable_length db m ev.id
  · rw [hst]
    exact countP_pair_of_unique _ m ev.id hU1 hpe1
  · rw [hst]
    exact hget
  · intro calls
    exact run_pair_count fk (.register m ev.id :: calls) db m ev.id hU hpe

theorem reregistration_reuses_row_witness :
    PostgresStorage.RegisterForEvent true sampleDb 2 (sampleEvent 10 2).id =
        ({ sampleDb with registrations := (sampleDb.registrations.map
            (fun r => if r = ⟨2, 10, "cancelled"⟩ then
              { (⟨2, 10, "cancelled"⟩ : RegistrationRow) with status := "registered" }
              else r)) },
          .ok "registered") ∧
      Service.RegisterForEvent true sampleDb 2 (sampleEvent 10 2).id =
        ({ sampleDb with registrations := (sampleDb.registrations.map
            (fun r => if r = ⟨2, 10, "cancelled"⟩ then
              { (⟨2, 10, "cancelled"⟩ : RegistrationRow) with status := "registered" }
              else r)) },
          .ok "registered") ∧
      (PostgresStorage.RegisterForEvent true sampleDb 2
          (sampleEvent 10 2).id).1.registrations.length = sampleDb.registrations.length ∧
      (PostgresStorage.RegisterForEvent true sampleDb 2
          (sampleEvent 10 2).id).1.registrations.countP (isPair 2 (sampleEvent 10 2).id) = 1 ∧
      PostgresStorage.GetRegistrationStatus
        (PostgresStorage.RegisterForEvent true sampleDb 2 (sampleEvent 10 2).id).1
        2 (sampleEvent 10 2).id = .ok "registered" ∧
      ∀ calls : List Call,
        (run true sampleDb (.register 2 (sampleEvent 10 2).id :: calls)).registrations.countP
          (isPair 2 (sampleEvent 10 2).id) = 1 :=
  reregistration_reuses_row true sampleDb 2 (sampleEvent 10 2) ⟨2, 10, "cancelled"⟩
    (by decide) (by decide) (by decide) (by decide) (by decide) (by decide) (by decide)
    (by decide)

/-- C5: what the code does on a duplicate. For a stored event, a table with one row
per pair, a member that `CheckIsApproved` reports as approved and a row of the
pair with status `registered`, `RegisterForEvent` leaves the state as it was and
fails with `ErrEventFull` at the storage and at the service level, whatever the
registered count of the event: the error is not `ErrRegAlreadyExists`. -/
theorem duplicate_register_reports_event_full (fk : Bool) (db : Db) (m : Nat)
    (ev : EventRow) (r0 : RegistrationRow)
    (hev : ev ∈ db.events) (hU : UniquePairs db.registrations)
    (happ : PostgresStorage.CheckIsApproved db m = .ok true)
    (hr : r0 ∈ db.registrations) (hp : isPair m ev.id r0 = true)
    (hs : r0.status = "registered") :
    PostgresStorage.RegisterForEvent fk db m ev.id = (db, .error .ErrEventFull) ∧
      Service.RegisterForEvent fk db m ev.id = (db, .error .ErrEventFull) ∧
      (PostgresStorage.RegisterForEvent fk db m ev.id).2 ≠ .error .ErrRegAlreadyExists ∧
      (Service.RegisterForEvent fk db m ev.id).2 ≠ .error .ErrRegAlreadyExists := by
  have hst : PostgresStorage.RegisterForEvent fk db m ev.id = (db, .error .ErrEventFull) := by
    rw [register_when_registered fk db m ev.id hU r0 hr hp hs, registerError_noRows]
    simp [eventExists_of_mem db ev hev, memberExists_of_approved db m true happ]
  have hsv : Service.RegisterForEvent fk db m ev.id = (db, .error .ErrEventFull) := by
    simp [Service.RegisterForEvent, happ, hst]
  refine ⟨hst, hsv, ?_, ?_⟩
  · rw [hst]
    simp
  · rw [hsv]
    simp

theorem duplicate_register_reports_event_full_witness :
    registeredCount sampleDb.registrations 10 = 1 ∧ (sampleEvent 10 2).capacity = 2 ∧
      PostgresStorage.RegisterForEvent true sampleDb 1 (sampleEvent 10 2).id =
        (sampleDb, .error .ErrEventFull) ∧
      Service.RegisterForEvent true sampleDb 1 (sampleEvent 10 2).id =
        (sampleDb, .error .ErrEventFull) ∧
      (PostgresStorage.RegisterForEvent true sampleDb 1 (sampleEvent 10 2).id).2 ≠
        .error .ErrRegAlreadyExists ∧
      (Service.RegisterForEvent true sampleDb 1 (sampleEvent 10 2).id).2 ≠
        .error .ErrRegAlreadyExists :=
  ⟨by decide, by decide,
    duplicate_register_reports_event_full true sampleDb 1 (sampleEvent 10 2)
      ⟨1, 10, "registered"⟩ (by decide) (by decide) (by decide) (by decide) (by decide)
      (by decide)⟩

/-- C6: no registration from Registered. In every state with one row per pair in
which the row of the pair has status `registered`, `RegisterForEvent` returns an
error, never a status, at the storage and at the service level (for every
member, approved or not, and every event, stored or not), and the state after
the call is exactly the state before it, so no second row of the pair exists. -/
theorem register_from_registered_fails (fk : Bool) (db : Db) (m : Nat) (e : Int)
    (r0 : RegistrationRow) (hU : UniquePairs db.registrations)
    (hr : r0 ∈ db.registrations) (hp : isPair m e r0 = true)
    (hs : r0.status = "registered") :
    (∃ err, PostgresStorage.RegisterForEvent fk db m e = (db, .error err)) ∧
      (∃ err, Service.RegisterForEvent fk db m e = (db, .error err)) := by
  have hst := register_when_registered fk db m e hU r0 hr hp hs
  refine ⟨⟨_, hst⟩, ?_⟩
  unfold Service.RegisterForEvent
  cases happ : PostgresStorage.CheckIsApproved db m with
  | error err =>
    by_cases h : err = .ErrMemberNotFound
    · exact ⟨.ErrMemberNotFound, by simp [h]⟩
    · exact ⟨.ErrRegistrationFailed, by simp [h]⟩
  | ok approved =>
    cases approved with
    | false => exact ⟨.ErrMemberNotApproved, by simp⟩
    | true =>
      simp only [hst, Bool.not_true, Bool.false_eq_true, if_false]
      split_ifs
      · exact ⟨_, rfl⟩
      · exact ⟨_, rfl⟩
      · exact ⟨_, rfl⟩
      · exact ⟨_, rfl⟩

theorem register_from_registered_fails_witness :
    (∃ err, PostgresStorage.RegisterForEvent true sampleFullDb 1 10 =
        (sampleFullDb, .error err)) ∧
      (∃ err, Service.RegisterForEvent true sampleFullDb 1 10 = (sampleFullDb, .error err)) :=
  register_from_registered_fails true sampleFullDb 1 10 ⟨1, 10, "registered"⟩
    (by decide) (by decide) (by decide) (by decide)

/-- C7: uniqueness invariant. If the table holds at most one row per
`(user_id, event_id)` pair, then after every call of every finite sequence of
`RegisterForEvent`, `CancelRegistration` and `GetRegistrationStatus` calls it
still holds at most one row per pair. No call deletes a row: from any state, the
pairs of the rows before a call, or before a sequence of calls, are in the same
order the first pairs of the rows after it. -/
theorem uniqueness_invariant_sequential (fk : Bool) (db : Db) (calls : List Call)
    (hU : UniquePairs db.registrations) :
    (∀ n, UniquePairs (run fk db (calls.take n)).registrations) ∧
      (∀ (d : Db) (c : Call),
        d.registrations.map pairOf <+: (step fk d c).registrations.map pairOf) ∧
      (∀ (d : Db) (cs : List Call),
        d.registrations.map pairOf <+: (run fk d cs).registrations.map pairOf) :=
  ⟨fun n => run_unique fk (calls.take n) db hU, fun d c => step_pairs fk d c,
    fun d cs => run_pairs fk cs d⟩

theorem uniqueness_invariant_sequential_witness :
    UniquePairs sampleDb.registrations ∧
      (∀ n, UniquePairs (run true sampleDb (sampleCalls.take n)).registrations) ∧
      (∀ (d : Db) (c : Call),
        d.registrations.map pairOf <+: (step true d c).registrations.map pairOf) ∧
      (∀ (d : Db) (cs : List Call),
        d.registrations.map pairOf <+: (run true d cs).registrations.map pairOf) :=
  ⟨by decide, uniqueness_invariant_sequential true sampleDb sampleCalls (by decide)⟩

/-- C8: cancellation succeeds exactly when a row of the pair exists. When one
exists, whatever its status, `CancelRegistration` returns `cancelled`, the rows
of the pair get status `cancelled` and every other row is as it was; when none
exists it fails with `ErrRegNotFound` and the state is as it was. The service
method returns the same state and status, and `service.ErrRegNotFound`. -/
theorem cancel_succeeds_iff_row_exists (db : Db) (m : Nat) (e : Int) :
    PostgresStorage.CancelRegistration db m e =
        (if pairExists db.registrations m e = true then
          ({ db with registrations := (db.registrations.map
              (fun r => if isPair m e r = true then { r with status := "cancelled" } else r)) },
            .ok "cancelled")
        else (db, .error .ErrRegNotFound)) ∧
      Service.CancelRegistration db m e =
        (if pairExists db.registrations m e = true then
          ({ db with registrations := (db.registrations.map
              (fun r => if isPair m e r = true then { r with status := "cancelled" } else r)) },
            .ok "cancelled")
        else (db, .error .ErrRegNotFound)) := by
  cases h : pairExists db.registrations m e with
  | true =>
    have hst := cancel_of_pair db m e h
    exact ⟨by simpa using hst, by simp [Service.CancelRegistration, hst]⟩
  | false =>
    have hst := cancel_of_no_pair db m e h
    exact ⟨by simpa using hst, by simp [Service.CancelRegistration, hst]⟩

/-- C9: cancel is idempotent. For every state and pair with a row, the first and
the second `CancelRegistration` both return `cancelled` without error, at the
storage and at the service level, and the state after the second call equals the
state after the first. -/
theorem cancel_idempotent (db : Db) (m : Nat) (e : Int)
    (h : pairExists db.registrations m e = true) :
    (PostgresStorage.CancelRegistration db m e).2 = .ok "cancelled" ∧
      PostgresStorage.CancelRegistration (PostgresStorage.CancelRegistration db m e).1 m e =
        ((PostgresStorage.CancelRegistration db m e).1, .ok "cancelled") ∧
      (Service.CancelRegistration db m e).2 = .ok "cancelled" ∧
      Service.CancelRegistration (Service.CancelRegistration db m e).1 m e =
        ((Service.CancelRegistration db m e).1, .ok "cancelled") := by
  have h1 := cancel_of_pair db m e h
  have hpairs := cancel_pairs db.registrations m e
  have hfst := cancel_fst db m e
  have hex1 : pairExists (PostgresStorage.CancelRegistration db m e).1.registrations m e
      = true := by
    rw [hfst]
    rw [pairExists_of_pairs_eq _ _ m e hpairs]
    exact h
  have h2 := cancel_of_pair (PostgresStorage.CancelRegistration db m e).1 m e hex1
  have hsame : (PostgresStorage.CancelRegistration db m e).1.registrations.map
      (fun r => if isPair m e r = true then { r with status := "cancelled" } else r)
        = (PostgresStorage.CancelRegistration db m e).1.registrations := by
    rw [hfst]
    simp only [List.map_map]
    apply List.map_congr_left
    intro r _
    by_cases hp : isPair m e r = true
    · simp [hp, isPair] at *
      simp [hp]
    · simp [hp]
  have h3 : PostgresStorage.CancelRegistration (PostgresStorage.CancelRegistration db m e).1 m e
      = ((PostgresStorage.CancelRegistration db m e).1, .ok "cancelled") := by
    rw [h2, hsame]
  have hs1 : Service.CancelRegistration db m e =
      ((PostgresStorage.CancelRegistration db m e).1, .ok "cancelled") := by
    simp [Service.CancelRegistration, h1]
  refine ⟨by rw [h1], h3, by rw [hs1], ?_⟩
  rw [hs1]
  simp only [Service.CancelRegistration, h3]

theorem cancel_idempotent_witness :
    (PostgresStorage.CancelRegistration sampleDb 1 10).2 = .ok "cancelled" ∧
      PostgresStorage.CancelRegistration (PostgresStorage.CancelRegistration sampleDb 1 10).1
          1 10 =
        ((PostgresStorage.CancelRegistration sampleDb 1 10).1, .ok "cancelled") ∧
      (Service.CancelRegistration sampleDb 1 10).2 = .ok "cancelled" ∧
      Service.CancelRegistration (Service.CancelRegistration sampleDb 1 10).1 1 10 =
        ((Service.CancelRegistration sampleDb 1 10).1, .ok "cancelled") :=
  cancel_idempotent sampleDb 1 10 (by decide)

/-- C10: `GetRegistrationStatus` is a pure lookup. In a table with one row per
pair it returns the stored status of the row of the pair when there is one, it
fails with `ErrRegNotFound` exactly when the pair has no row (the service method
likewise, with `service.ErrRegNotFound`), and the call, which only runs a
`SELECT`, leaves the state as it was. -/
theorem get_status_pure_lookup (fk : Bool) (db : Db) (m : Nat) (e : Int)
    (hU : UniquePairs db.registrations) :
    (∀ r0 ∈ db.registrations, isPair m e r0 = true →
        PostgresStorage.GetRegistrationStatus db m e = .ok r0.status ∧
        Service.GetRegistrationStatus db m e = .ok r0.status) ∧
      (PostgresStorage.GetRegistrationStatus db m e = .error .ErrRegNotFound ↔
        pairExists db.registrations m e = false) ∧
      (Service.GetRegistrationStatus db m e = .error .ErrRegNotFound ↔
        pairExists db.registrations m e = false) ∧
      step fk db (.status m e) = db := by
  refine ⟨?_, ?_, ?_, rfl⟩
  · intro r0 hr hp
    have hg := get_of_unique db m e hU r0 hr hp
    exact ⟨hg, by simp [Service.GetRegistrationStatus, hg]⟩
  · constructor
    · intro hg
      cases hpe : pairExists db.registrations m e with
      | false => rfl
      | true =>
        obtain ⟨s, hs⟩ := get_of_pair_ok db m e hpe
        rw [hs] at hg
        cases hg
    · exact get_of_no_pair db m e
  · constructor
    · intro hg
      cases hpe : pairExists db.registrations m e with
      | false => rfl
      | true =>
        obtain ⟨s, hs⟩ := get_of_pair_ok db m e hpe
        simp [Service.GetRegistrationStatus, hs] at hg
    · intro hpe
      simp [Service.GetRegistrationStatus, get_of_no_pair db m e hpe]

theorem get_status_pure_lookup_witness :
    UniquePairs sampleDb.registrations ∧
      (∀ r0 ∈ sampleDb.registrations, isPair 2 10 r0 = true →
        PostgresStorage.GetRegistrationStatus sampleDb 2 10 = .ok r0.status ∧
        Service.GetRegistrationStatus sampleDb 2 10 = .ok r0.status) ∧
      (PostgresStorage.GetRegistrationStatus sampleDb 2 10 = .error .ErrRegNotFound ↔
        pairExists sampleDb.registrations 2 10 = false) ∧
      (Service.GetRegistrationStatus sampleDb 2 10 = .error .ErrRegNotFound ↔
        pairExists sampleDb.registrations 2 10 = false) ∧
      step true sampleDb (.status 2 10) = sampleDb :=
  ⟨by decide, get_status_pure_lookup true sampleDb 2 10 (by decide)⟩

/-! ## The facade and the member directory -/

theorem register_over_postgres (fk : Bool) (db : Db) (m : Nat) (e : Int) :
    Service.RegisterForEventOver (postgresRegStorage fk) postgresMemberStorage db m e =
      Service.RegisterForEvent fk db m e := rfl

theorem cancel_over_postgres (fk : Bool) (db : Db) (m : Nat) (e : Int) :
    Service.CancelRegistrationOver (postgresRegStorage fk) db m e =
      Service.CancelRegistration db m e := rfl

theorem get_over_postgres (fk : Bool) (db : Db) (m : Nat) (e : Int) :
    Service.GetRegistrationStatusOver (postgresRegStorage fk) db m e =
      Service.GetRegistrationStatus db m e := rfl

theorem register_eq_outcome (fk : Bool) (db : Db) (m : Nat) (e : Int) :
    PostgresStorage.RegisterForEvent fk db m e =
      PostgresStorage.registerOutcome db m e (registerStmt fk db m e) := rfl

theorem check_of_unknown (db : Db) (id : Nat) (h : memberExists db id = false) :
    PostgresStorage.CheckIsApproved db id = .error .ErrMemberNotFound := by
  have hf : db.members.filter (fun x => decide (x.id = id)) = [] := by
    simp only [memberExists, List.any_eq_false] at h
    rw [List.filter_eq_nil_iff]
    exact h
  simp [PostgresStorage.CheckIsApproved, hf, scanFirst]

/-- Under the key constraint of `club_members`, the rows with the id of a stored
member are that single member. -/
theorem filter_member_eq_singleton (members : List MemberRow) (mr : MemberRow)
    (hu : UniqueMemberIds members) (hmem : mr ∈ members) :
    members.filter (fun x => decide (x.id = mr.id)) = [mr] := by
  induction members with
  | nil => cases hmem
  | cons x xs ih =>
    unfold UniqueMemberIds at hu ih
    rw [List.map_cons, List.nodup_cons] at hu
    rcases List.mem_cons.1 hmem with h | h
    · subst h
      have hnil : xs.filter (fun x => decide (x.id = mr.id)) = [] := by
        rw [List.filter_eq_nil_iff]
        intro y hy hy2
        apply hu.1
        rw [List.mem_map]
        exact ⟨y, hy, by simpa using hy2⟩
      simp [List.filter_cons, hnil]
    · have hne : x.id ≠ mr.id := by
        intro heq
        apply hu.1
        rw [List.mem_map]
        exact ⟨mr, h, heq.symm⟩
      simp [List.filter_cons, hne, ih hu.2 h]

theorem check_of_member (db : Db) (mr : MemberRow)
    (hu : UniqueMemberIds db.members) (hmem : mr ∈ db.members) :
    PostgresStorage.CheckIsApproved db mr.id = .ok (decide (mr.status = "approved")) := by
  simp [PostgresStorage.CheckIsApproved, filter_member_eq_singleton db.members mr hu hmem,
    scanFirst]

theorem check_ok_of_exists (db : Db) (id : Nat) (h : memberExists db id = true) :
    ∃ b, PostgresStorage.CheckIsApproved db id = .ok b := by
  simp only [memberExists, List.any_eq_true] at h
  obtain ⟨x, hx, hid⟩ := h
  have hmem : x ∈ db.members.filter (fun y => decide (y.id = id)) :=
    List.mem_filter.2 ⟨hx, hid⟩
  cases hf : db.members.filter (fun y => decide (y.id = id)) with
  | nil => rw [hf] at hmem; cases hmem
  | cons a rest =>
    exact ⟨decide (a.status = "approved"), by
      simp [PostgresStorage.CheckIsApproved, hf, scanFirst]⟩

/-! ## Claims on the facade and the member directory -/

/-- C11: approval gate. Over any ledger, `Service.RegisterForEvent` returns
`ErrMemberNotFound` when no member row has the id, and `ErrMemberNotApproved` when
the member row (member ids unique) has a status other than `approved`, so for
`pending` and for `declined`. In both cases the result is the same whatever the
ledger would do, the ledger is not called, and the state, every registration
row included, is the state before the call, for every event id. -/
theorem approval_gate (fk : Bool) (regStorage : RegStorage) (db : Db) (m : Nat) (e : Int) :
    (memberExists db m = false →
        Service.RegisterForEventOver regStorage postgresMemberStorage db m e =
          (db, .error .ErrMemberNotFound) ∧
        Service.RegisterForEvent fk db m e = (db, .error .ErrMemberNotFound)) ∧
      (UniqueMemberIds db.members →
        ∀ mr ∈ db.members, mr.id = m → mr.status ≠ "approved" →
          Service.RegisterForEventOver regStorage postgresMemberStorage db m e =
            (db, .error .ErrMemberNotApproved) ∧
          Service.RegisterForEvent fk db m e = (db, .error .ErrMemberNotApproved)) := by
  constructor
  · intro h
    have hc := check_of_unknown db m h
    exact ⟨by simp [Service.RegisterForEventOver, postgresMemberStorage, hc],
      by simp [Service.RegisterForEvent, hc]⟩
  · intro hu mr hmem hid hst
    have hc := check_of_member db mr hu hmem
    rw [hid] at hc
    exact ⟨by simp [Service.RegisterForEventOver, postgresMemberStorage, hc, hst],
      by simp [Service.RegisterForEvent, hc, hst]⟩

theorem approval_gate_witness :
    (Service.RegisterForEventOver sampleClashStorage postgresMemberStorage sampleGateDb 7 10 =
          (sampleGateDb, .error .ErrMemberNotFound) ∧
        Service.RegisterForEvent true sampleGateDb 7 10 =
          (sampleGateDb, .error .ErrMemberNotFound)) ∧
      (Service.RegisterForEventOver sampleClashStorage postgresMemberStorage sampleGateDb 4 10 =
          (sampleGateDb, .error .ErrMemberNotApproved) ∧
        Service.RegisterForEvent true sampleGateDb 4 10 =
          (sampleGateDb, .error .ErrMemberNotApproved)) ∧
      (Service.RegisterForEventOver sampleClashStorage postgresMemberStorage sampleGateDb 5 11 =
          (sampleGateDb, .error .ErrMemberNotApproved) ∧
        Service.RegisterForEvent true sampleGateDb 5 11 =
          (sampleGateDb, .error .ErrMemberNotApproved)) :=
  ⟨(approval_gate true sampleClashStorage sampleGateDb 7 10).1 (by decide),
    (approval_gate true sampleClashStorage sampleGateDb 4 10).2 (by decide)
      (sampleMemberWith 4 "pending") (by decide) (by decide) (by decide),
    (approval_gate true sampleClashStorage sampleGateDb 5 11).2 (by decide)
      (sampleMemberWith 5 "declined") (by decide) (by decide) (by decide)⟩

theorem service_cancel_eq (db : Db) (m : Nat) (e : Int) :
    Service.CancelRegistration db m e =
      (if pairExists db.registrations m e = true then
        ({ db with registrations := (db.registrations.map
            (fun r => if isPair m e r = true then { r with status := "cancelled" } else r)) },
          .ok "cancelled")
      else (db, .error .ErrRegNotFound)) := by
  cases h : pairExists db.registrations m e with
  | true => simp [Service.CancelRegistration, cancel_of_pair db m e h]
  | false => simp [Service.CancelRegistration, cancel_of_no_pair db m e h]

theorem service_get_congr (db db2 : Db) (m : Nat) (e : Int)
    (h : db.registrations = db2.registrations) :
    Service.GetRegistrationStatus db m e = Service.GetRegistrationStatus db2 m e := by
  simp only [Service.GetRegistrationStatus, PostgresStorage.GetRegistrationStatus, h]

/-- C12: no approval gate on cancel and status. Over any ledger, whenever the
ledger operation succeeds `Service.CancelRegistration` returns the state and the
status the ledger returned and `Service.GetRegistrationStatus` returns the
status the ledger returned; no member lookup takes part. For the Postgres
ledger the outcome is a function of the registration rows alone: two states
with the same registrations and any members and events give the same result
and the same registrations afterwards, and members and events are left alone. -/
theorem cancel_and_status_pass_through (regStorage : RegStorage) (db db2 : Db)
    (m : Nat) (e : Int) :
    (∀ d s, regStorage.CancelRegistration db m e = (d, .ok s) →
        Service.CancelRegistrationOver regStorage db m e = (d, .ok s)) ∧
      (∀ s, regStorage.GetRegistrationStatus db m e = .ok s →
        Service.GetRegistrationStatusOver regStorage db m e = .ok s) ∧
      (∀ d s, PostgresStorage.CancelRegistration db m e = (d, .ok s) →
        Service.CancelRegistration db m e = (d, .ok s)) ∧
      (∀ s, PostgresStorage.GetRegistrationStatus db m e = .ok s →
        Service.GetRegistrationStatus db m e = .ok s) ∧
      (db.registrations = db2.registrations →
        (Service.CancelRegistration db m e).2 = (Service.CancelRegistration db2 m e).2 ∧
        (Service.CancelRegistration db m e).1.registrations =
          (Service.CancelRegistration db2 m e).1.registrations ∧
        Service.GetRegistrationStatus db m e = Service.GetRegistrationStatus db2 m e) ∧
      (Service.CancelRegistration db m e).1.members = db.members ∧
      (Service.CancelRegistration db m e).1.events = db.events := by
  refine ⟨?_, ?_, ?_, ?_, ?_, ?_, ?_⟩
  · intro d s h
    simp [Service.CancelRegistrationOver, h]
  · intro s h
    simp [Service.GetRegistrationStatusOver, h]
  · intro d s h
    simp [Service.CancelRegistration, h]
  · intro s h
    simp [Service.GetRegistrationStatus, h]
  · intro h
    refine ⟨?_, ?_, service_get_congr db db2 m e h⟩
    · rw [service_cancel_eq, service_cancel_eq, h]
      split <;> rfl
    · rw [service_cancel_eq, service_cancel_eq, h]
      split
      · rfl
      · exact h
  · rw [service_cancel_eq]
    split <;> rfl
  · rw [service_cancel_eq]
    split <;> rfl

theorem cancel_and_status_pass_through_witness :
    Service.CancelRegistrationOver (postgresRegStorage true) sampleGateDb 4 10 =
        ({ sampleGateDb with registrations := [⟨4, 10, "cancelled"⟩] }, .ok "cancelled") ∧
      Service.GetRegistrationStatus sampleGateDb 4 10 = .ok "cancelled" ∧
      ((Service.CancelRegistration sampleGateDb 4 10).2 =
          (Service.CancelRegistration
            { sampleGateDb with members := [], events := [] } 4 10).2 ∧
        (Service.CancelRegistration sampleGateDb 4 10).1.registrations =
          (Service.CancelRegistration
            { sampleGateDb with members := [], events := [] } 4 10).1.registrations ∧
        Service.GetRegistrationStatus sampleGateDb 4 10 =
          Service.GetRegistrationStatus
            { sampleGateDb with members := [], events := [] } 4 10) :=
  ⟨(cancel_and_status_pass_through (postgresRegStorage true) sampleGateDb sampleGateDb
      4 10).1 _ _ (by decide),
    (cancel_and_status_pass_through (postgresRegStorage true) sampleGateDb sampleGateDb
      4 10).2.2.2.1 _ (by decide),
    (cancel_and_status_pass_through (postgresRegStorage true) sampleGateDb
      { sampleGateDb with members := [], events := [] } 4 10).2.2.2.2.1 (by decide)⟩

/-- C13: `CheckIsApproved` fails with `ErrMemberNotFound` exactly when no member row
has the id. Otherwise, with member ids unique, it returns whether the stored
status of the member equals `approved`: `true` exactly for `approved`, `false`
for `pending` and for `declined`. The method runs one `SELECT` and returns no
state. -/
theorem check_is_approved_lookup (db : Db) (id : Nat) :
    (PostgresStorage.CheckIsApproved db id = .error .ErrMemberNotFound ↔
        memberExists db id = false) ∧
      (UniqueMemberIds db.members → ∀ mr ∈ db.members, mr.id = id →
        PostgresStorage.CheckIsApproved db id = .ok (decide (mr.status = "approved")) ∧
        (PostgresStorage.CheckIsApproved db id = .ok true ↔ mr.status = "approved") ∧
        (mr.status = "pending" → PostgresStorage.CheckIsApproved db id = .ok false) ∧
        (mr.status = "declined" → PostgresStorage.CheckIsApproved db id = .ok false)) := by
  constructor
  · constructor
    · intro h
      cases hme : memberExists db id with
      | false => rfl
      | true =>
        obtain ⟨b, hb⟩ := check_ok_of_exists db id hme
        rw [hb] at h
        cases h
    · exact check_of_unknown db id
  · intro hu mr hmem hid
    have hc := check_of_member db mr hu hmem
    rw [hid] at hc
    refine ⟨hc, ?_, ?_, ?_⟩
    · rw [hc]
      simp
    · intro hs
      rw [hc, hs]
      rfl
    · intro hs
      rw [hc, hs]
      rfl

theorem check_is_approved_lookup_witness :
    PostgresStorage.CheckIsApproved sampleGateDb 7 = .error .ErrMemberNotFound ∧
      PostgresStorage.CheckIsApproved sampleGateDb 1 = .ok true ∧
      PostgresStorage.CheckIsApproved sampleGateDb 4 = .ok false ∧
      PostgresStorage.CheckIsApproved sampleGateDb 5 = .ok false :=
  ⟨(check_is_approved_lookup sampleGateDb 7).1.2 (by decide),
    (((check_is_approved_lookup sampleGateDb 1).2 (by decide) (sampleMember 1)
      (by decide) (by decide)).2.1).2 (by decide),
    ((check_is_approved_lookup sampleGateDb 4).2 (by decide) (sampleMemberWith 4 "pending")
      (by decide) (by decide)).2.2.1 (by decide),
    ((check_is_approved_lookup sampleGateDb 5).2 (by decide) (sampleMemberWith 5 "declined")
      (by decide) (by decide)).2.2.2 (by decide)⟩

/-! ## The capacity-2 scenario -/

theorem service_register_ok (fk : Bool) (db d : Db) (m : Nat) (e : Int) (st : String)
    (happ : PostgresStorage.CheckIsApproved db m = .ok true)
    (h : PostgresStorage.RegisterForEvent fk db m e = (d, .ok st)) :
    Service.RegisterForEvent fk db m e = (d, .ok st) := by
  simp [Service.RegisterForEvent, happ, h]

theorem service_register_full (fk : Bool) (db d : Db) (m : Nat) (e : Int)
    (happ : PostgresStorage.CheckIsApproved db m = .ok true)
    (h : PostgresStorage.RegisterForEvent fk db m e = (d, .error .ErrEventFull)) :
    Service.RegisterForEvent fk db m e = (d, .error .ErrEventFull) := by
  simp [Service.RegisterForEvent, happ, h]

theorem check_congr (db db2 : Db) (m : Nat) (h : db.members = db2.members) :
    PostgresStorage.CheckIsApproved db m = PostgresStorage.CheckIsApproved db2 m := by
  simp only [PostgresStorage.CheckIsApproved, h]

theorem count_of_no_event (l : List RegistrationRow) (e : Int)
    (h : ∀ r ∈ l, r.eventId ≠ e) : registeredCount l e = 0 := by
  unfold registeredCount
  rw [List.countP_eq_zero]
  intro r hr
  simp [isRegisteredFor, h r hr]

theorem isPair_false_of_no_event (l : List RegistrationRow) (m : Nat) (e : Int)
    (h : ∀ r ∈ l, r.eventId ≠ e) : ∀ r ∈ l, isPair m e r = false := by
  intro r hr
  simp [isPair, h r hr]

theorem cancel_map_of_no_event (l : List RegistrationRow) (m : Nat) (e : Int)
    (h : ∀ r ∈ l, r.eventId ≠ e) :
    l.map (fun r => if isPair m e r = true then { r with status := "cancelled" } else r) = l := by
  conv_rhs => rw [← List.map_id l]
  apply List.map_congr_left
  intro r hr
  simp [isPair_false_of_no_event l m e h r hr]

/-- C14: the capacity-2 scenario. For a stored event of capacity 2 (event ids
unique) with no registration row, and three distinct members `a`, `b`, `c` that
`CheckIsApproved` reports as approved, the calls register(a), register(b),
register(c), cancel(a), register(c), each run on the state the one before left,
return `registered`, `registered`, `ErrEventFull`, `cancelled`, `registered` at
the storage and at the service level, and the registered count of the event
after them is 1, 2, 2, 1, 2. -/
theorem capacity_two_scenario (fk : Bool) (db : Db) (ev : EventRow) (a b c : Nat)
    (hE : UniqueEventIds db.events) (hev : ev ∈ db.events) (hcap : ev.capacity = 2)
    (hnone : ∀ r ∈ db.registrations, r.eventId ≠ ev.id)
    (ha : PostgresStorage.CheckIsApproved db a = .ok true)
    (hb : PostgresStorage.CheckIsApproved db b = .ok true)
    (hc : PostgresStorage.CheckIsApproved db c = .ok true)
    (hab : a ≠ b) (hac : a ≠ c) (hbc : b ≠ c) :
    ∃ d1 d2 d4 d5 : Db,
      (PostgresStorage.RegisterForEvent fk db a ev.id = (d1, .ok "registered") ∧
        Service.RegisterForEvent fk db a ev.id = (d1, .ok "registered") ∧
        registeredCount d1.registrations ev.id = 1) ∧
      (PostgresStorage.RegisterForEvent fk d1 b ev.id = (d2, .ok "registered") ∧
        Service.RegisterForEvent fk d1 b ev.id = (d2, .ok "registered") ∧
        registeredCount d2.registrations ev.id = 2) ∧
      (PostgresStorage.RegisterForEvent fk d2 c ev.id = (d2, .error .ErrEventFull) ∧
        Service.RegisterForEvent fk d2 c ev.id = (d2, .error .ErrEventFull) ∧
        registeredCount d2.registrations ev.id = 2) ∧
      (PostgresStorage.CancelRegistration d2 a ev.id = (d4, .ok "cancelled") ∧
        Service.CancelRegistration d2 a ev.id = (d4, .ok "cancelled") ∧
        registeredCount d4.registrations ev.id = 1) ∧
      (PostgresStorage.RegisterForEvent fk d4 c ev.id = (d5, .ok "registered") ∧
        Service.RegisterForEvent fk d4 c ev.id = (d5, .ok "registered") ∧
        registeredCount d5.registrations ev.id = 2) := by
  have h0 : registeredCount db.registrations ev.id = 0 :=
    count_of_no_event db.registrations ev.id hnone
  have hR : ∀ m, db.registrations.any (isPair m ev.id) = false := by
    intro m
    rw [List.any_eq_false]
    intro r hr
    simp [isPair_false_of_no_event db.registrations m ev.id hnone r hr]
  have hba : b ≠ a := fun h => hab h.symm
  have hca : c ≠ a := fun h => hac h.symm
  have hcb : c ≠ b := fun h => hbc h.symm
  -- the four states
  let d1 : Db := { db with registrations := db.registrations ++ [newRow a ev.id] }
  let d2 : Db := { db with registrations :=
    db.registrations ++ [newRow a ev.id] ++ [newRow b ev.id] }
  let d4 : Db := { db with registrations :=
    db.registrations ++ [⟨a, ev.id, "cancelled"⟩] ++ [newRow b ev.id] }
  let d5 : Db := { db with registrations :=
    db.registrations ++ [⟨a, ev.id, "cancelled"⟩] ++ [newRow b ev.id] ++ [newRow c ev.id] }
  have c1 : registeredCount d1.registrations ev.id = 1 := by
    show registeredCount (db.registrations ++ [newRow a ev.id]) ev.id = 1
    rw [count_append_newRow, h0]
    simp
  have c2 : registeredCount d2.registrations ev.id = 2 := by
    show registeredCount (db.registrations ++ [newRow a ev.id] ++ [newRow b ev.id]) ev.id = 2
    rw [count_append_newRow, count_append_newRow, h0]
    simp
  have c4 : registeredCount d4.registrations ev.id = 1 := by
    show registeredCount
      (db.registrations ++ [⟨a, ev.id, "cancelled"⟩] ++ [newRow b ev.id]) ev.id = 1
    rw [count_append_newRow]
    unfold registeredCount at h0 ⊢
    rw [List.countP_append, h0]
    simp [isRegisteredFor]
  have c5 : registeredCount d5.registrations ev.id = 2 := by
    show registeredCount (d4.registrations ++ [newRow c ev.id]) ev.id = 2
    rw [count_append_newRow, c4]
    simp
  -- register(a)
  have s1 : PostgresStorage.RegisterForEvent fk db a ev.id = (d1, .ok "registered") :=
    register_insert fk db a ev hE hev (memberExists_of_approved db a true ha)
      (by simpa [pairExists] using hR a) (by rw [h0, hcap]; decide)
  -- register(b)
  have s2 : PostgresStorage.RegisterForEvent fk d1 b ev.id = (d2, .ok "registered") :=
    register_insert fk d1 b ev hE hev (memberExists_of_approved d1 b true hb)
      (by
        show pairExists (db.registrations ++ [newRow a ev.id]) b ev.id = false
        simp [pairExists, List.any_append, hR b, isPair, newRow, hab])
      (by rw [c1, hcap]; decide)
  -- register(c) on the full event
  have hroom : (eventData d2 ev.id).any hasRoom = false := by
    rw [eventData_of_mem d2 ev hE hev, c2]
    simp [hasRoom, hcap]
  have s3 : PostgresStorage.RegisterForEvent fk d2 c ev.id = (d2, .error .ErrEventFull) := by
    rw [register_no_room fk d2 c ev.id hroom, registerError_noRows]
    simp [eventExists_of_mem d2 ev hev, memberExists_of_approved d2 c true hc]
  -- cancel(a)
  have hpe : pairExists d2.registrations a ev.id = true := by
    show pairExists (db.registrations ++ [newRow a ev.id] ++ [newRow b ev.id]) a ev.id = true
    simp [pairExists, List.any_append, isPair, newRow]
  have hmap : d2.registrations.map
      (fun r => if isPair a ev.id r = true then { r with status := "cancelled" } else r)
        = d4.registrations := by
    show (db.registrations ++ [newRow a ev.id] ++ [newRow b ev.id]).map
      (fun r => if isPair a ev.id r = true then { r with status := "cancelled" } else r)
        = db.registrations ++ [⟨a, ev.id, "cancelled"⟩] ++ [newRow b ev.id]
    rw [List.map_append, List.map_append, cancel_map_of_no_event db.registrations a ev.id hnone]
    simp [isPair, newRow, hba]
  have s4 : PostgresStorage.CancelRegistration d2 a ev.id = (d4, .ok "cancelled") := by
    rw [cancel_of_pair d2 a ev.id hpe, hmap]
  -- register(c) on the freed seat
  have s5 : PostgresStorage.RegisterForEvent fk d4 c ev.id = (d5, .ok "registered") :=
    register_insert fk d4 c ev hE hev (memberExists_of_approved d4 c true hc)
      (by
        show pairExists
          (db.registrations ++ [⟨a, ev.id, "cancelled"⟩] ++ [newRow b ev.id]) c ev.id = false
        simp [pairExists, List.any_append, hR c, isPair, newRow, hac, hbc])
      (by rw [c4, hcap]; decide)
  refine ⟨d1, d2, d4, d5, ⟨s1, service_register_ok fk db d1 a ev.id _ ha s1, c1⟩,
    ⟨s2, service_register_ok fk d1 d2 b ev.id _ hb s2, c2⟩,
    ⟨s3, service_register_full fk d2 d2 c ev.id hc s3, c2⟩,
    ⟨s4, ?_, c4⟩,
    ⟨s5, service_register_ok fk d4 d5 c ev.id _ hc s5, c5⟩⟩
  simp [Service.CancelRegistration, s4]

theorem capacity_two_scenario_witness :
    ∃ d1 d2 d4 d5 : Db,
      (PostgresStorage.RegisterForEvent true sampleEmptyDb 1 (sampleEvent 10 2).id =
          (d1, .ok "registered") ∧
        Service.RegisterForEvent true sampleEmptyDb 1 (sampleEvent 10 2).id =
          (d1, .ok "registered") ∧
        registeredCount d1.registrations (sampleEvent 10 2).id = 1) ∧
      (PostgresStorage.RegisterForEvent true d1 2 (sampleEvent 10 2).id =
          (d2, .ok "registered") ∧
        Service.RegisterForEvent true d1 2 (sampleEvent 10 2).id = (d2, .ok "registered") ∧
        registeredCount d2.registrations (sampleEvent 10 2).id = 2) ∧
      (PostgresStorage.RegisterForEvent true d2 3 (sampleEvent 10 2).id =
          (d2, .error .ErrEventFull) ∧
        Service.RegisterForEvent true d2 3 (sampleEvent 10 2).id =
          (d2, .error .ErrEventFull) ∧
        registeredCount d2.registrations (sampleEvent 10 2).id = 2) ∧
      (PostgresStorage.CancelRegistration d2 1 (sampleEvent 10 2).id =
          (d4, .ok "cancelled") ∧
        Service.CancelRegistration d2 1 (sampleEvent 10 2).id = (d4, .ok "cancelled") ∧
        registeredCount d4.registrations (sampleEvent 10 2).id = 1) ∧
      (PostgresStorage.RegisterForEvent true d4 3 (sampleEvent 10 2).id =
          (d5, .ok "registered") ∧
        Service.RegisterForEvent true d4 3 (sampleEvent 10 2).id = (d5, .ok "registered") ∧
        registeredCount d5.registrations (sampleEvent 10 2).id = 2) :=
  capacity_two_scenario true sampleEmptyDb (sampleEvent 10 2) 1 2 3 (by decide) (by decide)
    (by decide) (by decide) (by decide) (by decide) (by decide) (by decide) (by decide)
    (by decide)

/-! ## Failure leaves the state alone; success changes one row -/

theorem register_error_state (fk : Bool) (db : Db) (m : Nat) (e : Int) (err : StorageErr)
    (h : (PostgresStorage.RegisterForEvent fk db m e).2 = .error err) :
    (PostgresStorage.RegisterForEvent fk db m e).1 = db := by
  rcases RegisterForEvent_cases fk db m e with h1 | h1 | h1
  · exact h1.1
  · rw [h1.2.2] at h
    cases h
  · rw [h1.2.2] at h
    cases h

theorem cancel_error_state (db : Db) (m : Nat) (e : Int) (err : StorageErr)
    (h : (PostgresStorage.CancelRegistration db m e).2 = .error err) :
    (PostgresStorage.CancelRegistration db m e).1 = db := by
  cases hpe : pairExists db.registrations m e with
  | true =>
    rw [cancel_of_pair db m e hpe] at h
    cases h
  | false => rw [cancel_of_no_pair db m e hpe]

/-- The facade writes nothing of its own: over a ledger whose failed
registration leaves the state alone, a failed `Service.RegisterForEvent` does. -/
theorem register_over_error_state (regStorage : RegStorage) (memberStorage : MemberStorage)
    (db : Db) (m : Nat) (e : Int)
    (hreg : ∀ d err, regStorage.RegisterForEvent db m e = (d, .error err) → d = db)
    (err : ServiceErr)
    (h : (Service.RegisterForEventOver regStorage memberStorage db m e).2 = .error err) :
    (Service.RegisterForEventOver regStorage memberStorage db m e).1 = db := by
  unfold Service.RegisterForEventOver at h ⊢
  cases hc : memberStorage.CheckIsApproved db m with
  | error e1 =>
    simp only [hc]
    split_ifs <;> rfl
  | ok approved =>
    cases approved with
    | false => simp
    | true =>
      simp only [hc, Bool.not_true, Bool.false_eq_true, if_false] at h ⊢
      cases hr : regStorage.RegisterForEvent db m e with
      | mk d r =>
        cases r with
        | error e2 =>
          have hd := hreg d e2 hr
          subst hd
          simp only []
          split_ifs <;> rfl
        | ok st =>
          rw [hr] at h
          cases h

theorem cancel_over_error_state (regStorage : RegStorage) (db : Db) (m : Nat) (e : Int)
    (hreg : ∀ d err, regStorage.CancelRegistration db m e = (d, .error err) → d = db)
    (err : ServiceErr)
    (h : (Service.CancelRegistrationOver regStorage db m e).2 = .error err) :
    (Service.CancelRegistrationOver regStorage db m e).1 = db := by
  unfold Service.CancelRegistrationOver at h ⊢
  cases hr : regStorage.CancelRegistration db m e with
  | mk d r =>
    cases r with
    | error e2 =>
      have hd := hreg d e2 hr
      subst hd
      simp only []
      split_ifs <;> rfl
    | ok st =>
      rw [hr] at h
      cases h

theorem postgres_register_atomic (fk : Bool) (db : Db) (m : Nat) (e : Int) :
    ∀ d err, (postgresRegStorage fk).RegisterForEvent db m e = (d, .error err) → d = db := by
  intro d err h
  have h2 : (PostgresStorage.RegisterForEvent fk db m e).2 = .error err := by
    show ((postgresRegStorage fk).RegisterForEvent db m e).2 = .error err
    rw [h]
  have h1 := register_error_state fk db m e err h2
  have h3 : ((postgresRegStorage fk).RegisterForEvent db m e).1 = db := h1
  rw [h] at h3
  exact h3

theorem postgres_cancel_atomic (fk : Bool) (db : Db) (m : Nat) (e : Int) :
    ∀ d err, (postgresRegStorage fk).CancelRegistration db m e = (d, .error err) → d = db := by
  intro d err h
  have h2 : (PostgresStorage.CancelRegistration db m e).2 = .error err := by
    show ((postgresRegStorage fk).CancelRegistration db m e).2 = .error err
    rw [h]
  have h1 := cancel_error_state db m e err h2
  have h3 : ((postgresRegStorage fk).CancelRegistration db m e).1 = db := h1
  rw [h] at h3
  exact h3

/-- C15: atomicity on failure. Whenever `RegisterForEvent` or `CancelRegistration`
returns an error, of any kind, at the storage or at the service level, the
state after the call, registrations, events and members, is the state before
it; `GetRegistrationStatus` only reads. The facade adds no write of its own:
over any ledger whose failed call leaves the state alone, the failed service
call does too. -/
theorem atomic_on_failure (fk : Bool) (db : Db) (m : Nat) (e : Int) :
    (∀ err, (PostgresStorage.RegisterForEvent fk db m e).2 = .error err →
        (PostgresStorage.RegisterForEvent fk db m e).1 = db) ∧
      (∀ err, (PostgresStorage.CancelRegistration db m e).2 = .error err →
        (PostgresStorage.CancelRegistration db m e).1 = db) ∧
      (∀ err, (Service.RegisterForEvent fk db m e).2 = .error err →
        (Service.RegisterForEvent fk db m e).1 = db) ∧
      (∀ err, (Service.CancelRegistration db m e).2 = .error err →
        (Service.CancelRegistration db m e).1 = db) ∧
      step fk db (.status m e) = db ∧
      (∀ (regStorage : RegStorage) (memberStorage : MemberStorage),
        (∀ d err, regStorage.RegisterForEvent db m e = (d, .error err) → d = db) →
        ∀ err, (Service.RegisterForEventOver regStorage memberStorage db m e).2 = .error err →
          (Service.RegisterForEventOver regStorage memberStorage db m e).1 = db) ∧
      (∀ regStorage : RegStorage,
        (∀ d err, regStorage.CancelRegistration db m e = (d, .error err) → d = db) →
        ∀ err, (Service.CancelRegistrationOver regStorage db m e).2 = .error err →
          (Service.CancelRegistrationOver regStorage db m e).1 = db) := by
  refine ⟨register_error_state fk db m e, cancel_error_state db m e, ?_, ?_, rfl, ?_, ?_⟩
  · intro err h
    exact register_over_error_state (postgresRegStorage fk) postgresMemberStorage db m e
      (postgres_register_atomic fk db m e) err h
  · intro err h
    exact cancel_over_error_state (postgresRegStorage fk) db m e
      (postgres_cancel_atomic fk db m e) err h
  · intro regStorage memberStorage hreg err h
    exact register_over_error_state regStorage memberStorage db m e hreg err h
  · intro regStorage hreg err h
    exact cancel_over_error_state regStorage db m e hreg err h

theorem atomic_on_failure_witness :
    (Service.RegisterForEvent true sampleFullDb 2 10).2 = .error .ErrEventFull ∧
      (Service.RegisterForEvent true sampleFullDb 2 10).1 = sampleFullDb ∧
      (Service.RegisterForEvent true sampleGateDb 4 10).2 = .error .ErrMemberNotApproved ∧
      (Service.RegisterForEvent true sampleGateDb 4 10).1 = sampleGateDb ∧
      (Service.RegisterForEvent true sampleDb 1 11).2 = .error .ErrEventNotFound ∧
      (Service.RegisterForEvent true sampleDb 1 11).1 = sampleDb ∧
      (Service.CancelRegistration sampleDb 3 10).2 = .error .ErrRegNotFound ∧
      (Service.CancelRegistration sampleDb 3 10).1 = sampleDb :=
  ⟨by decide,
    (atomic_on_failure true sampleFullDb 2 10).2.2.1 .ErrEventFull (by decide),
    by decide,
    (atomic_on_failure true sampleGateDb 4 10).2.2.1 .ErrMemberNotApproved (by decide),
    by decide,
    (atomic_on_failure true sampleDb 1 11).2.2.1 .ErrEventNotFound (by decide),
    by decide,
    (atomic_on_failure true sampleDb 3 10).2.2.2.1 .ErrRegNotFound (by decide)⟩

/-- Flipping rows of the pair leaves the rows of every other pair as they were. -/
theorem filter_flip_others (l : List RegistrationRow) (m : Nat) (e : Int)
    (c : RegistrationRow → Bool) (hc : ∀ r, c r = true → isPair m e r = true) :
    (l.map (fun r => if c r = true then { r with status := "registered" } else r)).filter
        (fun r => !isPair m e r) =
      l.filter (fun r => !isPair m e r) := by
  induction l with
  | nil => rfl
  | cons r rest ih =>
    by_cases h : c r = true
    · have hp := hc r h
      have hp2 : isPair m e { r with status := "registered" } = true := by
        simpa [isPair] using hp
      simp [List.filter_cons, h, hp, hp2, ih]
    · simp only [List.map_cons, h, if_false, List.filter_cons]
      rw [ih]
      simp

/-- C16: frame of register. In a table with one row per pair, a successful
`RegisterForEvent` for the pair `(m, e)` leaves every member row and every event
row, capacities included, as they were, and changes the registrations in
exactly one of two ways: it appends the one row `(m, e, registered)` when the
pair had no row, or it sets the status of the one cancelled row of the pair to
`registered`. The rows of every other pair are the same rows in the same order,
and the registered count of every other event is unchanged. -/
theorem register_frame (fk : Bool) (db : Db) (m : Nat) (e : Int) (st : String)
    (hU : UniquePairs db.registrations)
    (hok : (PostgresStorage.RegisterForEvent fk db m e).2 = .ok st) :
    (PostgresStorage.RegisterForEvent fk db m e).1.members = db.members ∧
      (PostgresStorage.RegisterForEvent fk db m e).1.events = db.events ∧
      ((pairExists db.registrations m e = false ∧
          (PostgresStorage.RegisterForEvent fk db m e).1.registrations =
            db.registrations ++ [newRow m e]) ∨
        (∃ r0 ∈ db.registrations, isPair m e r0 = true ∧ r0.status = "cancelled" ∧
          (PostgresStorage.RegisterForEvent fk db m e).1.registrations =
            db.registrations.map
              (fun r => if r = r0 then { r0 with status := "registered" } else r))) ∧
      (PostgresStorage.RegisterForEvent fk db m e).1.registrations.filter
          (fun r => !isPair m e r) =
        db.registrations.filter (fun r => !isPair m e r) ∧
      (∀ e1, e1 ≠ e →
        registeredCount (PostgresStorage.RegisterForEvent fk db m e).1.registrations e1 =
          registeredCount db.registrations e1) := by
  rcases RegisterForEvent_cases fk db m e with h | h | h
  · obtain ⟨err, herr⟩ := h.2
    rw [herr] at hok
    cases hok
  · obtain ⟨r0, hr0, hm0⟩ := h.2.1
    have h3 := updMatches_pair db m e r0 hm0
    rw [h.2.2]
    refine ⟨rfl, rfl, Or.inr ⟨r0, hr0, h3.1, h3.2.1, ?_⟩, ?_, ?_⟩
    · exact updTable_of_unique db m e hU r0 hr0 hm0
    · exact filter_flip_others db.registrations m e (updMatches db m e)
        (fun r hr => (updMatches_pair db m e r hr).1)
    · intro e1 hne
      exact count_flip_other db.registrations m e e1 (updMatches db m e)
        (fun r hr => (updMatches_pair db m e r hr).1) hne
  · rw [h.2.2]
    refine ⟨rfl, rfl, Or.inl ⟨h.2.1, rfl⟩, ?_, ?_⟩
    · simp [List.filter_append, List.filter_cons, isPair, newRow]
    · intro e1 hne
      show registeredCount (db.registrations ++ [newRow m e]) e1 = _
      rw [count_append_newRow]
      have : ¬ e = e1 := fun h2 => hne h2.symm
      simp [this]

theorem register_frame_witness :
    (PostgresStorage.RegisterForEvent true sampleDb 2 10).1.members = sampleDb.members ∧
      (PostgresStorage.RegisterForEvent true sampleDb 2 10).1.events = sampleDb.events ∧
      ((pairExists sampleDb.registrations 2 10 = false ∧
          (PostgresStorage.RegisterForEvent true sampleDb 2 10).1.registrations =
            sampleDb.registrations ++ [newRow 2 10]) ∨
        (∃ r0 ∈ sampleDb.registrations, isPair 2 10 r0 = true ∧ r0.status = "cancelled" ∧
          (PostgresStorage.RegisterForEvent true sampleDb 2 10).1.registrations =
            sampleDb.registrations.map
              (fun r => if r = r0 then { r0 with status := "registered" } else r))) ∧
      (PostgresStorage.RegisterForEvent true sampleDb 2 10).1.registrations.filter
          (fun r => !isPair 2 10 r) =
        sampleDb.registrations.filter (fun r => !isPair 2 10 r) ∧
      (∀ e1, e1 ≠ 10 →
        registeredCount (PostgresStorage.RegisterForEvent true sampleDb 2 10).1.registrations e1 =
          registeredCount sampleDb.registrations e1) :=
  register_frame true sampleDb 2 10 "registered" (by decide) (by decide)

/-! ## Retrying a registration -/

/-- After the flip of `upd`, no row is left for a second flip. -/
theorem updMatches_after_flip (db : Db) (m : Nat) (e : Int)
    (hroom : (eventData db e).any hasRoom = true) :
    ∀ r ∈ updTable db m e,
      updMatches { db with registrations := updTable db m e } m e r = false := by
  intro r hr
  unfold updTable at hr
  rw [List.mem_map] at hr
  obtain ⟨r1, _, hr1⟩ := hr
  by_cases h : updMatches db m e r1 = true
  · simp only [h, if_true] at hr1
    subst hr1
    simp [updMatches]
  · simp only [h, Bool.false_eq_true, if_false] at hr1
    subst hr1
    have h2 : (isPair m e r1 && decide (r1.status = "cancelled")) = false := by
      cases hc : (isPair m e r1 && decide (r1.status = "cancelled")) with
      | false => rfl
      | true =>
        exfalso
        apply h
        simp only [updMatches, hc, hroom, Bool.and_self]
    simp only [updMatches, h2, Bool.false_and]

/-- The state a registration leaves is a state on which the same registration
changes nothing. -/
theorem register_twice_state (fk : Bool) (db : Db) (m : Nat) (e : Int) :
    (PostgresStorage.RegisterForEvent fk (PostgresStorage.RegisterForEvent fk db m e).1 m e).1 =
      (PostgresStorage.RegisterForEvent fk db m e).1 := by
  rcases RegisterForEvent_cases fk db m e with h | h | h
  · rw [h.1]
    exact h.1
  · obtain ⟨r0, hr0, hm0⟩ := h.2.1
    have hpe : pairExists db.registrations m e = true := by
      simp only [pairExists, List.any_eq_true]
      exact ⟨r0, hr0, (updMatches_pair db m e r0 hm0).1⟩
    have hpe1 : pairExists (updTable db m e) m e = true := by
      rw [pairExists_of_pairs_eq _ _ m e (updTable_pairs db m e)]
      exact hpe
    rw [h.2.2]
    simp only []
    rw [RegisterForEvent_noRows fk { db with registrations := updTable db m e } m e
      (updMatches_after_flip db m e h.1)
      (insSelected_of_pair { db with registrations := updTable db m e } m e hpe1)]
  · have hpe1 : pairExists (db.registrations ++ [newRow m e]) m e = true := by
      simp [pairExists, isPair, newRow]
    have hnone : ∀ r ∈ db.registrations ++ [newRow m e],
        updMatches { db with registrations := db.registrations ++ [newRow m e] } m e r
          = false := by
      intro r hr
      rcases List.mem_append.1 hr with hr1 | hr1
      · have hp := (pairExists_false_iff db.registrations m e).1 h.2.1 r hr1
        simp [updMatches, hp]
      · simp only [List.mem_singleton] at hr1
        subst hr1
        simp [updMatches, newRow]
    rw [h.2.2]
    simp only []
    rw [RegisterForEvent_noRows fk { db with registrations := db.registrations ++ [newRow m e] }
      m e hnone
      (insSelected_of_pair { db with registrations := db.registrations ++ [newRow m e] }
        m e hpe1)]

theorem service_register_fst (fk : Bool) (db : Db) (m : Nat) (e : Int) :
    (Service.RegisterForEvent fk db m e).1 =
      if PostgresStorage.CheckIsApproved db m = .ok true then
        (PostgresStorage.RegisterForEvent fk db m e).1
      else db := by
  unfold Service.RegisterForEvent
  cases hc : PostgresStorage.CheckIsApproved db m with
  | error e1 =>
    simp only [reduceCtorEq, if_false]
    split_ifs <;> rfl
  | ok approved =>
    cases approved with
    | false => simp
    | true =>
      simp only [Bool.not_true, Bool.false_eq_true, if_false, if_true]
      cases hr : PostgresStorage.RegisterForEvent fk db m e with
      | mk d r =>
        cases r with
        | error e2 =>
          simp only []
          split_ifs <;> rfl
        | ok st => rfl

theorem countP_pair_le_one (l : List RegistrationRow) (m : Nat) (e : Int)
    (hu : UniquePairs l) : l.countP (isPair m e) ≤ 1 := by
  cases h : pairExists l m e with
  | true => rw [countP_pair_of_unique l m e hu h]
  | false =>
    have h0 : l.countP (isPair m e) = 0 := by
      rw [List.countP_eq_zero]
      intro r hr
      simp [(pairExists_false_iff l m e).1 h r hr]
    omega

/-- C17: retry safety of register. For every state, member and event, the state
after two consecutive `RegisterForEvent` calls for the pair equals the state
after one, at the storage and at the service level; and when the table held one
row per pair, the pair holds at most one row with status `registered`
afterwards. -/
theorem register_retry_safe (fk : Bool) (db : Db) (m : Nat) (e : Int) :
    (PostgresStorage.RegisterForEvent fk (PostgresStorage.RegisterForEvent fk db m e).1 m e).1 =
        (PostgresStorage.RegisterForEvent fk db m e).1 ∧
      (Service.RegisterForEvent fk (Service.RegisterForEvent fk db m e).1 m e).1 =
        (Service.RegisterForEvent fk db m e).1 ∧
      (UniquePairs db.registrations →
        (PostgresStorage.RegisterForEvent fk db m e).1.registrations.countP (isSeat m e) ≤ 1 ∧
        (PostgresStorage.RegisterForEvent fk
          (PostgresStorage.RegisterForEvent fk db m e).1 m e).1.registrations.countP
            (isSeat m e) ≤ 1) := by
  have h1 := register_twice_state fk db m e
  refine ⟨h1, ?_, ?_⟩
  · rw [service_register_fst fk db m e]
    by_cases hc : PostgresStorage.CheckIsApproved db m = .ok true
    · simp only [hc, if_true]
      have hmem : (PostgresStorage.RegisterForEvent fk db m e).1.members = db.members :=
        step_members fk db (.register m e)
      have hc1 : PostgresStorage.CheckIsApproved (PostgresStorage.RegisterForEvent fk db m e).1 m
          = .ok true := by
        rw [check_congr _ db m hmem]
        exact hc
      rw [service_register_fst, hc1]
      simp only [if_true]
      exact h1
    · simp only [hc, if_false]
      rw [service_register_fst]
      simp only [hc, if_false]
  · intro hU
    have hU1 : UniquePairs (PostgresStorage.RegisterForEvent fk db m e).1.registrations :=
      step_unique fk db (.register m e) hU
    have hle : (PostgresStorage.RegisterForEvent fk db m e).1.registrations.countP (isSeat m e)
        ≤ 1 := by
      refine le_trans (List.countP_mono_left ?_) (countP_pair_le_one _ m e hU1)
      intro r _ hr
      simp only [isSeat, Bool.and_eq_true] at hr
      exact hr.1
    refine ⟨hle, ?_⟩
    rw [h1]
    exact hle

theorem register_retry_safe_witness :
    UniquePairs sampleDb.registrations ∧
      (PostgresStorage.RegisterForEvent true
          (PostgresStorage.RegisterForEvent true sampleDb 3 10).1 3 10).1 =
        (PostgresStorage.RegisterForEvent true sampleDb 3 10).1 ∧
      (Service.RegisterForEvent true (Service.RegisterForEvent true sampleDb 3 10).1 3 10).1 =
        (Service.RegisterForEvent true sampleDb 3 10).1 ∧
      (PostgresStorage.RegisterForEvent true sampleDb 3 10).1.registrations.countP
        (isSeat 3 10) ≤ 1 ∧
      (PostgresStorage.RegisterForEvent true
        (PostgresStorage.RegisterForEvent true sampleDb 3 10).1 3 10).1.registrations.countP
          (isSeat 3 10) ≤ 1 :=
  ⟨by decide, (register_retry_safe true sampleDb 3 10).1,
    (register_retry_safe true sampleDb 3 10).2.1,
    (register_retry_safe true sampleDb 3 10).2.2 (by decide)⟩

/-! ## Returned and stored statuses -/

/-- When every row of the pair has the status `st` and one exists, the lookup
returns `st`. -/
theorem get_of_all (db : Db) (m : Nat) (e : Int) (st : String)
    (hex : pairExists db.registrations m e = true)
    (hall : ∀ r ∈ db.registrations, isPair m e r = true → r.status = st) :
    PostgresStorage.GetRegistrationStatus db m e = .ok st := by
  obtain ⟨a, rest, hf⟩ := filter_pair_ne_nil db.registrations m e hex
  have ha : a ∈ db.registrations.filter (isPair m e) := by rw [hf]; simp
  rw [List.mem_filter] at ha
  simp [PostgresStorage.GetRegistrationStatus, hf, scanFirst, hall a ha.1 ha.2]

/-- A status the lookup returns is the status of a stored row. -/
theorem get_ok_mem (db : Db) (m : Nat) (e : Int) (st : String)
    (h : PostgresStorage.GetRegistrationStatus db m e = .ok st) :
    ∃ r ∈ db.registrations, r.status = st := by
  unfold PostgresStorage.GetRegistrationStatus at h
  cases hf : db.registrations.filter (isPair m e) with
  | nil => simp [hf, scanFirst] at h
  | cons a rest =>
    have ha : a ∈ db.registrations.filter (isPair m e) := by rw [hf]; simp
    rw [List.mem_filter] at ha
    simp only [hf, List.map_cons, scanFirst, Except.ok.injEq] at h
    exact ⟨a, ha.1, h⟩

theorem step_known (fk : Bool) (db : Db) (c : Call) (hK : KnownStatuses db.registrations) :
    KnownStatuses (step fk db c).registrations := by
  cases c with
  | register m e =>
    rcases RegisterForEvent_cases fk db m e with h | h | h
    · simpa [step, h.1] using hK
    · intro r hr
      simp only [step, h.2.2, updTable, List.mem_map] at hr
      obtain ⟨r1, hr1, hEq⟩ := hr
      by_cases hm : updMatches db m e r1 = true
      · simp only [hm, if_true] at hEq
        subst hEq
        exact Or.inl rfl
      · simp only [hm, Bool.false_eq_true, if_false] at hEq
        subst hEq
        exact hK r1 hr1
    · intro r hr
      simp only [step, h.2.2, List.mem_append, List.mem_singleton] at hr
      rcases hr with hr | hr
      · exact hK r hr
      · subst hr
        exact Or.inl rfl
  | cancel m e =>
    intro r hr
    simp only [step, cancel_fst, List.mem_map] at hr
    obtain ⟨r1, hr1, hEq⟩ := hr
    by_cases hp : isPair m e r1 = true
    · simp only [hp, if_true] at hEq
      subst hEq
      exact Or.inr rfl
    · simp only [hp, Bool.false_eq_true, if_false] at hEq
      subst hEq
      exact hK r1 hr1
  | status m e => simpa [step] using hK

theorem run_known (fk : Bool) (calls : List Call) (db : Db)
    (hK : KnownStatuses db.registrations) : KnownStatuses (run fk db calls).registrations := by
  induction calls generalizing db with
  | nil => exact hK
  | cons c cs ih =>
    simp only [run, List.foldl_cons] at ih ⊢
    exact ih _ (step_known fk db c hK)

theorem register_ok_then_get (fk : Bool) (db : Db) (m : Nat) (e : Int) (st : String)
    (hU : UniquePairs db.registrations)
    (hok : (PostgresStorage.RegisterForEvent fk db m e).2 = .ok st) :
    st = "registered" ∧
      PostgresStorage.GetRegistrationStatus (PostgresStorage.RegisterForEvent fk db m e).1 m e =
        .ok "registered" := by
  rcases RegisterForEvent_cases fk db m e with h | h | h
  · obtain ⟨err, herr⟩ := h.2
    rw [herr] at hok
    cases hok
  · obtain ⟨r0, hr0, hm0⟩ := h.2.1
    rw [h.2.2] at hok ⊢
    simp only [Except.ok.injEq] at hok
    refine ⟨hok.symm, ?_⟩
    have hU1 : UniquePairs (updTable db m e) := by
      unfold UniquePairs at hU ⊢
      rw [updTable_pairs]
      exact hU
    have hmem1 : ({ r0 with status := "registered" } : RegistrationRow) ∈ updTable db m e := by
      unfold updTable
      rw [List.mem_map]
      exact ⟨r0, hr0, by simp [hm0]⟩
    exact get_of_unique { db with registrations := updTable db m e } m e hU1
      { r0 with status := "registered" } hmem1
      (by simpa [isPair] using (updMatches_pair db m e r0 hm0).1)
  · rw [h.2.2] at hok ⊢
    simp only [Except.ok.injEq] at hok
    refine ⟨hok.symm, ?_⟩
    apply get_of_all { db with registrations := db.registrations ++ [newRow m e] } m e
    · simp [pairExists, isPair, newRow]
    · intro r hr hp
      rcases List.mem_append.1 hr with hr1 | hr1
      · have := (pairExists_false_iff db.registrations m e).1 h.2.1 r hr1
        rw [this] at hp
        cases hp
      · simp only [List.mem_singleton] at hr1
        subst hr1
        rfl

theorem cancel_ok_then_get (db : Db) (m : Nat) (e : Int) (st : String)
    (hok : (PostgresStorage.CancelRegistration db m e).2 = .ok st) :
    st = "cancelled" ∧
      PostgresStorage.GetRegistrationStatus (PostgresStorage.CancelRegistration db m e).1 m e =
        .ok "cancelled" := by
  cases hpe : pairExists db.registrations m e with
  | false =>
    rw [cancel_of_no_pair db m e hpe] at hok
    cases hok
  | true =>
    rw [cancel_of_pair db m e hpe] at hok ⊢
    simp only [Except.ok.injEq] at hok
    refine ⟨hok.symm, ?_⟩
    apply get_of_all
    · show pairExists (db.registrations.map _) m e = true
      rw [pairExists_of_pairs_eq _ _ m e (cancel_pairs db.registrations m e)]
      exact hpe
    · intro r hr hp
      simp only [List.mem_map] at hr
      obtain ⟨r1, _, hEq⟩ := hr
      by_cases hp1 : isPair m e r1 = true
      · simp only [hp1, if_true] at hEq
        subst hEq
        rfl
      · simp only [hp1, Bool.false_eq_true, if_false] at hEq
        subst hEq
        exact absurd hp hp1

/-- C18: returned statuses agree with the stored state. On a table with one row
per pair and statuses `registered` or `cancelled` only: whenever
`RegisterForEvent` succeeds its result is `registered` and the lookup of the pair
right after returns `registered`; whenever `CancelRegistration` succeeds its
result is `cancelled` and the lookup right after returns `cancelled`; and after
any sequence of ledger calls, a successful lookup of any pair returns
`registered` or `cancelled`. The last holds in particular on every ledger built
by these calls from the empty table. -/
theorem statuses_agree (fk : Bool) (db : Db) (m : Nat) (e : Int)
    (hU : UniquePairs db.registrations) (hK : KnownStatuses db.registrations) :
    (∀ st, (PostgresStorage.RegisterForEvent fk db m e).2 = .ok st →
        st = "registered" ∧
        PostgresStorage.GetRegistrationStatus
          (PostgresStorage.RegisterForEvent fk db m e).1 m e = .ok "registered") ∧
      (∀ st, (PostgresStorage.CancelRegistration db m e).2 = .ok st →
        st = "cancelled" ∧
        PostgresStorage.GetRegistrationStatus
          (PostgresStorage.CancelRegistration db m e).1 m e = .ok "cancelled") ∧
      (∀ (calls : List Call) (m1 : Nat) (e1 : Int) (st : String),
        PostgresStorage.GetRegistrationStatus (run fk db calls) m1 e1 = .ok st →
          st = "registered" ∨ st = "cancelled") ∧
      (∀ (d0 : Db) (calls : List Call) (m1 : Nat) (e1 : Int) (st : String),
        d0.registrations = [] →
        PostgresStorage.GetRegistrationStatus (run fk d0 calls) m1 e1 = .ok st →
          st = "registered" ∨ st = "cancelled") := by
  refine ⟨fun st h => register_ok_then_get fk db m e st hU h,
    fun st h => cancel_ok_then_get db m e st h, ?_, ?_⟩
  · intro calls m1 e1 st h
    obtain ⟨r, hr, hs⟩ := get_ok_mem (run fk db calls) m1 e1 st h
    rw [← hs]
    exact run_known fk calls db hK r hr
  · intro d0 calls m1 e1 st h0 h
    have hK0 : KnownStatuses d0.registrations := by
      intro r hr
      rw [h0] at hr
      cases hr
    obtain ⟨r, hr, hs⟩ := get_ok_mem (run fk d0 calls) m1 e1 st h
    rw [← hs]
    exact run_known fk calls d0 hK0 r hr

theorem statuses_agree_witness :
    UniquePairs sampleDb.registrations ∧ KnownStatuses sampleDb.registrations ∧
      (PostgresStorage.RegisterForEvent true sampleDb 2 10).2 = .ok "registered" ∧
      PostgresStorage.GetRegistrationStatus
        (PostgresStorage.RegisterForEvent true sampleDb 2 10).1 2 10 = .ok "registered" ∧
      (PostgresStorage.CancelRegistration sampleDb 2 10).2 = .ok "cancelled" ∧
      PostgresStorage.GetRegistrationStatus
        (PostgresStorage.CancelRegistration sampleDb 2 10).1 2 10 = .ok "cancelled" ∧
      (∀ (calls : List Call) (m1 : Nat) (e1 : Int) (st : String),
        PostgresStorage.GetRegistrationStatus (run true sampleDb calls) m1 e1 = .ok st →
          st = "registered" ∨ st = "cancelled") :=
  ⟨by decide, by decide, by decide,
    ((statuses_agree true sampleDb 2 10 (by decide) (by decide)).1 "registered"
      (by decide)).2,
    by decide,
    ((statuses_agree true sampleDb 2 10 (by decide) (by decide)).2.1 "cancelled"
      (by decide)).2,
    (statuses_agree true sampleDb 2 10 (by decide) (by decide)).2.2.1⟩

/-- C19: unique-constraint mapping. Whenever the registration statement fails with
SQLSTATE 23505, `PostgresStorage.RegisterForEvent` returns `ErrRegAlreadyExists`
with the state as it was, in every state, whether or not the event or the
member is stored: the code is tested before the two existence lookups. Over any
ledger that returns `ErrRegAlreadyExists` for a member the directory reports as
approved, `Service.RegisterForEvent` returns `service.ErrRegAlreadyExists`, which
is none of `ErrEventFull`, `ErrEventNotFound`, `ErrRegistrationFailed`. -/
theorem unique_violation_maps (fk : Bool) (db : Db) (m : Nat) (e : Int) :
    registerError db m e (.pq "23505") = .ErrRegAlreadyExists ∧
      PostgresStorage.registerOutcome db m e (.error (.pq "23505")) =
        (db, .error .ErrRegAlreadyExists) ∧
      (registerStmt fk db m e = .error (.pq "23505") →
        PostgresStorage.RegisterForEvent fk db m e = (db, .error .ErrRegAlreadyExists) ∧
        (PostgresStorage.CheckIsApproved db m = .ok true →
          Service.RegisterForEvent fk db m e = (db, .error .ErrRegAlreadyExists))) ∧
      (∀ (regStorage : RegStorage) (memberStorage : MemberStorage) (d : Db),
        memberStorage.CheckIsApproved db m = .ok true →
        regStorage.RegisterForEvent db m e = (d, .error .ErrRegAlreadyExists) →
        Service.RegisterForEventOver regStorage memberStorage db m e =
          (d, .error .ErrRegAlreadyExists)) := by
  have h1 : registerError db m e (.pq "23505") = .ErrRegAlreadyExists := by
    simp [registerError]
  refine ⟨h1, ?_, ?_, ?_⟩
  · simp only [PostgresStorage.registerOutcome, h1]
  · intro hst
    have hreg : PostgresStorage.RegisterForEvent fk db m e =
        (db, .error .ErrRegAlreadyExists) := by
      rw [register_eq_outcome, hst]
      simp only [PostgresStorage.registerOutcome, h1]
    refine ⟨hreg, ?_⟩
    intro happ
    simp [Service.RegisterForEvent, happ, hreg]
  · intro regStorage memberStorage d happ hreg
    simp [Service.RegisterForEventOver, happ, hreg]

theorem unique_violation_maps_witness :
    registerStmt true sampleTwinDb 1 10 = .error (.pq "23505") ∧
      PostgresStorage.RegisterForEvent true sampleTwinDb 1 10 =
        (sampleTwinDb, .error .ErrRegAlreadyExists) ∧
      Service.RegisterForEvent true sampleTwinDb 1 10 =
        (sampleTwinDb, .error .ErrRegAlreadyExists) ∧
      eventExists sampleGateDb 99 = false ∧
      Service.RegisterForEventOver sampleClashStorage postgresMemberStorage sampleGateDb 1 99 =
        (sampleGateDb, .error .ErrRegAlreadyExists) :=
  ⟨by decide,
    ((unique_violation_maps true sampleTwinDb 1 10).2.2.1 (by decide)).1,
    ((unique_violation_maps true sampleTwinDb 1 10).2.2.1 (by decide)).2 (by decide),
    by decide,
    (unique_violation_maps true sampleGateDb 1 99).2.2.2 sampleClashStorage
      postgresMemberStorage sampleGateDb (by decide) (by decide)⟩

/-! ## Cancellation, unknown events and the error mapping -/

theorem cancel_ok_pair (db : Db) (m : Nat) (e : Int) (st : String)
    (h : (PostgresStorage.CancelRegistration db m e).2 = .ok st) :
    pairExists db.registrations m e = true := by
  cases hpe : pairExists db.registrations m e with
  | true => rfl
  | false =>
    rw [cancel_of_no_pair db m e hpe] at h
    cases h

/-- C21, as stated, fails: in `sampleDb` the one row of the pair `(2, 10)` is
`cancelled`, not `registered`, and `CancelRegistration` returns without error. -/
theorem cancel_only_from_registered_counterexample :
    ¬ (∀ (db : Db) (m : Nat) (e : Int) (st : String), UniquePairs db.registrations →
        (PostgresStorage.CancelRegistration db m e).2 = .ok st →
        ∀ r ∈ db.registrations, isPair m e r = true → r.status = "registered") := by
  intro h
  have h1 := h sampleDb 2 10 "cancelled" (by decide) (by decide) ⟨2, 10, "cancelled"⟩
    (by decide) (by decide)
  revert h1
  decide

/-- C21, amended: a stored row of the pair is the only state from which
cancellation can succeed. If `CancelRegistration` returns without error, at the
storage or at the service level, then a row of the pair existed right before
the call, and on a table whose statuses are `registered` or `cancelled` only,
that row, as every row of the pair, had status `registered` or `cancelled`.
Every stored row of the pair, whatever its status, makes the call succeed, so
the call fails only when the pair has no row. -/
theorem cancel_success_iff_row (db : Db) (m : Nat) (e : Int) :
    (∀ st, (PostgresStorage.CancelRegistration db m e).2 = .ok st →
        ∃ r ∈ db.registrations, isPair m e r = true) ∧
      (∀ st, (Service.CancelRegistration db m e).2 = .ok st →
        ∃ r ∈ db.registrations, isPair m e r = true) ∧
      (∀ r ∈ db.registrations, isPair m e r = true →
        (PostgresStorage.CancelRegistration db m e).2 = .ok "cancelled" ∧
        (Service.CancelRegistration db m e).2 = .ok "cancelled") ∧
      (KnownStatuses db.registrations →
        (∀ st, (PostgresStorage.CancelRegistration db m e).2 = .ok st →
          (∃ r ∈ db.registrations, isPair m e r = true ∧
            (r.status = "registered" ∨ r.status = "cancelled")) ∧
          ∀ r ∈ db.registrations, isPair m e r = true →
            r.status = "registered" ∨ r.status = "cancelled") ∧
        (∀ st, (Service.CancelRegistration db m e).2 = .ok st →
          (∃ r ∈ db.registrations, isPair m e r = true ∧
            (r.status = "registered" ∨ r.status = "cancelled")) ∧
          ∀ r ∈ db.registrations, isPair m e r = true →
            r.status = "registered" ∨ r.status = "cancelled")) := by
  have h1 : ∀ st, (PostgresStorage.CancelRegistration db m e).2 = .ok st →
      ∃ r ∈ db.registrations, isPair m e r = true := by
    intro st h
    have hpe := cancel_ok_pair db m e st h
    simpa [pairExists] using hpe
  have h2 : ∀ st, (Service.CancelRegistration db m e).2 = .ok st →
      ∃ r ∈ db.registrations, isPair m e r = true := by
    intro st h
    cases hpe : pairExists db.registrations m e with
    | true => simpa [pairExists] using hpe
    | false =>
      rw [service_cancel_eq, hpe] at h
      simp at h
  refine ⟨h1, h2, ?_, ?_⟩
  · intro r hr hp
    have hpe : pairExists db.registrations m e = true := by
      simp only [pairExists, List.any_eq_true]
      exact ⟨r, hr, hp⟩
    constructor
    · rw [cancel_of_pair db m e hpe]
    · rw [service_cancel_eq, hpe]
      simp
  · intro hK
    constructor
    · intro st h
      obtain ⟨r, hr, hp⟩ := h1 st h
      exact ⟨⟨r, hr, hp, hK r hr⟩, fun r1 hr1 _ => hK r1 hr1⟩
    · intro st h
      obtain ⟨r, hr, hp⟩ := h2 st h
      exact ⟨⟨r, hr, hp, hK r hr⟩, fun r1 hr1 _ => hK r1 hr1⟩

theorem cancel_success_iff_row_witness :
    KnownStatuses sampleDb.registrations ∧
      (∃ r ∈ sampleDb.registrations, isPair 2 10 r = true ∧
        (r.status = "registered" ∨ r.status = "cancelled")) ∧
      (∃ r ∈ sampleDb.registrations, isPair 1 10 r = true ∧
        (r.status = "registered" ∨ r.status = "cancelled")) ∧
      ((PostgresStorage.CancelRegistration sampleDb 2 10).2 = .ok "cancelled" ∧
        (Service.CancelRegistration sampleDb 2 10).2 = .ok "cancelled") ∧
      ((PostgresStorage.CancelRegistration sampleDb 1 10).2 = .ok "cancelled" ∧
        (Service.CancelRegistration sampleDb 1 10).2 = .ok "cancelled") :=
  ⟨by decide,
    (((cancel_success_iff_row sampleDb 2 10).2.2.2 (by decide)).1 "cancelled" (by decide)).1,
    (((cancel_success_iff_row sampleDb 1 10).2.2.2 (by decide)).2 "cancelled" (by decide)).1,
    (cancel_success_iff_row sampleDb 2 10).2.2.1 ⟨2, 10, "cancelled"⟩ (by decide) (by decide),
    (cancel_success_iff_row sampleDb 1 10).2.2.1 ⟨1, 10, "registered"⟩ (by decide) (by decide)⟩

/-- C22: unknown event. For an event id with no row in `events`,
`PostgresStorage.RegisterForEvent` fails with `ErrEventNotFound` and leaves the
state as it was, for every member id, stored or not, and every row state of the
pair, a cancelled row included; for a member that `CheckIsApproved` reports as
approved, `Service.RegisterForEvent` fails with `service.ErrEventNotFound`, which
is neither `ErrEventFull` nor `ErrRegistrationFailed`, on the unchanged state. -/
theorem unknown_event_reported (fk : Bool) (db : Db) (m : Nat) (e : Int)
    (hno : eventExists db e = false) :
    PostgresStorage.RegisterForEvent fk db m e = (db, .error .ErrEventNotFound) ∧
      (PostgresStorage.CheckIsApproved db m = .ok true →
        Service.RegisterForEvent fk db m e = (db, .error .ErrEventNotFound)) := by
  have hroom : (eventData db e).any hasRoom = false := by
    rw [eventData_of_not_exists db e hno]
    rfl
  have hst : PostgresStorage.RegisterForEvent fk db m e = (db, .error .ErrEventNotFound) := by
    rw [register_no_room fk db m e hroom, registerError_noRows]
    simp [hno]
  refine ⟨hst, ?_⟩
  intro happ
  simp [Service.RegisterForEvent, happ, hst]

theorem unknown_event_reported_witness :
    eventExists sampleOrphanDb 11 = false ∧
      PostgresStorage.RegisterForEvent true sampleOrphanDb 1 11 =
        (sampleOrphanDb, .error .ErrEventNotFound) ∧
      Service.RegisterForEvent true sampleOrphanDb 1 11 =
        (sampleOrphanDb, .error .ErrEventNotFound) ∧
      memberExists sampleOrphanDb 9 = false ∧
      PostgresStorage.RegisterForEvent true sampleOrphanDb 9 11 =
        (sampleOrphanDb, .error .ErrEventNotFound) :=
  ⟨by decide, (unknown_event_reported true sampleOrphanDb 1 11 (by decide)).1,
    (unknown_event_reported true sampleOrphanDb 1 11 (by decide)).2 (by decide),
    by decide, (unknown_event_reported true sampleOrphanDb 9 11 (by decide)).1⟩

/-- C23: typed error mapping of the facade. Over any ledger and any member
directory: every error `Service.RegisterForEvent` returns is one of
`ErrMemberNotFound`, `ErrMemberNotApproved`, `ErrEventFull`, `ErrEventNotFound`,
`ErrRegAlreadyExists`, `ErrRegistrationFailed`. After a passed approval check a
ledger `ErrEventFull`, `ErrEventNotFound`, `ErrRegAlreadyExists` maps to the
service error of the same name, and every other ledger error, the ledger's own
`ErrMemberNotFound` and any driver error included, maps to
`ErrRegistrationFailed`. A `CheckIsApproved` error maps to `ErrMemberNotFound` when
it is `ErrMemberNotFound` and to `ErrRegistrationFailed` otherwise. -/
theorem facade_error_mapping (regStorage : RegStorage) (memberStorage : MemberStorage)
    (db : Db) (m : Nat) (e : Int) :
    (∀ err, (Service.RegisterForEventOver regStorage memberStorage db m e).2 = .error err →
        err = .ErrMemberNotFound ∨ err = .ErrMemberNotApproved ∨ err = .ErrEventFull ∨
        err = .ErrEventNotFound ∨ err = .ErrRegAlreadyExists ∨ err = .ErrRegistrationFailed) ∧
      (memberStorage.CheckIsApproved db m = .ok true →
        ∀ d le, regStorage.RegisterForEvent db m e = (d, .error le) →
          (le = .ErrEventFull →
            Service.RegisterForEventOver regStorage memberStorage db m e =
              (d, .error .ErrEventFull)) ∧
          (le = .ErrEventNotFound →
            Service.RegisterForEventOver regStorage memberStorage db m e =
              (d, .error .ErrEventNotFound)) ∧
          (le = .ErrRegAlreadyExists →
            Service.RegisterForEventOver regStorage memberStorage db m e =
              (d, .error .ErrRegAlreadyExists)) ∧
          (le ≠ .ErrEventFull → le ≠ .ErrEventNotFound → le ≠ .ErrRegAlreadyExists →
            Service.RegisterForEventOver regStorage memberStorage db m e =
              (d, .error .ErrRegistrationFailed)) ∧
          (le = .ErrMemberNotFound →
            Service.RegisterForEventOver regStorage memberStorage db m e =
              (d, .error .ErrRegistrationFailed))) ∧
      (∀ ce, memberStorage.CheckIsApproved db m = .error ce →
        (ce = .ErrMemberNotFound →
          Service.RegisterForEventOver regStorage memberStorage db m e =
            (db, .error .ErrMemberNotFound)) ∧
        (ce ≠ .ErrMemberNotFound →
          Service.RegisterForEventOver regStorage memberStorage db m e =
            (db, .error .ErrRegistrationFailed))) := by
  refine ⟨?_, ?_, ?_⟩
  · intro err h
    unfold Service.RegisterForEventOver at h
    cases hc : memberStorage.CheckIsApproved db m with
    | error ce =>
      rw [hc] at h
      by_cases hce : ce = .ErrMemberNotFound
      · simp [hce] at h
        exact Or.inl h.symm
      · simp [hce] at h
        simp [← h]
    | ok approved =>
      rw [hc] at h
      cases approved with
      | false =>
        simp at h
        simp [← h]
      | true =>
        simp only [Bool.not_true, Bool.false_eq_true, if_false] at h
        cases hr : regStorage.RegisterForEvent db m e with
        | mk d r =>
          rw [hr] at h
          cases r with
          | ok st => simp at h
          | error le =>
            simp only [] at h
            split_ifs at h <;> simp at h <;> simp [← h]
  · intro happ d le hr
    refine ⟨?_, ?_, ?_, ?_, ?_⟩
    · intro hle
      simp [Service.RegisterForEventOver, happ, hr, hle]
    · intro hle
      simp [Service.RegisterForEventOver, happ, hr, hle]
    · intro hle
      simp [Service.RegisterForEventOver, happ, hr, hle]
    · intro h1 h2 h3
      simp [Service.RegisterForEventOver, happ, hr, h1, h2, h3]
    · intro hle
      simp [Service.RegisterForEventOver, happ, hr, hle]
  · intro ce hc
    constructor
    · intro hce
      simp [Service.RegisterForEventOver, hc, hce]
    · intro hce
      simp [Service.RegisterForEventOver, hc, hce]

theorem facade_error_mapping_witness :
    (postgresRegStorage true).RegisterForEvent sampleFullDb 9 10 =
        (sampleFullDb, .error .ErrMemberNotFound) ∧
      Service.RegisterForEventOver (postgresRegStorage true) sampleStaleDirectory
          sampleFullDb 9 10 = (sampleFullDb, .error .ErrRegistrationFailed) ∧
      Service.RegisterForEventOver (postgresRegStorage true) sampleStaleDirectory
          sampleFullDb 2 10 = (sampleFullDb, .error .ErrEventFull) ∧
      Service.RegisterForEventOver (postgresRegStorage true) sampleBrokenDirectory
          sampleFullDb 2 10 = (sampleFullDb, .error .ErrRegistrationFailed) :=
  ⟨by decide,
    ((facade_error_mapping (postgresRegStorage true) sampleStaleDirectory sampleFullDb 9
      10).2.1 (by decide) sampleFullDb .ErrMemberNotFound (by decide)).2.2.2.2 (by decide),
    ((facade_error_mapping (postgresRegStorage true) sampleStaleDirectory sampleFullDb 2
      10).2.1 (by decide) sampleFullDb .ErrEventFull (by decide)).1 (by decide),
    ((facade_error_mapping (postgresRegStorage true) sampleBrokenDirectory sampleFullDb 2
      10).2.2 (.wrapped "08006") (by decide)).2 (by decide)⟩

/-! ## The event catalog -/

/-- C24: `UpdateEvent` does not preserve the capacity invariant. There is a state
that satisfies the key constraints and holds at most `capacity` registered rows
for every event, and an `UpdateEvent` call on a stored event, with a capacity
below its registered count, that returns no error at the storage and at the
service level and after which the invariant fails. For every state and call,
`UpdateEvent` leaves registrations and members as they were, the service method
leaves the state the storage method leaves, every event row with the id holds
the supplied capacity afterwards, and on a stored id no error is returned,
whatever the registered count. -/
theorem update_event_breaks_capacity :
    (∃ (db : Db) (id : Int) (title description : String)
        (evType evDate location capacity : Int),
        UniqueEventIds db.events ∧ UniquePairs db.registrations ∧ CapacityInv db ∧
        capacity < (registeredCount db.registrations id : Int) ∧
        (PostgresStorage.UpdateEvent db id title description evType evDate location
          capacity).2 = none ∧
        (Events.Service.UpdateEvent db id title description evType evDate location
          capacity).2 = none ∧
        ¬ CapacityInv (PostgresStorage.UpdateEvent db id title description evType evDate
          location capacity).1 ∧
        ¬ CapacityInv (Events.Service.UpdateEvent db id title description evType evDate
          location capacity).1) ∧
      (∀ (db : Db) (id : Int) (title description : String)
        (evType evDate location capacity : Int),
        (PostgresStorage.UpdateEvent db id title description evType evDate location
          capacity).1.registrations = db.registrations ∧
        (PostgresStorage.UpdateEvent db id title description evType evDate location
          capacity).1.members = db.members ∧
        (Events.Service.UpdateEvent db id title description evType evDate location
          capacity).1 =
          (PostgresStorage.UpdateEvent db id title description evType evDate location
            capacity).1 ∧
        (∀ ev ∈ (PostgresStorage.UpdateEvent db id title description evType evDate location
          capacity).1.events, ev.id = id → ev.capacity = capacity) ∧
        (eventExists db id = true →
          (PostgresStorage.UpdateEvent db id title description evType evDate location
            capacity).2 = none)) := by
  constructor
  · exact ⟨sampleSoldOutDb, 10, "", "", 0, 0, 0, 1, by decide, by decide, by decide, by decide,
      by decide, by decide, by decide, by decide⟩
  · intro db id title description evType evDate location capacity
    have hfst : (PostgresStorage.UpdateEvent db id title description evType evDate location
        capacity).1 = { db with events := db.events.map (fun ev =>
          if ev.id = id then
            { ev with title := title, description := description, eventType := evType,
                      eventDate := evDate, location := location, capacity := capacity }
          else ev) } := by
      unfold PostgresStorage.UpdateEvent
      simp only []
      split <;> rfl
    refine ⟨by rw [hfst], by rw [hfst], ?_, ?_, ?_⟩
    · unfold Events.Service.UpdateEvent
      cases h : PostgresStorage.UpdateEvent db id title description evType evDate location
          capacity with
      | mk d r =>
        cases r with
        | none => rfl
        | some err =>
          simp only []
          split_ifs <;> rfl
    · intro ev hev hid
      rw [hfst] at hev
      simp only [List.mem_map] at hev
      obtain ⟨ev0, _, hEq⟩ := hev
      by_cases h0 : ev0.id = id
      · simp only [h0, if_true] at hEq
        rw [← hEq]
      · simp only [h0, if_false] at hEq
        rw [hEq] at h0
        exact absurd hid h0
    · intro hex
      simp only [eventExists, List.any_eq_true] at hex
      obtain ⟨ev, hev, hid⟩ := hex
      have hmem : ev ∈ db.events.filter (fun ev => decide (ev.id = id)) :=
        List.mem_filter.2 ⟨hev, hid⟩
      have hlen : (db.events.filter (fun ev => decide (ev.id = id))).length ≠ 0 := by
        intro h0
        rw [List.length_eq_zero] at h0
        rw [h0] at hmem
        cases hmem
      simp [PostgresStorage.UpdateEvent, hlen]

theorem mem_eventJoin (cat : Catalog) (db : Db) (e : EventRow) (et : EventTypeRow)
    (l : LocationRow) :
    (e, et, l) ∈ eventJoin cat db ↔
      e ∈ db.events ∧ et ∈ cat.eventTypes ∧ l ∈ cat.locations ∧
        e.eventType = et.id ∧ e.location = l.id := by
  simp only [eventJoin, List.mem_flatMap, List.mem_filter, List.mem_map, decide_eq_true_eq,
    Prod.mk.injEq]
  constructor
  · rintro ⟨e1, he1, et1, ⟨het1, hty⟩, l1, ⟨hl1, hloc⟩, h1, h2, h3⟩
    subst h1 h2 h3
    exact ⟨he1, het1, hl1, hty, hloc⟩
  · rintro ⟨he, het, hl, hty, hloc⟩
    exact ⟨e, he, et, ⟨het, hty⟩, l, ⟨hl, hloc⟩, rfl, rfl, rfl⟩

theorem mem_orderByEventDate (rows : List (EventRow × EventTypeRow × LocationRow))
    (t : EventRow × EventTypeRow × LocationRow) : t ∈ orderByEventDate rows ↔ t ∈ rows := by
  unfold orderByEventDate
  exact List.mem_mergeSort

theorem mem_anyStatusEventIds (db : Db) (m : Nat) (id : Int) :
    (anyStatusEventIds db m).any (fun x => decide (id = x)) = true ↔
      ∃ r ∈ db.registrations, r.userId = m ∧ r.eventId = id := by
  simp only [anyStatusEventIds, List.any_eq_true, List.mem_map, List.mem_filter,
    decide_eq_true_eq]
  constructor
  · rintro ⟨x, ⟨r, ⟨hr, hm⟩, hx⟩, hid⟩
    exact ⟨r, hr, hm, by rw [hx, hid]⟩
  · rintro ⟨r, hr, hm, hid⟩
    exact ⟨r.eventId, ⟨r, ⟨hr, hm⟩, rfl⟩, hid.symm⟩

theorem mem_registeredEventIds (db : Db) (m : Nat) (id : Int) :
    (registeredEventIds db m).any (fun x => decide (id = x)) = true ↔
      ∃ r ∈ db.registrations, r.userId = m ∧ r.eventId = id ∧ r.status = "registered" := by
  simp only [registeredEventIds, List.any_eq_true, List.mem_map, List.mem_filter,
    decide_eq_true_eq, Bool.and_eq_true]
  constructor
  · rintro ⟨x, ⟨r, ⟨hr, hm, hs⟩, hx⟩, hid⟩
    exact ⟨r, hr, hm, by rw [hx, hid], hs⟩
  · rintro ⟨r, hr, hm, hid, hs⟩
    exact ⟨r.eventId, ⟨r, ⟨hr, hm, hs⟩, rfl⟩, hid.symm⟩

theorem mem_GetRegisteredEvents (cat : Catalog) (db : Db) (now : Int) (m : Nat) (x : Event) :
    x ∈ PostgresStorage.GetRegisteredEvents cat db now m ↔
      ∃ e ∈ db.events, ∃ et ∈ cat.eventTypes, ∃ l ∈ cat.locations,
        e.eventType = et.id ∧ e.location = l.id ∧ now ≤ e.eventDate ∧
        (∃ r ∈ db.registrations, r.userId = m ∧ r.eventId = e.id) ∧
        x = scanEvent (e, et, l) := by
  simp only [PostgresStorage.GetRegisteredEvents, List.mem_map, mem_orderByEventDate,
    List.mem_filter, Bool.and_eq_true, decide_eq_true_eq, mem_anyStatusEventIds]
  constructor
  · rintro ⟨⟨e, et, l⟩, ⟨hj, hnow, hreg⟩, hx⟩
    rw [mem_eventJoin] at hj
    exact ⟨e, hj.1, et, hj.2.1, l, hj.2.2.1, hj.2.2.2.1, hj.2.2.2.2, hnow, hreg, hx.symm⟩
  · rintro ⟨e, he, et, het, l, hl, hty, hloc, hnow, hreg, hx⟩
    exact ⟨(e, et, l), ⟨(mem_eventJoin cat db e et l).2 ⟨he, het, hl, hty, hloc⟩, hnow, hreg⟩,
      hx.symm⟩

theorem mem_GetAvailableEvents (cat : Catalog) (db : Db) (now : Int) (m : Nat) (x : Event) :
    x ∈ PostgresStorage.GetAvailableEvents cat db now m ↔
      ∃ e ∈ db.events, ∃ et ∈ cat.eventTypes, ∃ l ∈ cat.locations,
        e.eventType = et.id ∧ e.location = l.id ∧ now ≤ e.eventDate ∧
        (¬ ∃ r ∈ db.registrations, r.userId = m ∧ r.eventId = e.id ∧
          r.status = "registered") ∧
        x = scanEvent (e, et, l) := by
  simp only [PostgresStorage.GetAvailableEvents, List.mem_map, mem_orderByEventDate,
    List.mem_filter, Bool.and_eq_true, decide_eq_true_eq, Bool.not_eq_true',
    ← Bool.not_eq_true, mem_registeredEventIds]
  constructor
  · rintro ⟨⟨e, et, l⟩, ⟨hj, hnow, hreg⟩, hx⟩
    rw [mem_eventJoin] at hj
    exact ⟨e, hj.1, et, hj.2.1, l, hj.2.2.1, hj.2.2.2.1, hj.2.2.2.2, hnow, hreg, hx.symm⟩
  · rintro ⟨e, he, et, het, l, hl, hty, hloc, hnow, hreg, hx⟩
    exact ⟨(e, et, l), ⟨(mem_eventJoin cat db e et l).2 ⟨he, het, hl, hty, hloc⟩, hnow, hreg⟩,
      hx.symm⟩

theorem register_ok_pair (fk : Bool) (db : Db) (m : Nat) (e : Int) (st : String)
    (hok : (PostgresStorage.RegisterForEvent fk db m e).2 = .ok st) :
    pairExists (PostgresStorage.RegisterForEvent fk db m e).1.registrations m e = true := by
  rcases RegisterForEvent_cases fk db m e with h | h | h
  · obtain ⟨err, herr⟩ := h.2
    rw [herr] at hok
    cases hok
  · obtain ⟨r0, hr0, hm0⟩ := h.2.1
    rw [h.2.2]
    show pairExists (updTable db m e) m e = true
    rw [pairExists_of_pairs_eq _ _ m e (updTable_pairs db m e)]
    simp only [pairExists, List.any_eq_true]
    exact ⟨r0, hr0, (updMatches_pair db m e r0 hm0).1⟩
  · rw [h.2.2]
    show pairExists (db.registrations ++ [newRow m e]) m e = true
    simp [pairExists, isPair, newRow]

/-- C25: registered versus available event lists. `GetRegisteredEvents` returns
exactly the upcoming events, joined with their type and location, for which the
member has a registration row of any status; `GetAvailableEvents` returns exactly
those for which the member has no row with status `registered`. Hence after a
successful register followed by a cancel for an upcoming event the event is in
both lists, and an upcoming event whose registered count has reached its
capacity is in `GetAvailableEvents` of every member with no registered row for
it. -/
theorem event_lists (cat : Catalog) (db : Db) (now : Int) (m : Nat) :
    (∀ x, x ∈ PostgresStorage.GetRegisteredEvents cat db now m ↔
        ∃ e ∈ db.events, ∃ et ∈ cat.eventTypes, ∃ l ∈ cat.locations,
          e.eventType = et.id ∧ e.location = l.id ∧ now ≤ e.eventDate ∧
          (∃ r ∈ db.registrations, r.userId = m ∧ r.eventId = e.id) ∧
          x = scanEvent (e, et, l)) ∧
      (∀ x, x ∈ PostgresStorage.GetAvailableEvents cat db now m ↔
        ∃ e ∈ db.events, ∃ et ∈ cat.eventTypes, ∃ l ∈ cat.locations,
          e.eventType = et.id ∧ e.location = l.id ∧ now ≤ e.eventDate ∧
          (¬ ∃ r ∈ db.registrations, r.userId = m ∧ r.eventId = e.id ∧
            r.status = "registered") ∧
          x = scanEvent (e, et, l)) ∧
      (∀ (fk : Bool) (e : EventRow) (et : EventTypeRow) (l : LocationRow) (st : String),
        e ∈ db.events → et ∈ cat.eventTypes → l ∈ cat.locations →
        e.eventType = et.id → e.location = l.id → now ≤ e.eventDate →
        (PostgresStorage.RegisterForEvent fk db m e.id).2 = .ok st →
        scanEvent (e, et, l) ∈ PostgresStorage.GetRegisteredEvents cat
          (PostgresStorage.CancelRegistration
            (PostgresStorage.RegisterForEvent fk db m e.id).1 m e.id).1 now m ∧
        scanEvent (e, et, l) ∈ PostgresStorage.GetAvailableEvents cat
          (PostgresStorage.CancelRegistration
            (PostgresStorage.RegisterForEvent fk db m e.id).1 m e.id).1 now m) ∧
      (∀ (e : EventRow) (et : EventTypeRow) (l : LocationRow),
        e ∈ db.events → et ∈ cat.eventTypes → l ∈ cat.locations →
        e.eventType = et.id → e.location = l.id → now ≤ e.eventDate →
        e.capacity ≤ (registeredCount db.registrations e.id : Int) →
        (¬ ∃ r ∈ db.registrations, r.userId = m ∧ r.eventId = e.id ∧
          r.status = "registered") →
        scanEvent (e, et, l) ∈ PostgresStorage.GetAvailableEvents cat db now m) := by
  refine ⟨mem_GetRegisteredEvents cat db now m, mem_GetAvailableEvents cat db now m, ?_, ?_⟩
  · intro fk e et l st he het hl hty hloc hnow hok
    have hpe := register_ok_pair fk db m e.id st hok
    have hev1 : (PostgresStorage.RegisterForEvent fk db m e.id).1.events = db.events :=
      step_events fk db (.register m e.id)
    have hc := cancel_fst (PostgresStorage.RegisterForEvent fk db m e.id).1 m e.id
    have hev2 : (PostgresStorage.CancelRegistration
        (PostgresStorage.RegisterForEvent fk db m e.id).1 m e.id).1.events = db.events := by
      rw [hc]
      exact hev1
    constructor
    · rw [mem_GetRegisteredEvents]
      refine ⟨e, by rw [hev2]; exact he, et, het, l, hl, hty, hloc, hnow, ?_, rfl⟩
      rw [hc]
      simp only [pairExists, List.any_eq_true] at hpe
      obtain ⟨r, hr, hp⟩ := hpe
      have hp2 := (isPair_iff m e.id r).1 hp
      refine ⟨{ r with status := "cancelled" }, ?_, hp2.1, hp2.2⟩
      simp only [List.mem_map]
      exact ⟨r, hr, by simp [hp]⟩
    · rw [mem_GetAvailableEvents]
      refine ⟨e, by rw [hev2]; exact he, et, het, l, hl, hty, hloc, hnow, ?_, rfl⟩
      rw [hc]
      rintro ⟨r, hr, hm, hid, hs⟩
      simp only [List.mem_map] at hr
      obtain ⟨r1, _, hEq⟩ := hr
      by_cases hp1 : isPair m e.id r1 = true
      · simp only [hp1, if_true] at hEq
        rw [← hEq] at hs
        have hs2 : ("cancelled" : String) = "registered" := hs
        revert hs2
        decide
      · simp only [hp1, Bool.false_eq_true, if_false] at hEq
        subst hEq
        exact hp1 ((isPair_iff m e.id r1).2 ⟨hm, hid⟩)
  · intro e et l he het hl hty hloc hnow _ hno
    rw [mem_GetAvailableEvents]
    exact ⟨e, he, et, het, l, hl, hty, hloc, hnow, hno, rfl⟩

theorem event_lists_witness :
    (scanEvent (sampleEvent 10 2, ⟨0, "concert", ""⟩, ⟨0, "hall", "", ""⟩) ∈
        PostgresStorage.GetRegisteredEvents sampleCatalog
          (PostgresStorage.CancelRegistration
            (PostgresStorage.RegisterForEvent true sampleDb 3 (sampleEvent 10 2).id).1 3
            (sampleEvent 10 2).id).1 0 3 ∧
      scanEvent (sampleEvent 10 2, ⟨0, "concert", ""⟩, ⟨0, "hall", "", ""⟩) ∈
        PostgresStorage.GetAvailableEvents sampleCatalog
          (PostgresStorage.CancelRegistration
            (PostgresStorage.RegisterForEvent true sampleDb 3 (sampleEvent 10 2).id).1 3
            (sampleEvent 10 2).id).1 0 3) ∧
      scanEvent (sampleEvent 10 2, ⟨0, "concert", ""⟩, ⟨0, "hall", "", ""⟩) ∈
        PostgresStorage.GetAvailableEvents sampleCatalog sampleSoldOutDb 0 3 :=
  ⟨(event_lists sampleCatalog sampleDb 0 3).2.2.1 true (sampleEvent 10 2) ⟨0, "concert", ""⟩
      ⟨0, "hall", "", ""⟩ "registered" (by decide) (by decide) (by decide) (by decide)
      (by decide) (by decide) (by decide),
    (event_lists sampleCatalog sampleSoldOutDb 0 3).2.2.2 (sampleEvent 10 2)
      ⟨0, "concert", ""⟩ ⟨0, "hall", "", ""⟩ (by decide) (by decide) (by decide) (by decide)
      (by decide) (by decide) (by decide) (by decide)⟩

/-! ## Matching by derivatives -/

theorem matchAll_none (x : List Char) : Regex.matchAll .none x = false := by
  induction x with
  | nil => rfl
  | cons c cs ih => simpa [Regex.matchAll, Regex.deriv] using ih

theorem matchAll_eps (x : List Char) : Regex.matchAll .eps x = true ↔ x = [] := by
  cases x with
  | nil => simp [Regex.matchAll, Regex.nullable]
  | cons c cs => simp [Regex.matchAll, Regex.deriv, matchAll_none]

theorem matchAll_cls (p : Char → Bool) (x : List Char) :
    Regex.matchAll (.cls p) x = true ↔ ∃ c, x = [c] ∧ p c = true := by
  cases x with
  | nil => simp [Regex.matchAll, Regex.nullable]
  | cons c cs =>
    by_cases h : p c = true
    · simp only [Regex.matchAll, Regex.deriv, h, if_true, matchAll_eps]
      constructor
      · intro hcs
        subst hcs
        exact ⟨c, rfl, h⟩
      · rintro ⟨c1, h1, _⟩
        simp only [List.cons.injEq] at h1
        exact h1.2
    · simp only [Regex.matchAll, Regex.deriv, h, Bool.false_eq_true, if_false, matchAll_none,
        false_iff]
      rintro ⟨c1, h1, h2⟩
      simp only [List.cons.injEq] at h1
      rw [← h1.1] at h2
      exact h h2

theorem matchAll_alt (a b : Regex) (x : List Char) :
    Regex.matchAll (.alt a b) x = (Regex.matchAll a x || Regex.matchAll b x) := by
  induction x generalizing a b with
  | nil => rfl
  | cons c cs ih => simp only [Regex.matchAll, Regex.deriv, ih]

/-- A concatenation matches exactly the strings that split into a match of each
part. -/
theorem matchAll_seq (a b : Regex) (x : List Char) :
    Regex.matchAll (.seq a b) x = true ↔
      ∃ t u, x = t ++ u ∧ Regex.matchAll a t = true ∧ Regex.matchAll b u = true := by
  induction x generalizing a with
  | nil =>
    simp only [Regex.matchAll, Regex.nullable, Bool.and_eq_true]
    constructor
    · rintro ⟨h1, h2⟩
      exact ⟨[], [], rfl, h1, h2⟩
    · rintro ⟨t, u, h, h1, h2⟩
      have ht : t = [] := (List.append_eq_nil.1 h.symm).1
      have hu : u = [] := (List.append_eq_nil.1 h.symm).2
      subst ht hu
      exact ⟨h1, h2⟩
  | cons c cs ih =>
    by_cases hn : a.nullable = true
    · simp only [Regex.matchAll, Regex.deriv, hn, if_true, matchAll_alt, Bool.or_eq_true, ih]
      constructor
      · rintro (⟨t, u, h, h1, h2⟩ | h)
        · exact ⟨c :: t, u, by rw [h]; rfl, h1, h2⟩
        · exact ⟨[], c :: cs, rfl, hn, h⟩
      · rintro ⟨t, u, h, h1, h2⟩
        cases t with
        | nil =>
          simp only [List.nil_append] at h
          subst h
          exact Or.inr h2
        | cons d t1 =>
          simp only [List.cons_append, List.cons.injEq] at h
          obtain ⟨hd, ht⟩ := h
          subst hd
          exact Or.inl ⟨t1, u, ht, h1, h2⟩
    · simp only [Regex.matchAll, Regex.deriv, hn, Bool.false_eq_true, if_false, ih]
      constructor
      · rintro ⟨t, u, h, h1, h2⟩
        exact ⟨c :: t, u, by rw [h]; rfl, h1, h2⟩
      · rintro ⟨t, u, h, h1, h2⟩
        cases t with
        | nil => exact absurd h1 hn
        | cons d t1 =>
          simp only [List.cons_append, List.cons.injEq] at h
          obtain ⟨hd, ht⟩ := h
          subst hd
          exact ⟨t1, u, ht, h1, h2⟩

theorem matchAll_rep_cls (p : Char → Bool) (n : Nat) (x : List Char) :
    Regex.matchAll (Regex.rep (.cls p) n) x = true ↔
      x.length = n ∧ ∀ c ∈ x, p c = true := by
  induction n generalizing x with
  | zero =>
    simp only [Regex.rep, matchAll_eps]
    constructor
    · intro h
      subst h
      simp
    · intro h
      exact List.length_eq_zero.1 h.1
  | succ n ih =>
    simp only [Regex.rep, matchAll_seq, matchAll_cls, ih]
    constructor
    · rintro ⟨t, u, h, ⟨c, ht, hc⟩, hlen, hall⟩
      subst h ht
      refine ⟨by simp [hlen], ?_⟩
      intro d hd
      simp only [List.singleton_append, List.mem_cons] at hd
      rcases hd with hd | hd
      · rw [hd]; exact hc
      · exact hall d hd
    · rintro ⟨hlen, hall⟩
      cases x with
      | nil => simp at hlen
      | cons c cs =>
        refine ⟨[c], cs, rfl, ⟨c, rfl, hall c (by simp)⟩, by simpa using hlen, ?_⟩
        intro d hd
        exact hall d (by simp [hd])

theorem matchAll_star_cls (p : Char → Bool) (x : List Char) :
    Regex.matchAll (.star (.cls p)) x = true ↔ ∀ c ∈ x, p c = true := by
  induction x with
  | nil => simp [Regex.matchAll, Regex.nullable]
  | cons c cs ih =>
    simp only [Regex.matchAll, Regex.deriv, matchAll_seq]
    by_cases h : p c = true
    · simp only [h, if_true, matchAll_eps]
      constructor
      · rintro ⟨t, u, hcs, ht, hu⟩
        subst ht
        simp only [List.nil_append] at hcs
        subst hcs
        intro d hd
        simp only [List.mem_cons] at hd
        rcases hd with hd | hd
        · rw [hd]; exact h
        · exact ih.1 hu d hd
      · intro hall
        exact ⟨[], cs, rfl, rfl, ih.2 (fun d hd => hall d (by simp [hd]))⟩
    · simp only [h, Bool.false_eq_true, if_false, matchAll_none]
      constructor
      · rintro ⟨t, u, _, ht, _⟩
        cases ht
      · intro hall
        exact absurd (hall c (by simp)) h

theorem matchAll_plus_cls (p : Char → Bool) (x : List Char) :
    Regex.matchAll (Regex.plus (.cls p)) x = true ↔ x ≠ [] ∧ ∀ c ∈ x, p c = true := by
  simp only [Regex.plus, matchAll_seq, matchAll_cls, matchAll_star_cls]
  constructor
  · rintro ⟨t, u, h, ⟨c, ht, hc⟩, hall⟩
    subst h ht
    refine ⟨by simp, ?_⟩
    intro d hd
    simp only [List.singleton_append, List.mem_cons] at hd
    rcases hd with hd | hd
    · rw [hd]; exact hc
    · exact hall d hd
  · rintro ⟨hne, hall⟩
    cases x with
    | nil => exact absurd rfl hne
    | cons c cs =>
      exact ⟨[c], cs, rfl, ⟨c, rfl, hall c (by simp)⟩, fun d hd => hall d (by simp [hd])⟩

/-! ## The two validators -/

theorem phonePattern_iff (x : List Char) :
    Regex.matchAll phonePattern x = true ↔
      ∃ rest, x = '7' :: rest ∧ rest.length = 10 ∧ ∀ c ∈ rest, isAsciiDigit c = true := by
  simp only [phonePattern, matchAll_seq, matchAll_cls, matchAll_rep_cls, decide_eq_true_eq]
  constructor
  · rintro ⟨t, u, h, ⟨c, ht, hc⟩, hlen, hall⟩
    subst h ht hc
    exact ⟨u, rfl, hlen, hall⟩
  · rintro ⟨rest, h, hlen, hall⟩
    exact ⟨['7'], rest, h, ⟨'7', rfl, rfl⟩, hlen, hall⟩

theorem emailPattern_iff (x : List Char) :
    Regex.matchAll emailPattern x = true ↔
      ∃ a b c, x = a ++ '@' :: (b ++ '.' :: c) ∧ a ≠ [] ∧ b ≠ [] ∧ c ≠ [] ∧
        (∀ ch ∈ a, ch ≠ '@') ∧ (∀ ch ∈ b, ch ≠ '@') ∧ (∀ ch ∈ c, ch ≠ '@') := by
  simp only [emailPattern, matchAll_seq, matchAll_cls, matchAll_plus_cls, decide_eq_true_eq,
    isNotAt, Bool.not_eq_true', decide_eq_false_iff_not]
  constructor
  · rintro ⟨a, r1, h1, ⟨ha, haa⟩, t2, r2, h2, ⟨c2, ht2, hc2⟩, b, r3, h3, ⟨hb, hbb⟩,
      t4, c, h4, ⟨c4, ht4, hc4⟩, hc, hcc⟩
    subst h1 h2 h3 h4 ht2 ht4 hc2 hc4
    exact ⟨a, b, c, by simp, ha, hb, hc, haa, hbb, hcc⟩
  · rintro ⟨a, b, c, h, ha, hb, hc, haa, hbb, hcc⟩
    exact ⟨a, '@' :: (b ++ '.' :: c), h, ⟨ha, haa⟩, ['@'], b ++ '.' :: c, rfl, ⟨'@', rfl, rfl⟩,
      b, '.' :: c, rfl, ⟨hb, hbb⟩, ['.'], c, rfl, ⟨'.', rfl, rfl⟩, hc, hcc⟩

/-- C27: `IsValidPhone` accepts exactly the strings of 11 characters whose first is
`7` and whose other ten are ASCII digits `0` to `9`. In particular it rejects
the empty string, every string whose first character is not `7` (a `+`, another
digit), and an accepted string followed by one more character, the newline
included. -/
theorem phone_valid_iff (s : String) :
    (IsValidPhone s = true ↔
        s.length = 11 ∧
        ∃ rest, s.toList = '7' :: rest ∧ ∀ c ∈ rest, '0' ≤ c ∧ c ≤ '9') ∧
      IsValidPhone "" = false ∧
      (∀ (c : Char) (cs : List Char), c ≠ '7' → IsValidPhone (String.mk (c :: cs)) = false) ∧
      (∀ c : Char, IsValidPhone s = true → IsValidPhone (s.push c) = false) := by
  have hlen : ∀ t : String, t.length = t.toList.length := fun t => rfl
  have hiff : ∀ t : String, IsValidPhone t = true ↔
      t.length = 11 ∧ ∃ rest, t.toList = '7' :: rest ∧ ∀ c ∈ rest, '0' ≤ c ∧ c ≤ '9' := by
    intro t
    unfold IsValidPhone
    rw [phonePattern_iff, hlen]
    constructor
    · rintro ⟨rest, h, hl, hall⟩
      refine ⟨by rw [h]; simp [hl], rest, h, ?_⟩
      intro c hc
      simpa [isAsciiDigit] using hall c hc
    · rintro ⟨hl, rest, h, hall⟩
      refine ⟨rest, h, ?_, ?_⟩
      · rw [h] at hl
        simpa using hl
      · intro c hc
        simpa [isAsciiDigit] using hall c hc
  refine ⟨hiff s, by decide, ?_, ?_⟩
  · intro c cs hne
    cases hv : IsValidPhone (String.mk (c :: cs)) with
    | false => rfl
    | true =>
      exfalso
      obtain ⟨_, rest, h, _⟩ := (hiff _).1 hv
      have h2 : c :: cs = '7' :: rest := h
      simp only [List.cons.injEq] at h2
      exact hne h2.1
  · intro c hv
    cases hv2 : IsValidPhone (s.push c) with
    | false => rfl
    | true =>
      exfalso
      have h1 := ((hiff s).1 hv).1
      have h2 := ((hiff _).1 hv2).1
      rw [String.length_push] at h2
      omega

theorem phone_valid_iff_witness :
    IsValidPhone "79991234567" = true ∧
      IsValidPhone "" = false ∧
      IsValidPhone (String.mk ('+' :: "79991234567".toList)) = false ∧
      IsValidPhone (String.mk ('8' :: "9991234567".toList)) = false ∧
      IsValidPhone ("79991234567".push '\n') = false :=
  ⟨by decide, (phone_valid_iff "79991234567").2.1,
    (phone_valid_iff "79991234567").2.2.1 '+' _ (by decide),
    (phone_valid_iff "79991234567").2.2.1 '8' _ (by decide),
    (phone_valid_iff "79991234567").2.2.2 '\n' (by decide)⟩

/-- C28: `IsValidEmail` accepts exactly the strings with exactly one `@`, a
non-empty part before it, and a part after it that holds a `.` which is neither
its first nor its last character. No other character is restricted: spaces and
newlines are accepted. -/
theorem email_valid_iff (s : String) :
    (IsValidEmail s = true ↔
        ∃ before after, s.toList = before ++ '@' :: after ∧
          '@' ∉ before ∧ '@' ∉ after ∧ before ≠ [] ∧
          ∃ u v, after = u ++ '.' :: v ∧ u ≠ [] ∧ v ≠ []) ∧
      IsValidEmail "a b\n@c d.e\n" = true := by
  refine ⟨?_, by decide⟩
  unfold IsValidEmail
  rw [emailPattern_iff]
  constructor
  · rintro ⟨a, b, c, h, ha, hb, hc, haa, hbb, hcc⟩
    refine ⟨a, b ++ '.' :: c, h, fun hm => haa '@' hm rfl, ?_, ha, b, c, rfl, hb, hc⟩
    intro hm
    simp only [List.mem_append, List.mem_cons] at hm
    rcases hm with hm | hm | hm
    · exact hbb '@' hm rfl
    · revert hm
      decide
    · exact hcc '@' hm rfl
  · rintro ⟨a, after, h, ha1, ha2, ha, u, v, hafter, hu, hv⟩
    subst hafter
    refine ⟨a, u, v, h, ha, hu, hv, ?_, ?_, ?_⟩
    · intro ch hch heq
      rw [heq] at hch
      exact ha1 hch
    · intro ch hch heq
      rw [heq] at hch
      exact ha2 (by simp [hch])
    · intro ch hch heq
      rw [heq] at hch
      exact ha2 (by simp [hch])

theorem email_valid_iff_witness :
    IsValidEmail "ann@club.org" = true ∧ IsValidEmail "a b\n@c d.e\n" = true :=
  ⟨(email_valid_iff "ann@club.org").1.2 ⟨"ann".toList, "club.org".toList, by decide,
      by decide, by decide, by decide, "club".toList, "org".toList, by decide, by decide,
      by decide⟩,
    (email_valid_iff "ann@club.org").2⟩

/-! ## The member paths -/

/-- C26: `AddMember` validates before writing, email first. For every input and
every insert statement: when `IsValidEmail` rejects the email, `AddMember`
returns `ErrInvalidEmail`, whatever the phone; when the email passes and
`IsValidPhone` rejects the phone, it returns `ErrInvalidPhone`. In both cases the
result does not depend on the insert statement, which is not run, the state is
the state before the call, and `members.Service.AddMember` returns
`service.ErrInvalidEmail` and `service.ErrInvalidPhone` respectively. -/
theorem add_member_validates_first
    (insert : Db → String → String → String → Db × Except ScanErr Nat)
    (createdAt : MemberRow → Int) (db : Db) (fullName email phone : String) :
    (IsValidEmail email = false →
        PostgresStorage.AddMember insert db fullName email phone =
          (db, .error .ErrInvalidEmail) ∧
        Members.Service.AddMember (postgresMembers createdAt insert) db fullName email phone =
          (db, .error .ErrInvalidEmail)) ∧
      (IsValidEmail email = true → IsValidPhone phone = false →
        PostgresStorage.AddMember insert db fullName email phone =
          (db, .error .ErrInvalidPhone) ∧
        Members.Service.AddMember (postgresMembers createdAt insert) db fullName email phone =
          (db, .error .ErrInvalidPhone)) := by
  constructor
  · intro he
    have h1 : PostgresStorage.AddMember insert db fullName email phone =
        (db, .error .ErrInvalidEmail) := by
      simp [PostgresStorage.AddMember, he]
    exact ⟨h1, by simp [Members.Service.AddMember, postgresMembers, h1]⟩
  · intro he hp
    have h1 : PostgresStorage.AddMember insert db fullName email phone =
        (db, .error .ErrInvalidPhone) := by
      simp [PostgresStorage.AddMember, he, hp]
    exact ⟨h1, by simp [Members.Service.AddMember, postgresMembers, h1]⟩

theorem add_member_validates_first_witness :
    (PostgresStorage.AddMember sampleInsert sampleDb "Ann" "ann.club.org" "123" =
        (sampleDb, .error .ErrInvalidEmail) ∧
      Members.Service.AddMember (postgresMembers (fun _ => 0) sampleInsert) sampleDb "Ann"
        "ann.club.org" "123" = (sampleDb, .error .ErrInvalidEmail)) ∧
      (PostgresStorage.AddMember sampleInsert sampleDb "Ann" "ann@club.org" "123" =
        (sampleDb, .error .ErrInvalidPhone) ∧
      Members.Service.AddMember (postgresMembers (fun _ => 0) sampleInsert) sampleDb "Ann"
        "ann@club.org" "123" = (sampleDb, .error .ErrInvalidPhone)) ∧
      (PostgresStorage.AddMember sampleInsert sampleDb "Ann" "ann@club.org" "79991234567").2 =
        .ok 100 :=
  ⟨(add_member_validates_first sampleInsert (fun _ => 0) sampleDb "Ann" "ann.club.org"
      "123").1 (by decide),
    (add_member_validates_first sampleInsert (fun _ => 0) sampleDb "Ann" "ann@club.org"
      "123").2 (by decide) (by decide),
    by decide⟩

theorem unknownStatus_iff (st : String) :
    unknownStatus st = true ↔ st ≠ "pending" ∧ st ≠ "approved" ∧ st ≠ "declined" := by
  simp only [unknownStatus, Bool.and_eq_true, decide_eq_true_eq]
  constructor
  · rintro ⟨⟨h1, h2⟩, h3⟩
    exact ⟨h3, h2, h1⟩
  · rintro ⟨h1, h2, h3⟩
    exact ⟨⟨h3, h2⟩, h1⟩

/-- C29: member status validation. Over any member storage,
`members.Service.UpdateMemberStatus` returns `ErrUnknownStatus` exactly when the
status is none of `pending`, `approved`, `declined`, the empty string included,
and then the result does not depend on the storage, which is not called, and
the state is as it was. `members.Service.GetMembers` returns what the storage
lists when the status is empty, for `PostgresStorage` all member rows;
`ErrUnknownStatus`, whatever the storage, when the status is non-empty and none
of the three; and otherwise, for `PostgresStorage`, exactly the member rows with
that status. -/
theorem member_status_validation (memberStorage : Members.MemberStorage)
    (createdAt : MemberRow → Int)
    (insert : Db → String → String → String → Db × Except ScanErr Nat)
    (db : Db) (id : Nat) (st : String) :
    ((Members.Service.UpdateMemberStatus memberStorage db id st).2 = some .ErrUnknownStatus ↔
        st ≠ "pending" ∧ st ≠ "approved" ∧ st ≠ "declined") ∧
      (st ≠ "pending" ∧ st ≠ "approved" ∧ st ≠ "declined" →
        Members.Service.UpdateMemberStatus memberStorage db id st =
          (db, some .ErrUnknownStatus)) ∧
      Members.Service.UpdateMemberStatus memberStorage db id "" =
        (db, some .ErrUnknownStatus) ∧
      (∃ all, Members.Service.GetMembers (postgresMembers createdAt insert) db "" = .ok all ∧
        all.Perm db.members) ∧
      (st ≠ "" → st ≠ "pending" ∧ st ≠ "approved" ∧ st ≠ "declined" →
        Members.Service.GetMembers memberStorage db st = .error .ErrUnknownStatus) ∧
      (st = "pending" ∨ st = "approved" ∨ st = "declined" →
        ∃ some_, Members.Service.GetMembers (postgresMembers createdAt insert) db st =
            .ok some_ ∧
          some_.Perm (db.members.filter (fun m => decide (m.status = st))) ∧
          ∀ m, m ∈ some_ ↔ m ∈ db.members ∧ m.status = st) := by
  refine ⟨?_, ?_, ?_, ?_, ?_, ?_⟩
  · rw [← unknownStatus_iff]
    unfold Members.Service.UpdateMemberStatus
    cases hu : unknownStatus st with
    | true => simp
    | false =>
      simp only [Bool.false_eq_true, if_false, iff_false]
      cases hr : memberStorage.UpdateMemberStatus db id st with
      | mk d r =>
        cases r with
        | none => simp
        | some err =>
          simp only []
          split_ifs <;> simp
  · intro h
    have hu := (unknownStatus_iff st).2 h
    simp [Members.Service.UpdateMemberStatus, hu]
  · have hu : unknownStatus "" = true := by decide
    simp [Members.Service.UpdateMemberStatus, hu]
  · refine ⟨orderByCreatedDesc createdAt db.members, ?_, ?_⟩
    · simp [Members.Service.GetMembers, postgresMembers, PostgresStorage.GetMembers]
    · exact List.mergeSort_perm _ _
  · intro hne h
    have hu := (unknownStatus_iff st).2 h
    simp [Members.Service.GetMembers, hne, hu]
  · intro h
    have hne : st ≠ "" := by
      rcases h with h | h | h <;> rw [h] <;> decide
    have hu : unknownStatus st = false := by
      rcases h with h | h | h <;> rw [h] <;> decide
    refine ⟨orderByCreatedDesc createdAt
      (db.members.filter (fun m => decide (m.status = st))), ?_, ?_, ?_⟩
    · simp [Members.Service.GetMembers, postgresMembers, PostgresStorage.GetMembersWithStatus,
        hne, hu]
    · exact List.mergeSort_perm _ _
    · intro m
      unfold orderByCreatedDesc
      rw [List.mem_mergeSort, List.mem_filter]
      simp

theorem member_status_validation_witness :
    Members.Service.UpdateMemberStatus sampleLoudStorage sampleGateDb 4 "Approved" =
        (sampleGateDb, some .ErrUnknownStatus) ∧
      Members.Service.GetMembers sampleLoudStorage sampleGateDb "banned" =
        .error .ErrUnknownStatus ∧
      (∃ some_, Members.Service.GetMembers (postgresMembers (fun _ => 0) sampleInsert)
            sampleGateDb "pending" = .ok some_ ∧
          some_.Perm (sampleGateDb.members.filter (fun m => decide (m.status = "pending"))) ∧
          ∀ m, m ∈ some_ ↔ m ∈ sampleGateDb.members ∧ m.status = "pending") :=
  ⟨(member_status_validation sampleLoudStorage (fun _ => 0) sampleInsert sampleGateDb 4
      "Approved").2.1 (by decide),
    (member_status_validation sampleLoudStorage (fun _ => 0) sampleInsert sampleGateDb 4
      "banned").2.2.2.2.1 (by decide) (by decide),
    (member_status_validation sampleLoudStorage (fun _ => 0) sampleInsert sampleGateDb 4
      "pending").2.2.2.2.2 (by decide)⟩

/-! ## The query of `GetEvents` -/

/-- C30: filter construction of `GetEvents`. For each of the 8 combinations of the
optional filters the query is the select text, then ` WHERE ` and the
conditions joined by ` AND ` exactly when a filter is present, then the
`ORDER BY`; the conditions stand in the order `e.event_type =`, `e.event_date >=`,
`e.event_date <=`, their placeholders are `$1` to `$k` for `k` present filters,
and the argument list holds the `k` filter values in the order of the
placeholders. -/
theorem get_events_filter_construction (t b e : Int) :
    PostgresStorage.getEventsQuery none none none =
        (getEventsSelect ++ " ORDER BY e.event_date ASC", []) ∧
      PostgresStorage.getEventsQuery (some t) none none =
        (getEventsSelect ++ " WHERE " ++ "e.event_type = $1" ++
          " ORDER BY e.event_date ASC", [.int t]) ∧
      PostgresStorage.getEventsQuery none (some b) none =
        (getEventsSelect ++ " WHERE " ++ "e.event_date >= $1" ++
          " ORDER BY e.event_date ASC", [.time b]) ∧
      PostgresStorage.getEventsQuery none none (some e) =
        (getEventsSelect ++ " WHERE " ++ "e.event_date <= $1" ++
          " ORDER BY e.event_date ASC", [.time e]) ∧
      PostgresStorage.getEventsQuery (some t) (some b) none =
        (getEventsSelect ++ " WHERE " ++ "e.event_type = $1 AND e.event_date >= $2" ++
          " ORDER BY e.event_date ASC", [.int t, .time b]) ∧
      PostgresStorage.getEventsQuery (some t) none (some e) =
        (getEventsSelect ++ " WHERE " ++ "e.event_type = $1 AND e.event_date <= $2" ++
          " ORDER BY e.event_date ASC", [.int t, .time e]) ∧
      PostgresStorage.getEventsQuery none (some b) (some e) =
        (getEventsSelect ++ " WHERE " ++ "e.event_date >= $1 AND e.event_date <= $2" ++
          " ORDER BY e.event_date ASC", [.time b, .time e]) ∧
      PostgresStorage.getEventsQuery (some t) (some b) (some e) =
        (getEventsSelect ++ " WHERE " ++ "e.event_type = $1 AND e.event_date >= $2 AND e.event_date <= $3" ++
          " ORDER BY e.event_date ASC", [.int t, .time b, .time e]) ∧
      (∀ ot ob oe : Option Int,
        (getEventsFilters ot ob oe).conds.length = presentFilters ot ob oe ∧
        (getEventsFilters ot ob oe).args.length = presentFilters ot ob oe ∧
        (getEventsFilters ot ob oe).argNum = presentFilters ot ob oe + 1) := by
  have ht : " AND ".intercalate ["e.event_type = $" ++ toString 1] =
      "e.event_type = $1" := by decide
  have hb : " AND ".intercalate ["e.event_date >= $" ++ toString 1] =
      "e.event_date >= $1" := by decide
  have he : " AND ".intercalate ["e.event_date <= $" ++ toString 1] =
      "e.event_date <= $1" := by decide
  have htb : " AND ".intercalate ["e.event_type = $" ++ toString 1, "e.event_date >= $" ++ toString (1 + 1)] =
      "e.event_type = $1 AND e.event_date >= $2" := by decide
  have hte : " AND ".intercalate ["e.event_type = $" ++ toString 1, "e.event_date <= $" ++ toString (1 + 1)] =
      "e.event_type = $1 AND e.event_date <= $2" := by decide
  have hbe : " AND ".intercalate ["e.event_date >= $" ++ toString 1, "e.event_date <= $" ++ toString (1 + 1)] =
      "e.event_date >= $1 AND e.event_date <= $2" := by decide
  have htbe : " AND ".intercalate ["e.event_type = $" ++ toString 1, "e.event_date >= $" ++ toString (1 + 1), "e.event_date <= $" ++ toString (1 + 1 + 1)] =
      "e.event_type = $1 AND e.event_date >= $2 AND e.event_date <= $3" := by decide
  unfold PostgresStorage.getEventsQuery getEventsFilters
  generalize getEventsSelect = sel
  simp only [List.nil_append, List.cons_append, List.length_cons, List.length_nil, ht, hb, he,
    htb, hte, hbe, htbe]
  refine ⟨by simp, by simp, by simp, by simp, by simp, by simp, by simp, by simp, ?_⟩
  intro ot ob oe
  cases ot <;> cases ob <;> cases oe <;> exact ⟨rfl, rfl, rfl⟩

end Orchestra
